import Mathlib

/-!
# A verification development of the transforming reverse proxy

Shallow embedding of the Go sources (package siteconfig: format_functions.go,
formatting.go, cache.go, siteconfig.go; package http_server: http_server.go;
package encoding: encode_decode.go) and theorems about them.

Conventions of the embedding
* A Go string or byte slice is the list of its bytes (GoString); len is the
  list length.
* A Go function that returns (value, error) and may also fail at run time
  returns an Outcome: ok, error or panic.
* Library code outside the repository (strings.ToUpper, strings.Title, the
  regexp engine for user patterns, the compression codecs, the clock, the
  upstream servers) is a parameter of the definitions that use it.
-/

namespace Proxier

/-! ## Strings -/

/-- A Go string: the list of its bytes. -/
abbrev GoString := List Nat

/-- The bytes of an ASCII literal. -/
def str (s : String) : GoString := s.data.map Char.toNat

/-- Result of a Go call: a value, a returned error, or a run-time panic. -/
inductive Outcome (ε α : Type) where
  | ok (a : α)
  | error (e : ε)
  | panic
  deriving DecidableEq, Repr

/-- Go strings.Index(s, c) for a one-byte needle: index of the first c, or -1. -/
def indexByte (c : Nat) : GoString → Int
  | [] => -1
  | b :: t => if b = c then 0 else
      let i := indexByte c t
      if i < 0 then -1 else i + 1

/-- Go strings.Contains(s, c) for a one-byte needle. -/
def containsByte (c : Nat) (s : GoString) : Bool := decide (c ∈ s)

/-- Go slice expression s[lo:hi]; none stands for the bounds panic. -/
def slice (s : GoString) (lo hi : Int) : Option GoString :=
  if 0 ≤ lo ∧ lo ≤ hi ∧ hi ≤ (s.length : Int) then
    some ((s.drop lo.toNat).take (hi.toNat - lo.toNat))
  else none

/-- Go strings.Split(s, sep) for a one-byte separator. -/
def splitByte (sep : Nat) : GoString → List GoString
  | [] => [[]]
  | c :: t =>
    if c = sep then [] :: splitByte sep t
    else match splitByte sep t with
      | [] => [[c]]
      | h :: r => (c :: h) :: r

/-! ## strconv.Atoi -/

deriving instance DecidableEq for Except

/-- The two kinds of strconv.NumError. -/
inductive AtoiKind where
  | syntaxErr
  | rangeErr
  deriving DecidableEq, Repr

/-- The digit loop of strconv.ParseUint (base 10, 64 bits), started at n. -/
def parseUintLoop : GoString → Nat → Except AtoiKind Nat
  | [], n => .ok n
  | c :: t, n =>
    if 48 ≤ c ∧ c ≤ 57 then
      if n ≥ 2 ^ 64 / 10 + 1 then .error .rangeErr
      else
        let n1 := n * 10 + (c - 48)
        if n1 > 2 ^ 64 - 1 then .error .rangeErr else parseUintLoop t n1
    else .error .syntaxErr

/-- Go strconv.Atoi on a 64-bit platform: optional sign, decimal digits, int64 range. -/
def atoi (s : GoString) : Except AtoiKind Int :=
  match s with
  | [] => .error .syntaxErr
  | c :: t =>
    let neg := decide (c = 45)
    let digits := if c = 45 ∨ c = 43 then t else c :: t
    if digits = [] then .error .syntaxErr
    else match parseUintLoop digits 0 with
      | .error k => .error k
      | .ok un =>
        if ¬ neg ∧ un ≥ 2 ^ 63 then .error .rangeErr
        else if neg ∧ un > 2 ^ 63 then .error .rangeErr
        else .ok (if neg then - (un : Int) else (un : Int))

/-! ## format_functions.go -/

/-- The error values format_functions.go can return. -/
inductive FormatError where
  | noPaddingLength
  | atoi (arg : GoString) (kind : AtoiKind)
  | unknownFormatter (name : GoString)
  deriving DecidableEq, Repr

/-- The two library transforms the formatters call. -/
structure StringsLib where
  ToUpper : GoString → GoString
  Title : GoString → GoString

/-- The four values of the formatter interface. -/
inductive Formatter where
  | FormatterTitle
  | FormatterUpper
  | FormatterLeftPad
  | FormatterRightPad
  deriving DecidableEq, Repr

/-- Source: readAnIntFromArgsOrReturnError. -/
def readAnIntFromArgsOrReturnError (args : List GoString) : Except FormatError Int :=
  match args with
  | [] => .error .noPaddingLength
  | a :: _ =>
    match atoi a with
    | .ok n => .ok n
    | .error k => .error (.atoi a k)

/-- The loop "for len(val) < cnt { val = step(val) }", run for at most fuel rounds. -/
def padLoop (step : GoString → GoString) (cnt : Int) : Nat → GoString → GoString
  | 0, val => val
  | fuel + 1, val =>
    if (val.length : Int) < cnt then padLoop step cnt fuel (step val) else val

/-- Rounds that the padding loop needs on val: the missing width. -/
def padFuel (cnt : Int) (val : GoString) : Nat := (cnt - (val.length : Int)).toNat

/-- Source: the Format method of the four formatters. -/
def Formatter.Format (lib : StringsLib) (f : Formatter) (val : GoString) (args : List GoString) :
    Except FormatError GoString :=
  match f with
  | .FormatterTitle => .ok (lib.Title val)
  | .FormatterUpper => .ok (lib.ToUpper val)
  | .FormatterLeftPad =>
    match readAnIntFromArgsOrReturnError args with
    | .error e => .error e
    | .ok cnt => .ok (padLoop (fun v => 32 :: v) cnt (padFuel cnt val) val)
  | .FormatterRightPad =>
    match readAnIntFromArgsOrReturnError args with
    | .error e => .error e
    | .ok cnt => .ok (padLoop (fun v => v ++ [32]) cnt (padFuel cnt val) val)

/-- The switch on FormatterType(formatterName) in formatWithFormatters. -/
def selectFormatter (name : GoString) : Option Formatter :=
  if name = str "title" then some .FormatterTitle
  else if name = str "upper" then some .FormatterUpper
  else if name = str "leftpad" then some .FormatterLeftPad
  else if name = str "rightpad" then some .FormatterRightPad
  else none

/-- The argument extraction at the head of the loop body of formatWithFormatters:
given the stage text and the current value of the variable args, the stage name
and the new value of args; none is the slice-bounds panic. -/
def extractArgs (formatterName : GoString) (args : List GoString) :
    Option (GoString × List GoString) :=
  if containsByte 40 formatterName then
    let start := indexByte 40 formatterName
    let stop := indexByte 41 formatterName
    match slice formatterName (start + 1) stop with
    | none => none
    | some inner =>
      match slice formatterName 0 start with
      | none => none
      | some name => some (name, splitByte 44 inner)
  else some (formatterName, args)

/-- The loop of formatWithFormatters; val and args are the loop-carried variables. -/
def formatLoop (lib : StringsLib) :
    List GoString → GoString → List GoString → Outcome FormatError GoString
  | [], val, _ => .ok val
  | formatterName :: rest, val, args =>
    match extractArgs formatterName args with
    | none => .panic
    | some (name, args1) =>
      match selectFormatter name with
      | none => .error (.unknownFormatter name)
      | some f =>
        match f.Format lib val args1 with
        | .error e => .error e
        | .ok val1 => formatLoop lib rest val1 args1

/-- Source: formatWithFormatters. The variable args starts as the nil slice. -/
def formatWithFormatters (lib : StringsLib) (val : GoString) (formatters : List GoString) :
    Outcome FormatError GoString :=
  formatLoop lib formatters val []

/-- ASCII upper-casing: strings.ToUpper on ASCII input. -/
def asciiUpper (s : GoString) : GoString :=
  s.map (fun c => if 97 ≤ c ∧ c ≤ 122 then c - 32 else c)

/-- ASCII letters and digits, underscore: the bytes strings.Title does not treat as separators
(for ASCII input). -/
def asciiWordByte (c : Nat) : Bool :=
  decide ((97 ≤ c ∧ c ≤ 122) ∨ (65 ≤ c ∧ c ≤ 90) ∨ (48 ≤ c ∧ c ≤ 57) ∨ c = 95)

/-- The scan of strings.Title on ASCII input: prev is the previous byte. -/
def asciiTitleFrom : Nat → GoString → GoString
  | _, [] => []
  | prev, c :: t =>
    (if ¬ asciiWordByte prev ∧ 97 ≤ c ∧ c ≤ 122 then c - 32 else c) :: asciiTitleFrom c t

/-- ASCII title-casing: strings.Title on ASCII input. -/
def asciiTitle (s : GoString) : GoString := asciiTitleFrom 32 s

/-- The library on ASCII strings, for evaluating examples. -/
def asciiLib : StringsLib := ⟨asciiUpper, asciiTitle⟩

/-! ## Go maps -/

/-- A Go map: an association list read by its first binding. The list order stands for
whatever order a range loop visits the keys in. -/
abbrev GoMap (κ ν : Type) := List (κ × ν)

/-- Go m[k] with the comma-ok form. -/
def mapGet {κ ν : Type} [DecidableEq κ] : GoMap κ ν → κ → Option ν
  | [], _ => none
  | (k1, v) :: t, k => if k1 = k then some v else mapGet t k

/-- Go delete(m, k). -/
def mapDelete {κ ν : Type} [DecidableEq κ] (m : GoMap κ ν) (k : κ) : GoMap κ ν :=
  m.filter (fun p => decide (p.1 ≠ k))

/-- Go m[k] = v. -/
def mapSet {κ ν : Type} [DecidableEq κ] : GoMap κ ν → κ → ν → GoMap κ ν
  | [], k, v => [(k, v)]
  | (k1, v1) :: t, k, v => if k1 = k then (k, v) :: t else (k1, v1) :: mapSet t k v

/-- Go maps.Copy(dst, src): every binding of src is set in dst. A Go map has one binding
per key; the fold runs from the right so that, for a list with a repeated key, the
binding that mapGet reads is the one that is copied. -/
def mapsCopy {κ ν : Type} [DecidableEq κ] (dst src : GoMap κ ν) : GoMap κ ν :=
  src.foldr (fun p acc => mapSet acc p.1 p.2) dst

/-! ## formatting.go -/

/-- The byte class [a-zA-Z0-9_:()] of fmtRegex. -/
def fmtClass (c : Nat) : Bool :=
  decide ((97 ≤ c ∧ c ≤ 122) ∨ (65 ≤ c ∧ c ≤ 90) ∨ (48 ≤ c ∧ c ≤ 57) ∨
    c = 95 ∨ c = 58 ∨ c = 40 ∨ c = 41)

/-- The text of a match of fmtRegex whose group 1 is g: the bytes of "${", g, "}". -/
def tokenText (g : GoString) : GoString := 36 :: 123 :: (g ++ [125])

/-- A match of fmtRegex anchored at the head of s: group 1 and the text after the match.
The class excludes the closing brace, so the greedy run is the only candidate. -/
def matchAt : GoString → Option (GoString × GoString)
  | a :: b :: t =>
    if a = 36 ∧ b = 123 then
      match t.takeWhile fmtClass, t.dropWhile fmtClass with
      | _ :: _, c :: rest => if c = 125 then some (t.takeWhile fmtClass, rest) else none
      | _, _ => none
    else none
  | _ => none

/-- The scan of fmtRegex.FindAllStringSubmatch(s, -1): leftmost matches, none overlapping;
each piece is (pieces[0], pieces[1]). The fuel bounds the number of scan steps. -/
def findAllFuel : Nat → GoString → List (GoString × GoString)
  | 0, _ => []
  | _ + 1, [] => []
  | fuel + 1, c :: t =>
    match matchAt (c :: t) with
    | some (g, rest) => (tokenText g, g) :: findAllFuel fuel rest
    | none => findAllFuel fuel t

/-- Library: fmtRegex.FindAllStringSubmatch(s, -1). One scan step consumes at least one
byte, so len(s) steps are enough. -/
def findAll (s : GoString) : List (GoString × GoString) := findAllFuel s.length s

/-- Whether old is a leading part of s. -/
def startsWith : GoString → GoString → Bool
  | _, [] => true
  | [], _ :: _ => false
  | c :: s, d :: old => decide (c = d) && startsWith s old

/-- The scan of strings.ReplaceAll for a non-empty old: leftmost occurrences, none
overlapping. The fuel bounds the number of scan steps. -/
def replaceAllFuel (old new : GoString) : Nat → GoString → GoString
  | 0, s => s
  | _ + 1, [] => []
  | fuel + 1, c :: t =>
    if startsWith (c :: t) old then new ++ replaceAllFuel old new fuel ((c :: t).drop old.length)
    else c :: replaceAllFuel old new fuel t

/-- Library: strings.ReplaceAll(s, old, new) for a non-empty old (formatString only passes
the text of a match, four bytes or more). -/
def replaceAll (s old new : GoString) : GoString := replaceAllFuel old new s.length s

/-- The loop of formatString over formatPieces; s is the loop-carried string. -/
def formatPiecesLoop (lib : StringsLib) (dictionary : GoMap GoString GoString) :
    List (GoString × GoString) → GoString → Outcome FormatError GoString
  | [], s => .ok s
  | pieces :: rest, s =>
    let split := splitByte 58 pieces.2
    let varName := split.headD []
    match mapGet dictionary varName with
    | none => formatPiecesLoop lib dictionary rest s
    | some value =>
      let formatters := split.tail
      if formatters.length = 0 then
        formatPiecesLoop lib dictionary rest (replaceAll s pieces.1 value)
      else
        match formatWithFormatters lib value formatters with
        | .error e => .error e
        | .panic => .panic
        | .ok formatted => formatPiecesLoop lib dictionary rest (replaceAll s pieces.1 formatted)

/-- Source: formatString. -/
def formatString (lib : StringsLib) (s : GoString) (dictionary : GoMap GoString GoString) :
    Outcome FormatError GoString :=
  formatPiecesLoop lib dictionary (findAll s) s

/-- The dictionary of TestFormatting. -/
def testDictionary : GoMap GoString GoString :=
  [(str "var1", str "value1"), (str "var2", str "value2")]

/-- The chain as the specification words it: every stage is run on the previous stage's
output with the argument list of its own parentheses, the empty list when it has none. -/
def formatChainSpec (lib : StringsLib) : List GoString → GoString → Outcome FormatError GoString
  | [], val => .ok val
  | stage :: rest, val =>
    match extractArgs stage [] with
    | none => .panic
    | some (name, ownArgs) =>
      match selectFormatter name with
      | none => .error (.unknownFormatter name)
      | some f =>
        match f.Format lib val ownArgs with
        | .error e => .error e
        | .ok val1 => formatChainSpec lib rest val1

/-- The value formatString substitutes for a token with group 1 equal to g: none when the
identifier is not a key of the dictionary, otherwise the raw value (no formatter) or the
outcome of the formatter chain. -/
def tokenValue (lib : StringsLib) (dictionary : GoMap GoString GoString) (g : GoString) :
    Option (Outcome FormatError GoString) :=
  match mapGet dictionary ((splitByte 58 g).headD []) with
  | none => none
  | some value =>
    if (splitByte 58 g).tail.length = 0 then some (.ok value)
    else some (formatWithFormatters lib value (splitByte 58 g).tail)

/-- The formatted value of a token whose identifier is in the dictionary and whose chain
succeeds. -/
def formattedValue (lib : StringsLib) (dictionary : GoMap GoString GoString) (g : GoString) :
    Option GoString :=
  match tokenValue lib dictionary g with
  | some (.ok v) => some v
  | _ => none

/-- One pass over the template, as the specification words the result: every token for
which value gives a text is replaced by that text, every other byte is copied, and the
inserted text is not looked at again. The fuel bounds the number of scan steps. -/
def substituteOnceFuel (value : GoString → Option GoString) : Nat → GoString → GoString
  | 0, s => s
  | _ + 1, [] => []
  | fuel + 1, c :: t =>
    match matchAt (c :: t) with
    | some (g, rest) =>
      (match value g with
        | some v => v
        | none => tokenText g) ++ substituteOnceFuel value fuel rest
    | none => c :: substituteOnceFuel value fuel t

/-- The template with every token replaced at once (see substituteOnceFuel). -/
def substituteOnce (value : GoString → Option GoString) (s : GoString) : GoString :=
  substituteOnceFuel value s.length s

/-- The byte after the point is there and is not an opening brace. -/
def nextNotBrace : GoString → Bool
  | [] => false
  | d :: _ => decide (d ≠ 123)

/-- Every dollar sign of w is followed, inside w, by a byte other than an opening brace. -/
def inertLit : GoString → Bool
  | [] => true
  | c :: t => (decide (c ≠ 36) || nextNotBrace t) && inertLit t

/-- A piece of a string under substitution: literal bytes, or a token. -/
inductive Seg where
  | lit (w : GoString)
  | tok (g : GoString)
  deriving DecidableEq, Repr

/-- The bytes of a piece. -/
def Seg.render : Seg → GoString
  | .lit w => w
  | .tok g => tokenText g

/-- The bytes of a list of pieces. -/
def renderSegs : List Seg → GoString
  | [] => []
  | x :: t => x.render ++ renderSegs t

/-- A piece is well formed: in a literal every dollar sign is followed by a byte other
than an opening brace, a token's group is a non-empty run of class bytes. -/
def Seg.WF : Seg → Prop
  | .lit w => inertLit w = true
  | .tok g => g ≠ [] ∧ ∀ c ∈ g, fmtClass c = true

/-- The groups of the tokens of a list of pieces, in order. -/
def segTokens : List Seg → List GoString
  | [] => []
  | .lit _ :: t => segTokens t
  | .tok g :: t => g :: segTokens t

/-- Replace the token g0 by the literal v. -/
def Seg.swap (g0 v : GoString) : Seg → Seg
  | .lit w => .lit w
  | .tok g => if g = g0 then .lit v else .tok g

/-- Replace every token listed in gs that has a value by that value. -/
def Seg.subst (value : GoString → Option GoString) (gs : List GoString) : Seg → Seg
  | .lit w => .lit w
  | .tok g =>
    if g ∈ gs then
      match value g with
      | some v => .lit v
      | none => .tok g
    else .tok g

/-- The text after a dollar sign that begins no match leaves it inert: the text is empty,
or its first byte is not an opening brace and begins no match of fmtRegex. -/
def inertNext : GoString → Bool
  | [] => true
  | d :: t => decide (d ≠ 123) && (matchAt (d :: t)).isNone

/-- Every dollar sign of s begins a match of fmtRegex, or is the last byte of s, or is
followed by a byte that is not an opening brace and begins no match. -/
def dollarsInert : GoString → Bool
  | [] => true
  | c :: t => (decide (c ≠ 36) || (matchAt (c :: t)).isSome || inertNext t) && dollarsInert t

/-! ## cache.go and replacement.go -/

/-- Source: cacheTtl = time.Minute * 120, in nanoseconds (time.Duration). -/
def cacheTtl : Int := 120 * 60 * 1000000000

/-- Source: cacheHeaders. -/
def cacheHeaders : List GoString :=
  [str "Content-Type", str "Content-Encoding", str "Content-Language"]

/-- Source: PageCacheEntry. FetchedAt is a reading of the clock, in nanoseconds. -/
structure PageCacheEntry where
  Path : GoString
  FetchedAt : Int
  Content : GoString
  Status : Int
  Headers : GoMap GoString GoString
  deriving DecidableEq, Repr

/-- Library: time.Since(t) read at the instant now; a time.Duration is an int64 and
Time.Sub saturates. -/
def timeSince (now t : Int) : Int :=
  if now - t > 2 ^ 63 - 1 then 2 ^ 63 - 1
  else if now - t < - (2 ^ 63) then - (2 ^ 63)
  else now - t

/-- Source: Replacement (the compiled-pattern cache is not a part of the value: a pattern
always compiles to the same thing). -/
structure Replacement where
  From : GoString
  To : GoString
  Count : Int
  /-- The field Type of the source. -/
  ReplaceType : GoString
  deriving DecidableEq, Repr

/-- Library code the serving path calls on bodies and headers. A codec returns none for
the error result. -/
structure ServerLib where
  /-- regexp.MustCompile(pattern).ReplaceAll(content, to); none is the MustCompile panic. -/
  regexReplaceAll : GoString → GoString → GoString → Option GoString
  /-- strings.Replace(s, "", to, n), which works rune by rune. -/
  replaceEmptyOld : GoString → GoString → Int → GoString
  /-- strings.TrimSpace. -/
  TrimSpace : GoString → GoString
  gzipEncode : GoString → Option GoString
  gzipDecode : GoString → Option GoString
  brotliEncode : GoString → Option GoString
  brotliDecode : GoString → Option GoString
  deflateEncode : GoString → Option GoString
  deflateDecode : GoString → Option GoString
  zstdEncode : GoString → Option GoString
  zstdDecode : GoString → Option GoString

/-- The scan of strings.Replace(s, old, new, n) for a non-empty old and n replacements
left (n < 0: no limit). -/
def replaceNFuel (old new : GoString) : Nat → Int → GoString → GoString
  | 0, _, s => s
  | _ + 1, _, [] => []
  | fuel + 1, n, c :: t =>
    if n = 0 then c :: t
    else if startsWith (c :: t) old then
      new ++ replaceNFuel old new fuel (n - 1) ((c :: t).drop old.length)
    else c :: replaceNFuel old new fuel n t

/-- Library: strings.Replace(s, old, new, n). -/
def stringsReplace (lib : ServerLib) (s old new : GoString) (n : Int) : GoString :=
  if old = new ∨ n = 0 then s
  else if old = [] then lib.replaceEmptyOld s new n
  else replaceNFuel old new s.length n s

/-- Source: Replacement.Replace; none is the panic of regexp.MustCompile. -/
def Replacement.Replace (lib : ServerLib) (r : Replacement) (content : GoString) :
    Option GoString :=
  if r.ReplaceType = str "regex" then lib.regexReplaceAll r.From r.To content
  else
    let count := if r.Count = 0 then -1 else r.Count
    some (stringsReplace lib content r.From r.To count)

/-! ## siteconfig.go: routes and their cache -/

/-- Source: WebsiteConfig. BaseConfig is the address of the owning bundle. -/
structure WebsiteConfig where
  TargetHost : GoString
  BaseConfig : Nat
  LoadedAt : Int
  cache : GoMap GoString PageCacheEntry
  NoCache : Bool
  ReqHeadersOverride : GoMap GoString GoString
  RespHeadersOverride : GoMap GoString GoString
  Replacements : List Replacement
  BypassCacheFor : List GoString
  Block : List GoString
  deriving DecidableEq, Repr

/-- Source: WebsiteConfig.ProbeCache, called when the clock reads now. The entry is
returned also when it is stale; the flag tells a hit. -/
def WebsiteConfig.ProbeCache (w : WebsiteConfig) (now : Int) (path : GoString) :
    Option PageCacheEntry × Bool :=
  if w.NoCache then (none, false)
  else
    match mapGet w.cache path with
    | none => (none, false)
    | some entry =>
      if timeSince now entry.FetchedAt > cacheTtl then (some entry, false)
      else (some entry, true)

/-- Source: WebsiteConfig.ShouldBlock. -/
def WebsiteConfig.ShouldBlock (w : WebsiteConfig) (path : GoString) : Bool :=
  decide (path ∈ w.Block)

/-- The loop of MbSaveToCache that builds headersToCache. -/
def headersToCache (headers : GoMap GoString GoString) :
    List GoString → GoMap GoString GoString → GoMap GoString GoString
  | [], acc => acc
  | header :: rest, acc =>
    if header = str "Content-Encoding" ∨ header = str "content-encoding" then
      headersToCache headers rest acc
    else
      match mapGet headers header with
      | some value => headersToCache headers rest (mapSet acc header value)
      | none => headersToCache headers rest acc

/-- Source: WebsiteConfig.MbSaveToCache, called when the clock reads now. -/
def WebsiteConfig.MbSaveToCache (w : WebsiteConfig) (now : Int) (path content : GoString)
    (headers : GoMap GoString GoString) (status : Int) : WebsiteConfig :=
  if w.NoCache then w
  else if path ∈ w.BypassCacheFor then w
  else
    let entry : PageCacheEntry :=
      { Path := path, FetchedAt := now, Content := content,
        Headers := headersToCache headers cacheHeaders [], Status := status }
    { w with cache := mapSet w.cache path entry }

/-- The loop of WebsiteConfig.Replace. -/
def replaceLoop (lib : ServerLib) : List Replacement → GoString → Option GoString
  | [], content => some content
  | r :: rest, content =>
    match r.Replace lib content with
    | none => none
    | some content1 => replaceLoop lib rest content1

/-- Source: WebsiteConfig.Replace; none is the panic of a pattern that does not compile. -/
def WebsiteConfig.Replace (lib : ServerLib) (w : WebsiteConfig) (content : GoString) :
    Option GoString :=
  replaceLoop lib w.Replacements content

/-- Source: WebsiteConfig.URL. -/
def WebsiteConfig.URL (w : WebsiteConfig) (path : GoString) : GoString :=
  str "https://" ++ w.TargetHost ++ path

/-- A call of MbSaveToCache as data: clock reading, path, body, headers, status. -/
structure StoreCall where
  now : Int
  path : GoString
  content : GoString
  headers : GoMap GoString GoString
  status : Int

/-- A sequence of MbSaveToCache calls on one route. -/
def applyStores (w : WebsiteConfig) (calls : List StoreCall) : WebsiteConfig :=
  calls.foldl (fun acc c => acc.MbSaveToCache c.now c.path c.content c.headers c.status) w

/-! ## siteconfig.go: bundles, the registry and Load

Pointers are addresses into two heaps held by the World: bundles (for *SiteBaseConfig)
and routes (for *WebsiteConfig). A new object takes the next free address. -/

/-- Source: configDir. -/
def configDir : GoString := str "configs_v2"

/-- Source: SiteBaseConfig. WebsiteConfigs maps a domain to the address of its route. -/
structure SiteBaseConfig where
  Name : GoString
  Vars : GoMap GoString GoString
  Websites : GoMap GoString GoString
  WebsiteConfigs : GoMap GoString Nat
  Deactivated : Bool
  deriving DecidableEq, Repr

/-- The fields that json decoding of config.json fills in temp (keys vars, websites,
deactivated) and that Load may read. -/
structure BaseJson where
  Vars : GoMap GoString GoString
  Websites : GoMap GoString GoString
  Deactivated : Bool
  deriving DecidableEq, Repr

/-- The nil pointer: an address that no heap of a 64-bit process reaches. Reading the
heap at it gives none, which the code paths below treat as the nil-dereference panic. -/
def nilPtr : Nat := 2 ^ 64 - 1

/-- A route object decoded as a value of the key website_configs: encoding/json allocates a
new WebsiteConfig and fills its exported fields (the object is taken to hold no BaseConfig
key of its own). init() is never called on it. -/
structure InnerRoute where
  TargetHost : GoString := []
  LoadedAt : Int := 0
  NoCache : Bool := false
  ReqHeadersOverride : GoMap GoString GoString := []
  RespHeadersOverride : GoMap GoString GoString := []
  Replacements : List Replacement := []
  BypassCacheFor : List GoString := []
  Block : List GoString := []
  deriving DecidableEq, Repr

/-- The object under the key BaseConfig of a route descriptor, by the keys it holds (none:
the key is absent). WebsiteConfig.BaseConfig is an exported field without a json tag, so
encoding/json matches the key by name and decodes the object into the bundle the field
points to. A key holds a value of its Go type; an entry of website_configs is a route
object or null (none). -/
structure BasePatch where
  Name : Option GoString := none
  Vars : Option (GoMap GoString GoString) := none
  Websites : Option (GoMap GoString GoString) := none
  WebsiteConfigs : List (GoString × Option InnerRoute) := []
  Deactivated : Option Bool := none
  deriving DecidableEq, Repr

/-- The key BaseConfig of a route descriptor: absent, null, or an object. -/
inductive BaseKey where
  | absent
  | null
  | object (patch : BasePatch)
  deriving DecidableEq, Repr

/-- The fields that json decoding of a route descriptor fills: the six with a json tag
(no_cache, req_headers_override, resp_headers_override, replacements, bypass_cache_for,
block) and the exported fields without one, which encoding/json matches by name:
TargetHost (none: key absent) and BaseConfig. The third, LoadedAt, is overwritten by
init() before anything reads it. typeError tells that the decoder met a value of the
wrong type: it then assigns what it can, as the other fields say, and returns an error. -/
structure RouteJson where
  NoCache : Bool
  ReqHeadersOverride : GoMap GoString GoString
  RespHeadersOverride : GoMap GoString GoString
  Replacements : List Replacement
  BypassCacheFor : List GoString
  Block : List GoString
  TargetHost : Option GoString := none
  BaseConfig : BaseKey := .absent
  typeError : Bool := false
  deriving DecidableEq, Repr

/-- A file of the config directory, by what json decoding makes of it; none is a syntax
error, which the decoder reports before it assigns anything. -/
structure ConfigFile where
  asBase : Option BaseJson
  asRoute : Option RouteJson
  deriving DecidableEq, Repr

/-- What Load reads from outside: the formatter library, the files (none: os.Open
fails), the clock, and the order in which a range loop visits the keys of a map. -/
structure LoadEnv where
  lib : StringsLib
  disk : GoString → Option ConfigFile
  now : Int
  rangeOrder : List GoString → List GoString

/-- The package-level state of siteconfig and http_server, with the two heaps. -/
structure World where
  bundles : List SiteBaseConfig
  routes : List WebsiteConfig
  /-- Source: websites, the global host-to-route table. -/
  websites : GoMap GoString Nat
  /-- Source: baseConfigs. -/
  baseConfigs : GoMap GoString Nat
  /-- Source: len(httpClients). -/
  httpClients : Nat
  /-- Source: httpClientIndex. -/
  httpClientIndex : Nat
  deriving DecidableEq, Repr

/-- The errors Load and loadSite return. -/
inductive LoadError where
  | openBase
  | decodeBase
  | formatDomain (k : GoString) (e : FormatError)
  | openRoute (k : GoString)
  | decodeRoute (k : GoString)
  | formatFrom (e : FormatError)
  | formatTo (e : FormatError)
  | stat
  | notDir
  deriving DecidableEq, Repr

/-- The keys of a map, each once. -/
def mapKeys {κ ν : Type} [DecidableEq κ] : GoMap κ ν → List κ
  | [] => []
  | (k, _) :: t => k :: (mapKeys t).filter (fun x => decide (x ≠ k))

/-- The first loop of Load: "for k := range s.Websites" formats each domain in place.
On an error the entry has been set to the empty string (both results are assigned). -/
def formatDomains (lib : StringsLib) (vars : GoMap GoString GoString) :
    List GoString → GoMap GoString GoString →
      GoMap GoString GoString × Outcome LoadError Unit
  | [], websites => (websites, .ok ())
  | k :: rest, websites =>
    match formatString lib ((mapGet websites k).getD []) vars with
    | .ok v => formatDomains lib vars rest (mapSet websites k v)
    | .error e => (mapSet websites k [], .error (.formatDomain k e))
    | .panic => (websites, .panic)

/-- The loop of Load over websiteConfig.Replacements. -/
def formatReplacements (lib : StringsLib) (vars : GoMap GoString GoString) :
    List Replacement → Outcome LoadError (List Replacement)
  | [] => .ok []
  | r :: rest =>
    match formatString lib r.From vars with
    | .error e => .error (.formatFrom e)
    | .panic => .panic
    | .ok from1 =>
      match formatString lib r.To vars with
      | .error e => .error (.formatTo e)
      | .panic => .panic
      | .ok to1 =>
        match formatReplacements lib vars rest with
        | .ok rest1 => .ok ({ r with From := from1, To := to1 } :: rest1)
        | .error e => .error e
        | .panic => .panic

/-- Source: WebsiteConfig.init, on the value decoded from a descriptor; a nil map or slice
and an empty one are the same list. -/
def WebsiteConfig.init (w : WebsiteConfig) (now : Int) : WebsiteConfig :=
  { w with LoadedAt := now, cache := [] }

/-- The path of config.json in the bundle name. -/
def baseFile (name : GoString) : GoString := configDir ++ str "/" ++ name ++ str "/config.json"

/-- The path of the descriptor of the original domain k in the bundle name. -/
def routeFile (name k : GoString) : GoString :=
  configDir ++ str "/" ++ name ++ str "/" ++ k ++ str ".json"

/-- The entries of website_configs decoded into s.WebsiteConfigs: json reuses the map and
binds each key to a newly allocated route, or to nil for null. -/
def injectRoutes : List (GoString × Option InnerRoute) → List WebsiteConfig →
    GoMap GoString Nat → List WebsiteConfig × GoMap GoString Nat
  | [], routes, configs => (routes, configs)
  | (key, none) :: rest, routes, configs =>
    injectRoutes rest routes (mapSet configs key nilPtr)
  | (key, some inner) :: rest, routes, configs =>
    injectRoutes rest
      (routes ++ [{ TargetHost := inner.TargetHost, BaseConfig := nilPtr,
                    LoadedAt := inner.LoadedAt, cache := [], NoCache := inner.NoCache,
                    ReqHeadersOverride := inner.ReqHeadersOverride,
                    RespHeadersOverride := inner.RespHeadersOverride,
                    Replacements := inner.Replacements,
                    BypassCacheFor := inner.BypassCacheFor, Block := inner.Block }])
      (mapSet configs key routes.length)

/-- What decoding the key BaseConfig of a descriptor does to the bundle s that the literal
points to, and to the heap of routes: strings and booleans are assigned, a JSON object is
merged into the map that is there. -/
def applyPatch (key : BaseKey) (s : SiteBaseConfig) (routes : List WebsiteConfig) :
    SiteBaseConfig × List WebsiteConfig :=
  match key with
  | .absent => (s, routes)
  | .null => (s, routes)
  | .object patch =>
    let injected := injectRoutes patch.WebsiteConfigs routes s.WebsiteConfigs
    ({ Name := patch.Name.getD s.Name,
       Vars := match patch.Vars with
         | none => s.Vars
         | some m => mapsCopy s.Vars m,
       Websites := match patch.Websites with
         | none => s.Websites
         | some m => mapsCopy s.Websites m,
       WebsiteConfigs := injected.2,
       Deactivated := patch.Deactivated.getD s.Deactivated }, injected.1)

/-- The route object Load builds for the original domain k from the decoded descriptor j:
the literal with TargetHost and BaseConfig, the decoded fields (a key TargetHost replaces
k, a null BaseConfig replaces the pointer), init(), and the formatted replacements. -/
def newRoute (env : LoadEnv) (b : Nat) (k : GoString) (j : RouteJson)
    (replacements : List Replacement) : WebsiteConfig :=
  { WebsiteConfig.init
      { TargetHost := j.TargetHost.getD k,
        BaseConfig := if j.BaseConfig = .null then nilPtr else b,
        LoadedAt := 0, cache := [],
        NoCache := j.NoCache, ReqHeadersOverride := j.ReqHeadersOverride,
        RespHeadersOverride := j.RespHeadersOverride, Replacements := j.Replacements,
        BypassCacheFor := j.BypassCacheFor, Block := j.Block } env.now
    with Replacements := replacements }

/-- The second loop of Load: "for k, v := range s.Websites" builds the route of each
domain; s is the bundle, which the decoding of a descriptor may write into, and routes is
the heap. The value v is read when the step begins. The route of a step joins the heap
when the step binds it; the literal of a step that fails is unreachable and is left out.
A previous route is an object that existed when Load was entered: it is read from heap0,
the heap as Load found it. -/
def buildRoutes (env : LoadEnv) (b : Nat) (previousWebsiteConfigs : GoMap GoString Nat)
    (heap0 : List WebsiteConfig) :
    List GoString → SiteBaseConfig → List WebsiteConfig →
      List WebsiteConfig × SiteBaseConfig × Outcome LoadError Unit
  | [], s, routes => (routes, s, .ok ())
  | k :: rest, s, routes =>
    match env.disk (routeFile s.Name k) with
    | none => (routes, s, .error (.openRoute k))
    | some file =>
      match file.asRoute with
      | none => (routes, s, .error (.decodeRoute k))
      | some j =>
        let decoded := applyPatch j.BaseConfig s routes
        if j.typeError then (decoded.2, decoded.1, .error (.decodeRoute k))
        else
          match formatReplacements env.lib decoded.1.Vars j.Replacements with
          | .error e => (decoded.2, decoded.1, .error e)
          | .panic => (decoded.2, decoded.1, .panic)
          | .ok replacements =>
            let websiteConfig := newRoute env b k j replacements
            let v := (mapGet s.Websites k).getD []
            let bound := mapSet decoded.1.WebsiteConfigs v decoded.2.length
            match mapGet previousWebsiteConfigs v with
            | none =>
              buildRoutes env b previousWebsiteConfigs heap0 rest
                { decoded.1 with WebsiteConfigs := bound } (decoded.2 ++ [websiteConfig])
            | some pid =>
              match heap0[pid]? with
              | none => (decoded.2, decoded.1, .panic)
              | some previousWebsiteConfig =>
                buildRoutes env b previousWebsiteConfigs heap0 rest
                  { decoded.1 with WebsiteConfigs := bound }
                  (decoded.2 ++ [{ websiteConfig with
                    cache := mapsCopy websiteConfig.cache previousWebsiteConfig.cache }])

/-- The loop "for k := range previousWebsiteConfigs { delete(websites, k) }". -/
def unpublish (table : GoMap GoString Nat) : List GoString → GoMap GoString Nat
  | [] => table
  | k :: rest => unpublish (mapDelete table k) rest

/-- The loop "for _, v := range s.Websites { websites[v] = s.WebsiteConfigs[v] }"; a
domain that s.WebsiteConfigs does not bind is published with the nil pointer. -/
def publish (websites : GoMap GoString GoString) (configs : GoMap GoString Nat) :
    GoMap GoString Nat → List GoString → GoMap GoString Nat
  | table, [] => table
  | table, k :: rest =>
    let v := (mapGet websites k).getD []
    publish websites configs (mapSet table v ((mapGet configs v).getD nilPtr)) rest

/-- Source: SiteBaseConfig.Load, on the bundle at address b. -/
def Load (env : LoadEnv) (w : World) (b : Nat) : World × Outcome LoadError Unit :=
  match w.bundles[b]? with
  | none => (w, .panic)
  | some s =>
    match env.disk (baseFile s.Name) with
    | none => (w, .error .openBase)
    | some baseConfigFile =>
      match baseConfigFile.asBase with
      | none => (w, .error .decodeBase)
      | some temp =>
        let previousWebsiteConfigs := mapsCopy [] s.WebsiteConfigs
        let s1 := { s with Vars := temp.Vars, Websites := temp.Websites, WebsiteConfigs := [] }
        match formatDomains env.lib s1.Vars (env.rangeOrder (mapKeys s1.Websites)) s1.Websites with
        | (websites1, .error e) =>
          ({ w with bundles := w.bundles.set b { s1 with Websites := websites1 } }, .error e)
        | (websites1, .panic) =>
          ({ w with bundles := w.bundles.set b { s1 with Websites := websites1 } }, .panic)
        | (websites1, .ok _) =>
          match buildRoutes env b previousWebsiteConfigs w.routes
              (env.rangeOrder (mapKeys websites1)) { s1 with Websites := websites1 } w.routes with
          | (routes1, s2, .error e) =>
            ({ w with bundles := w.bundles.set b s2, routes := routes1 }, .error e)
          | (routes1, s2, .panic) =>
            ({ w with bundles := w.bundles.set b s2, routes := routes1 }, .panic)
          | (routes1, s2, .ok _) =>
            ({ w with
                bundles := w.bundles.set b s2,
                routes := routes1,
                websites := publish s2.Websites s2.WebsiteConfigs
                  (unpublish w.websites (env.rangeOrder (mapKeys previousWebsiteConfigs)))
                  (env.rangeOrder (mapKeys s2.Websites)) }, .ok ())

/-- Source: GetSiteConfig. -/
def GetSiteConfig (w : World) (host : GoString) : Option Nat := mapGet w.websites host

/-- Source: GetBaseConfigByName. -/
def GetBaseConfigByName (w : World) (name : GoString) : Option Nat := mapGet w.baseConfigs name

/-! ## siteconfig.go: Cleanup, loadSite, LoadAllSites -/

/-- What the registry reads from the config directory besides the files: os.ReadDir of
configDir (name and IsDir of each entry; none: error) and os.Stat of a path (IsDir;
none: error). -/
structure DirEnv where
  readDir : Option (List (GoString × Bool))
  stat : GoString → Option Bool

/-- The loop "for _, v := range s.Websites { delete(websites, v) }" of Cleanup. -/
def cleanupLoop (websites : GoMap GoString GoString) :
    GoMap GoString Nat → List GoString → GoMap GoString Nat
  | table, [] => table
  | table, k :: rest => cleanupLoop websites (mapDelete table ((mapGet websites k).getD [])) rest

/-- Source: SiteBaseConfig.Cleanup, on the bundle at address b; none is the nil receiver. -/
def Cleanup (env : LoadEnv) (w : World) (b : Nat) : Option World :=
  match w.bundles[b]? with
  | none => none
  | some s =>
    some { w with
      websites := cleanupLoop s.Websites w.websites (env.rangeOrder (mapKeys s.Websites)),
      baseConfigs := mapDelete w.baseConfigs s.Name }

/-- Source: loadSite. -/
def loadSite (env : LoadEnv) (dir : DirEnv) (w : World) (name : GoString) :
    World × Outcome LoadError Unit :=
  match dir.stat (configDir ++ str "/" ++ name) with
  | none => (w, .error .stat)
  | some isDir =>
    if ¬ isDir then (w, .error .notDir)
    else
      let b := w.bundles.length
      let w1 := { w with bundles := w.bundles ++
        [{ Name := name, Vars := [], Websites := [], WebsiteConfigs := [],
           Deactivated := false }] }
      match Load env w1 b with
      | (w2, .ok _) => ({ w2 with baseConfigs := mapSet w2.baseConfigs name b }, .ok ())
      | (w2, .error e) => (w2, .error e)
      | (w2, .panic) => (w2, .panic)

/-- The loop "for _, baseConfig := range baseConfigs { baseConfig.Cleanup() }". -/
def cleanupAll (env : LoadEnv) : World → List GoString → Option World
  | w, [] => some w
  | w, name :: rest =>
    match mapGet w.baseConfigs name with
    | none => cleanupAll env w rest
    | some b =>
      match Cleanup env w b with
      | none => none
      | some w1 => cleanupAll env w1 rest

/-- The loop of LoadAllSites over the directory entries; errs collects the errors. -/
def loadEntries (env : LoadEnv) (dir : DirEnv) :
    World → List (GoString × Bool) → List LoadError → World × Option (List LoadError)
  | w, [], errs => (w, some errs)
  | w, (name, isDir) :: rest, errs =>
    if ¬ isDir then loadEntries env dir w rest errs
    else
      match loadSite env dir w name with
      | (w1, .ok _) => loadEntries env dir w1 rest errs
      | (w1, .error e) => loadEntries env dir w1 rest (errs ++ [e])
      | (w1, .panic) => (w1, none)

/-- Source: LoadAllSites; the result is the list of joined errors, none a panic. -/
def LoadAllSites (env : LoadEnv) (dir : DirEnv) (w : World) : World × Option (List LoadError) :=
  match cleanupAll env w (env.rangeOrder (mapKeys w.baseConfigs)) with
  | none => (w, none)
  | some w1 =>
    match dir.readDir with
    | none => (w1, some [.stat])
    | some entries => loadEntries env dir w1 entries []

/-! ## encode_decode.go -/

/-- Source: Encode; none is the error result. -/
def Encode (lib : ServerLib) (data encoding : GoString) : Option GoString :=
  if encoding = str "gzip" then lib.gzipEncode data
  else if encoding = str "brotli" ∨ encoding = str "br" then lib.brotliEncode data
  else if encoding = str "deflate" then lib.deflateEncode data
  else if encoding = str "zstd" then lib.zstdEncode data
  else if encoding = str "plain" ∨ encoding = [] then some data
  else none

/-- Source: Decode; none is the error result. -/
def Decode (lib : ServerLib) (data encoding : GoString) : Option GoString :=
  if encoding = str "gzip" then lib.gzipDecode data
  else if encoding = str "brotli" ∨ encoding = str "br" then lib.brotliDecode data
  else if encoding = str "deflate" then lib.deflateDecode data
  else if encoding = str "zstd" then lib.zstdDecode data
  else if encoding = str "plain" ∨ encoding = [] then some data
  else none

/-- The loop of EncodeWithSomething over acceptEncodingChunks. -/
def encodeLoop (lib : ServerLib) (data : GoString) : List GoString → Option (GoString × GoString)
  | [] => some (data, [])
  | chunk :: rest =>
    let encoding := lib.TrimSpace chunk
    if encoding = [] then encodeLoop lib data rest
    else
      match Encode lib data encoding with
      | none => none
      | some encoded =>
        if encoded.length < data.length then some (encoded, encoding)
        else encodeLoop lib data rest

/-- Source: EncodeWithSomething; the body and the chosen token, none the error result. -/
def EncodeWithSomething (lib : ServerLib) (data acceptEncoding : GoString) :
    Option (GoString × GoString) :=
  encodeLoop lib data (splitByte 44 acceptEncoding)

/-! ## net/http: headers and the response writer -/

/-- Go http.Header: canonical key to list of values. -/
abbrev Header := GoMap GoString (List GoString)

/-- Library: the token bytes of a header field name (textproto). -/
def validHeaderFieldByte (c : Nat) : Bool :=
  decide ((97 ≤ c ∧ c ≤ 122) ∨ (65 ≤ c ∧ c ≤ 90) ∨ (48 ≤ c ∧ c ≤ 57) ∨
    c ∈ [33, 35, 36, 37, 38, 39, 42, 43, 45, 46, 94, 95, 96, 124, 126])

/-- The rewriting loop of textproto.CanonicalMIMEHeaderKey: upper case at the start and
after a dash, lower case elsewhere. -/
def canonLoop : Bool → GoString → GoString
  | _, [] => []
  | up, c :: t =>
    let c1 := if up ∧ 97 ≤ c ∧ c ≤ 122 then c - 32
              else if ¬ up ∧ 65 ≤ c ∧ c ≤ 90 then c + 32 else c
    c1 :: canonLoop (decide (c1 = 45)) t

/-- Library: textproto.CanonicalMIMEHeaderKey; a key with a byte that is no token byte is
returned as it is. -/
def CanonicalMIMEHeaderKey (s : GoString) : GoString :=
  if s.all validHeaderFieldByte then canonLoop true s else s

/-- Library: Header.Get. -/
def Header.Get (h : Header) (key : GoString) : GoString :=
  match mapGet h (CanonicalMIMEHeaderKey key) with
  | some (v :: _) => v
  | _ => []

/-- Library: Header.Set. -/
def Header.Set (h : Header) (key value : GoString) : Header :=
  mapSet h (CanonicalMIMEHeaderKey key) [value]

/-- Library: Header.Del. -/
def Header.Del (h : Header) (key : GoString) : Header :=
  mapDelete h (CanonicalMIMEHeaderKey key)

/-- The state of an http.ResponseWriter: the live header map, the status line once it is
written with the header map as it was then, and the body bytes written. -/
structure ResponseWriter where
  header : Header
  status : Option Int
  sentHeader : Header
  body : GoString
  deriving DecidableEq, Repr

/-- A writer nothing has been written to. -/
def ResponseWriter.fresh : ResponseWriter := ⟨[], none, [], []⟩

/-- The status line goes out with the first final WriteHeader; later calls are ignored. -/
def ResponseWriter.setStatus (w : ResponseWriter) (code : Int) : ResponseWriter :=
  if w.status.isSome then w else { w with status := some code, sentHeader := w.header }

/-- Library: ResponseWriter.WriteHeader. A call after the header is written is ignored; a
code outside 100..999 panics (none); an informational code (1xx but 101) is sent at once
and leaves the final header to be written. -/
def ResponseWriter.WriteHeader (w : ResponseWriter) (code : Int) : Option ResponseWriter :=
  if w.status.isSome then some w
  else if code < 100 ∨ code > 999 then none
  else if code ≤ 199 ∧ code ≠ 101 then some w
  else some (w.setStatus code)

/-- Library: bodyAllowedForStatus. -/
def bodyAllowedForStatus (status : Int) : Bool :=
  if 100 ≤ status ∧ status ≤ 199 then false
  else if status = 204 then false
  else if status = 304 then false
  else true

/-- Library: ResponseWriter.Write; writes the header with status 200 first when none is
written yet. -/
def ResponseWriter.Write (w : ResponseWriter) (b : GoString) : ResponseWriter :=
  let w1 := w.setStatus 200
  if bodyAllowedForStatus (w1.status.getD 200) then { w1 with body := w1.body ++ b } else w1

/-- Library: http.Error(w, msg, code), for the constant codes of the handler. -/
def httpError (w : ResponseWriter) (msg : GoString) (code : Int) : ResponseWriter :=
  let h := Header.Set (Header.Set (Header.Del w.header (str "Content-Length"))
    (str "Content-Type") (str "text/plain; charset=utf-8"))
    (str "X-Content-Type-Options") (str "nosniff")
  (({ w with header := h } : ResponseWriter).setStatus code).Write (msg ++ [10])

/-! ## http_server.go -/

/-- Source: cacheRelatedHeaders. -/
def cacheRelatedHeaders : List GoString :=
  [str "Age", str "Date", str "Cache-Control", str "Date", str "ETag", str "Expires",
   str "Last-Modified", str "Pragma", str "Strict-Transport-Security"]

/-- Source: noStripHeadersFrom. -/
def noStripHeadersFrom : List GoString :=
  [str "png", str "jpg", str "svg", str "css", str "ico"]

/-- Source: stripHeaders. -/
def stripHeaders : List GoString :=
  [str "cdn-loop", str "cf-connecting-ip", str "cf-ipcountry", str "cf-ray", str "cf-visitor",
   str "x-forwarded-for", str "x-forwarded-proto", str "x-real-ip"]

/-- Source: getHttpClient, on a pool of size pool with the counter at index: the index of
the chosen client (none: the division by zero on an empty pool) and the new counter. -/
def getHttpClient (pool index : Nat) : Option Nat × Nat :=
  if pool = 1 then (some 0, index)
  else
    let index1 := (index + 1) % 2 ^ 64
    if pool = 0 then (none, index1) else (some (index1 % pool), index1)

/-- The inbound request as the handler reads it. ConfigName is what
r.URL.Query().Get("config_name") returns; Body is what io.ReadAll(r.Body) returns, none
for an error. -/
structure Request where
  Method : GoString
  Host : GoString
  Path : GoString
  RawQuery : GoString
  ConfigName : GoString
  Header : Header
  RemoteAddr : GoString
  Body : Option GoString

/-- The outbound request handed to client.Do. -/
structure OutRequest where
  Method : GoString
  URL : GoString
  Header : Header
  Body : GoString
  deriving DecidableEq, Repr

/-- An upstream response; Body is what io.ReadAll(resp.Body) returns, none for an error. -/
structure UpstreamResponse where
  StatusCode : Int
  Header : Header
  Body : Option GoString
  deriving DecidableEq, Repr

/-- What client.Do returns. -/
inductive FetchResult where
  | transportError
  | response (resp : UpstreamResponse)
  deriving DecidableEq, Repr

/-- What a request reads from outside the handler. -/
structure ServeEnv where
  lib : ServerLib
  load : LoadEnv
  dir : DirEnv
  /-- The clock when ProbeCache runs. -/
  probeNow : Int
  /-- The clock when MbSaveToCache runs. -/
  storeNow : Int
  /-- The text of time.Now().UTC().Format(http.TimeFormat). -/
  date : GoString
  /-- Whether http.NewRequest(method, url, body) returns no error. -/
  newRequestOk : GoString → GoString → Bool
  /-- The result of client.Do on the attempt with this retryNum, by this client. -/
  upstream : Nat → Nat → OutRequest → FetchResult

/-- What a call of HandleRequest leaves behind: the response writer, the package state,
the number of client.Do calls made, and whether the handler ended in a panic. -/
structure Served where
  w : ResponseWriter
  world : World
  fetches : Nat
  panicked : Bool
  deriving DecidableEq, Repr

/-- ASCII lower-casing: strings.ToLower on a header key. -/
def asciiLower (s : GoString) : GoString :=
  s.map (fun c => if 65 ≤ c ∧ c ≤ 90 then c + 32 else c)

/-- Go strings.HasSuffix. -/
def endsWith (s suffix : GoString) : Bool := startsWith s.reverse suffix.reverse

/-- The loop "for key, value := range r.Header" that copies the inbound headers. -/
def copyRequestHeaders : List (GoString × List GoString) → Header → Header
  | [], h => h
  | (key, value) :: rest, h =>
    if key = str "Origin" ∨ key = str "Referer" ∨ asciiLower key ∈ stripHeaders then
      copyRequestHeaders rest h
    else copyRequestHeaders rest (Header.Set h key (value.headD []))

/-- The loop "for k, v := range overrides { h.Set(k, v) }". -/
def setAll : List (GoString × GoString) → Header → Header
  | [], h => h
  | (k, v) :: rest, h => setAll rest (Header.Set h k v)

/-- The outbound request of one attempt (from http.NewRequest to the request-header
overrides). -/
def buildRequest (lib : ServerLib) (r : Request) (site : WebsiteConfig) (path reqBody : GoString) :
    OutRequest :=
  let h0 := copyRequestHeaders r.Header []
  let h1 := Header.Set h0 (str "Origin")
    (stringsReplace lib (Header.Get r.Header (str "Origin")) r.Host site.TargetHost 1)
  let h2 := Header.Set h1 (str "Referer")
    (stringsReplace lib (Header.Get r.Header (str "Referer")) r.Host site.TargetHost 1)
  let h3 := if Header.Get r.Header (str "Referer") ≠ [] then
      Header.Set h2 (str "Referer")
        (stringsReplace lib (Header.Get r.Header (str "Referer")) r.Host site.TargetHost 1)
    else h2
  let h4 := Header.Set (Header.Set h3 (str "Host") site.TargetHost)
    (str "Connection") (str "keep-alive")
  { Method := r.Method, URL := site.URL path, Header := setAll site.ReqHeadersOverride h4,
    Body := reqBody }

/-- How the retry loop ends. -/
inductive FetchEnd where
  /-- retryNum > 3: "Too many retries". -/
  | tooManyRetries
  /-- http.NewRequest failed. -/
  | requestError
  /-- client.Do failed. -/
  | transportError
  /-- getHttpClient divided by zero. -/
  | clientPanic
  /-- A response with a status other than 503. -/
  | response (resp : UpstreamResponse)
  /-- The fuel of the embedding ran out (never with fuel 5, see fetchLoop_total). -/
  | outOfFuel
  deriving DecidableEq, Repr

/-- The retry loop of HandleRequest from the label retry on. retryNum is the value after
"retryNum++", client the current client, index the shared counter, fetches the number of
client.Do calls so far. Returns how the loop ended, the counter and the calls made. -/
def fetchLoop (env : ServeEnv) (pool : Nat) (r : Request) (site : WebsiteConfig)
    (path reqBody : GoString) :
    Nat → Nat → Nat → Nat → Nat → FetchEnd × Nat × Nat
  | 0, _, _, index, fetches => (.outOfFuel, index, fetches)
  | fuel + 1, retryNum, client, index, fetches =>
    let picked := if retryNum > 0 then getHttpClient pool index else (some client, index)
    match picked with
    | (none, index1) => (.clientPanic, index1, fetches)
    | (some client1, index1) =>
      if retryNum > 3 then (.tooManyRetries, index1, fetches)
      else if ¬ env.newRequestOk r.Method (site.URL path) then (.requestError, index1, fetches)
      else
        match env.upstream retryNum client1 (buildRequest env.lib r site path reqBody) with
        | .transportError => (.transportError, index1, fetches + 1)
        | .response resp =>
          if resp.StatusCode = 503 then
            fetchLoop env pool r site path reqBody fuel (retryNum + 1) client1 index1 (fetches + 1)
          else (.response resp, index1, fetches + 1)

/-- The loop "for _, header := range keys { delete(h, header) }": keys are deleted as
written, with no canonicalisation. -/
def deleteRaw {ν : Type} : List GoString → GoMap GoString ν → GoMap GoString ν
  | [], h => h
  | k :: rest, h => deleteRaw rest (mapDelete h k)

/-- The four Set calls that mark a rewritten response. -/
def markReplaced (date : GoString) (h : Header) : Header :=
  Header.Set (Header.Set (Header.Set (Header.Set h (str "X-Replaced") (str "1"))
    (str "Date") date) (str "Cache-Control") (str "no-cache")) (str "Pragma") (str "no-cache")

/-- The loop "for key, value := range resp.Header { headers[key] = value[0] }". -/
def firstValues : List (GoString × List GoString) → GoMap GoString GoString →
    GoMap GoString GoString
  | [], acc => acc
  | (key, value) :: rest, acc => firstValues rest (mapSet acc key (value.headD []))

/-- The loop "for k, v := range site.RespHeadersOverride { headers[k] = v }" on the plain
map headers. -/
def overrideAll : List (GoString × GoString) → GoMap GoString GoString → GoMap GoString GoString
  | [], acc => acc
  | (k, v) :: rest, acc => overrideAll rest (mapSet acc k v)

/-- The loop over noStripHeadersFrom that computes shouldStripHeaders. -/
def shouldStripHeaders (path : GoString) : Bool :=
  ! noStripHeadersFrom.any (fun ext => endsWith path ext)

/-- HandleRequest on a cache hit (the body of "if entry, ok := site.ProbeCache(path); ok"). -/
def serveHit (env : ServeEnv) (world : World) (r : Request) (site : WebsiteConfig)
    (entry : PageCacheEntry) (w : ResponseWriter) : Served :=
  let h1 := setAll entry.Headers w.header
  let h2 := setAll site.RespHeadersOverride h1
  let h3 := Header.Del h2 (str "Content-Length")
  match site.Replace env.lib entry.Content with
  | none => ⟨{ w with header := h3 }, world, 0, true⟩
  | some replaced =>
    match EncodeWithSomething env.lib replaced (Header.Get r.Header (str "Accept-Encoding")) with
    | none => ⟨httpError { w with header := h3 } (str "Error encoding body") 500, world, 0, false⟩
    | some (body, retEncoding) =>
      let h4 := if retEncoding ≠ [] then Header.Set h3 (str "Content-Encoding") retEncoding else h3
      let wasReplaced := decide (body.length ≠ entry.Content.length ∨ body ≠ entry.Content)
      let h5 := if wasReplaced then markReplaced env.date (deleteRaw cacheRelatedHeaders h4) else h4
      match ({ w with header := h5 } : ResponseWriter).WriteHeader entry.Status with
      | none => ⟨{ w with header := h5 }, world, 0, true⟩
      | some w1 => ⟨w1.Write body, world, 0, false⟩

/-- HandleRequest from "defer resp.Body.Close()" on: a response with a status other than
503 has arrived after fetches calls of client.Do; sid is the address of site. -/
def serveResponse (env : ServeEnv) (world : World) (sid : Nat) (site : WebsiteConfig)
    (path : GoString) (w : ResponseWriter) (resp : UpstreamResponse) (fetches : Nat) : Served :=
  match resp.Body with
  | none => ⟨httpError w (str "Error reading body") 500, world, fetches, false⟩
  | some read =>
    match Decode env.lib read (Header.Get resp.Header (str "Content-Encoding")) with
    | none => ⟨httpError w (str "Error decoding body") 500, world, fetches, false⟩
    | some originalBody =>
      match site.Replace env.lib originalBody with
      | none => ⟨w, world, fetches, true⟩
      | some replaced =>
        let wasReplaced :=
          decide (replaced.length ≠ originalBody.length ∨ replaced ≠ originalBody)
        match Encode env.lib replaced (Header.Get resp.Header (str "Content-Encoding")) with
        | none => ⟨httpError w (str "Error encoding body") 500, world, fetches, false⟩
        | some newBody =>
          let headers0 := firstValues resp.Header []
          let headers1 := if shouldStripHeaders path then deleteRaw stripHeaders headers0
                          else headers0
          let headers2 := overrideAll site.RespHeadersOverride headers1
          let headers := mapDelete headers2 (str "Content-Length")
          let site1 := site.MbSaveToCache env.storeNow path originalBody headers resp.StatusCode
          let world1 :=
            if resp.StatusCode < 299 then { world with routes := world.routes.set sid site1 }
            else world
          let h1 := setAll headers w.header
          let h2 := if wasReplaced then deleteRaw cacheRelatedHeaders h1 else h1
          let h3 := if wasReplaced ∨ resp.StatusCode > 499 then markReplaced env.date h2 else h2
          match ({ w with header := h3 } : ResponseWriter).WriteHeader resp.StatusCode with
          | none => ⟨{ w with header := h3 }, world1, fetches, true⟩
          | some w1 => ⟨w1.Write newBody, world1, fetches, false⟩

/-- HandleRequest on a cache miss, from "client := getHttpClient()" on. -/
def serveMiss (env : ServeEnv) (world : World) (r : Request) (sid : Nat) (site : WebsiteConfig)
    (path : GoString) (w : ResponseWriter) : Served :=
  match getHttpClient world.httpClients world.httpClientIndex with
  | (none, index1) => ⟨w, { world with httpClientIndex := index1 }, 0, true⟩
  | (some client, index1) =>
    match r.Body with
    | none =>
      ⟨httpError w (str "Error reading body") 500, { world with httpClientIndex := index1 },
        0, false⟩
    | some reqBody =>
      match fetchLoop env world.httpClients r site path reqBody 5 0 client index1 0 with
      | (.tooManyRetries, index2, n) =>
        ⟨httpError w (str "Failed to load") 500, { world with httpClientIndex := index2 }, n, false⟩
      | (.requestError, index2, n) =>
        ⟨httpError w (str "Error creating request") 500,
          { world with httpClientIndex := index2 }, n, false⟩
      | (.transportError, index2, n) =>
        ⟨httpError w (str "Error getting page") 500,
          { world with httpClientIndex := index2 }, n, false⟩
      | (.clientPanic, index2, n) => ⟨w, { world with httpClientIndex := index2 }, n, true⟩
      | (.outOfFuel, index2, n) => ⟨w, { world with httpClientIndex := index2 }, n, true⟩
      | (.response resp, index2, n) =>
        serveResponse env { world with httpClientIndex := index2 } sid site path w resp n

/-- The request path with the raw query appended, as HandleRequest builds it. -/
def fullPath (r : Request) : GoString :=
  if r.RawQuery ≠ [] then r.Path ++ str "?" ++ r.RawQuery else r.Path

/-- The statement "if r.Header.Get("Content-Encoding") == "identity" { r.Header.Del(...) }". -/
def dropIdentity (r : Request) : Request :=
  if Header.Get r.Header (str "Content-Encoding") = str "identity" then
    { r with Header := Header.Del r.Header (str "Content-Encoding") }
  else r

/-- The first k attempts are answered with a 503, whichever client sends whichever
request. -/
def first503 (env : ServeEnv) (k : Nat) : Prop :=
  ∀ i, i < k → ∀ c q, ∃ resp, env.upstream i c q = .response resp ∧ resp.StatusCode = 503

/-- A status code that WriteHeader sends as the final status line: 101 or 200..999. -/
def finalStatus (code : Int) : Prop := code = 101 ∨ (200 ≤ code ∧ code ≤ 999)

/-- HandleRequest from the block check on, for the route site at address sid. -/
def serveSite (env : ServeEnv) (world : World) (r : Request) (sid : Nat) (site : WebsiteConfig) :
    Served :=
  let path := fullPath r
  let w0 := ResponseWriter.fresh
  let w := if site.ShouldBlock path then httpError w0 [] 403 else w0
  if path = str "/reload_config" then
    match Load env.load world site.BaseConfig with
    | (world1, .panic) => ⟨w, world1, 0, true⟩
    | (world1, _) => ⟨w.setStatus 200, world1, 0, false⟩
  else
    match site.ProbeCache env.probeNow path with
    | (some entry, true) => serveHit env world (dropIdentity r) site entry w
    | _ => serveMiss env world (dropIdentity r) sid site path w

/-- The fallback redirect for an unknown or deactivated host. -/
def redirectFound (w : ResponseWriter) : ResponseWriter :=
  let h := Header.Set w.header (str "Location")
    (str "https://www.godaddy.com/websites/website-builder")
  ({ w with header := h } : ResponseWriter).setStatus 302

/-- Source: HandleRequest. -/
def HandleRequest (env : ServeEnv) (world : World) (r : Request) : Served :=
  let w := ResponseWriter.fresh
  if r.Host = [] then ⟨httpError w (str "Host is empty") 400, world, 0, false⟩
  else if r.Path = str "/reload_all_configs" then
    match LoadAllSites env.load env.dir world with
    | (world1, none) => ⟨w, world1, 0, true⟩
    | (world1, some _) => ⟨w.setStatus 200, world1, 0, false⟩
  else if startsWith r.Path (str "/reload_specific_config") then
    if r.ConfigName = [] then ⟨httpError w (str "Host is empty") 400, world, 0, false⟩
    else
      match GetBaseConfigByName world r.ConfigName with
      | none => ⟨httpError w (str "Config not found") 404, world, 0, true⟩
      | some b =>
        match Load env.load world b with
        | (world1, .error _) =>
          ⟨httpError w (str "Error reloading config") 500, world1, 0, false⟩
        | (world1, .panic) => ⟨w, world1, 0, true⟩
        | (world1, .ok _) => ⟨w.setStatus 200, world1, 0, false⟩
  else
    match GetSiteConfig world r.Host with
    | none => ⟨redirectFound w, world, 0, false⟩
    | some sid =>
      match world.routes[sid]? with
      | none => ⟨w, world, 0, true⟩
      | some site =>
        match world.bundles[site.BaseConfig]? with
        | none => ⟨w, world, 0, true⟩
        | some bundle =>
          if bundle.Deactivated then ⟨redirectFound w, world, 0, false⟩
          else serveSite env world r sid site

/-! ## A small site for evaluating Load and HandleRequest -/

/-- The directory configs_v2/site: config.json maps the original domain origin.test to the
template "${name}.test", sets name = front and sets the deactivation flag; the descriptor
origin.test.json blocks the path /admin. -/
def siteDisk (path : GoString) : Option ConfigFile :=
  if path = str "configs_v2/site/config.json" then
    some { asBase := some { Vars := [(str "name", str "front")],
                            Websites := [(str "origin.test", tokenText (str "name") ++ str ".test")],
                            Deactivated := true },
           asRoute := none }
  else if path = str "configs_v2/site/origin.test.json" then
    some { asBase := none,
           asRoute := some { NoCache := false, ReqHeadersOverride := [],
                             RespHeadersOverride := [], Replacements := [],
                             BypassCacheFor := [], Block := [str "/admin"] } }
  else none

/-- The environment of a load of the small site at clock reading 1000. -/
def siteEnv : LoadEnv := { lib := asciiLib, disk := siteDisk, now := 1000, rangeOrder := id }

/-- The state of loadSite("site") just before it calls Load: a fresh bundle that only has
its name, one direct client. -/
def freshWorld : World :=
  { bundles := [{ Name := str "site", Vars := [], Websites := [], WebsiteConfigs := [],
                  Deactivated := false }],
    routes := [], websites := [], baseConfigs := [], httpClients := 1, httpClientIndex := 0 }

/-- The state after the successful load of the small site. -/
def loadedWorld : World := (Load siteEnv freshWorld 0).1

/-- ASCII white space: the bytes strings.TrimSpace trims from ASCII text. -/
def asciiSpace (c : Nat) : Bool := decide (c = 32 ∨ (9 ≤ c ∧ c ≤ 13))

/-- ASCII trimming: strings.TrimSpace on ASCII input. -/
def asciiTrimSpace (s : GoString) : GoString :=
  ((s.dropWhile asciiSpace).reverse.dropWhile asciiSpace).reverse

/-- A library for examples that use literal replacements and the identity encoding only:
no pattern compiles and every codec fails. -/
def plainLib : ServerLib :=
  { regexReplaceAll := fun _ _ _ => none,
    replaceEmptyOld := fun s _ _ => s,
    TrimSpace := asciiTrimSpace,
    gzipEncode := fun _ => none, gzipDecode := fun _ => none,
    brotliEncode := fun _ => none, brotliDecode := fun _ => none,
    deflateEncode := fun _ => none, deflateDecode := fun _ => none,
    zstdEncode := fun _ => none, zstdDecode := fun _ => none }

/-- An upstream that answers every attempt with 200 and the body "secret". -/
def okUpstream : Nat → Nat → OutRequest → FetchResult :=
  fun _ _ _ => .response { StatusCode := 200, Header := [], Body := some (str "secret") }

/-- The environment of a request to the small site at clock reading 2000. -/
def siteServeEnv (upstream : Nat → Nat → OutRequest → FetchResult) : ServeEnv :=
  { lib := plainLib, load := siteEnv, dir := { readDir := none, stat := fun _ => none },
    probeNow := 2000, storeNow := 2000, date := str "now",
    newRequestOk := fun _ _ => true, upstream := upstream }

/-- GET of a path on the host front.test. -/
def getRequest (path : GoString) : Request :=
  { Method := str "GET", Host := str "front.test", Path := path, RawQuery := [],
    ConfigName := [], Header := [], RemoteAddr := str "203.0.113.9:4000", Body := some [] }

/-- What Load promises about the cache of the new route bound to the domain v: the
bindings of the previous route of v, or none when v had no previous route. -/
def CacheCarried (prev : GoMap GoString Nat) (heap0 : List WebsiteConfig) (v : GoString)
    (route : WebsiteConfig) : Prop :=
  match mapGet prev v with
  | some pid => ∃ previous, heap0[pid]? = some previous ∧
      ∀ path, mapGet route.cache path = mapGet previous.cache path
  | none => route.cache = []

/-- The directory of the small site after an edit: config.json now sets name = other, and
the descriptor origin.test.json is gone. -/
def brokenDisk (path : GoString) : Option ConfigFile :=
  if path = str "configs_v2/site/config.json" then
    some { asBase := some { Vars := [(str "name", str "other")],
                            Websites := [(str "origin.test", tokenText (str "name") ++ str ".test")],
                            Deactivated := false },
           asRoute := none }
  else none

/-- The environment of a reload of the edited small site. -/
def brokenEnv : LoadEnv := { lib := asciiLib, disk := brokenDisk, now := 3000, rangeOrder := id }

/-- The loaded small site after the path /a has been stored in the cache of its route. -/
def warmWorld : World :=
  let warm := loadedWorld.routes.map
    (fun site => site.MbSaveToCache 2000 (str "/a") (str "body") [] 200)
  { loadedWorld with routes := warm }

/-- The route of the loaded small site. -/
def siteRoute : WebsiteConfig :=
  { TargetHost := str "origin.test", BaseConfig := 0, LoadedAt := 1000, cache := [],
    NoCache := false, ReqHeadersOverride := [], RespHeadersOverride := [], Replacements := [],
    BypassCacheFor := [], Block := [str "/admin"] }

/-- The bundle of the loaded small site. -/
def siteBundle : SiteBaseConfig :=
  { Name := str "site", Vars := [(str "name", str "front")],
    Websites := [(str "origin.test", str "front.test")],
    WebsiteConfigs := [(str "front.test", 0)], Deactivated := false }

/-- The response 503 with an empty body. -/
def busyResponse : UpstreamResponse := { StatusCode := 503, Header := [], Body := some [] }

/-- The response 200 with the body "secret". -/
def okResponse : UpstreamResponse := { StatusCode := 200, Header := [], Body := some (str "secret") }

/-- An upstream that answers the first three attempts with 503 and then with 200. -/
def flakyUpstream : Nat → Nat → OutRequest → FetchResult :=
  fun attempt _ _ => if attempt < 3 then .response busyResponse else .response okResponse

/-- An upstream that answers 200 with a body in the content-encoding "compress", which
Decode does not know. -/
def compressUpstream : Nat → Nat → OutRequest → FetchResult :=
  fun _ _ _ => .response
    { StatusCode := 200, Header := [(str "Content-Encoding", [str "compress"])],
      Body := some (str "secret") }

/-- The decimal digits of a natural number, most significant first (strconv.Itoa on a
non-negative int). -/
def decimal (n : Nat) : GoString :=
  if n = 0 then [48] else (Nat.digits 10 n).reverse.map (fun d => d + 48)

/-- Library: strconv.Itoa. -/
def itoa (n : Int) : GoString :=
  if n < 0 then 45 :: decimal n.natAbs else decimal n.toNat

/-- An upstream that answers every attempt with the given status and the body "secret". -/
def statusUpstream (code : Int) : Nat → Nat → OutRequest → FetchResult :=
  fun _ _ _ => .response { StatusCode := code, Header := [], Body := some (str "secret") }

/-- The header map that HandleRequest hands to MbSaveToCache and writes to the client: the
first values of the upstream headers, after the strip list, the response-header overrides
of the route and the removal of Content-Length. -/
def outboundHeaders (site : WebsiteConfig) (path : GoString) (resp : UpstreamResponse) :
    GoMap GoString GoString :=
  mapDelete
    (overrideAll site.RespHeadersOverride
      (if shouldStripHeaders path then deleteRaw stripHeaders (firstValues resp.Header [])
       else firstValues resp.Header []))
    (str "Content-Length")

/-- The content-encoding tokens that Encode knows by name. -/
def knownEncoding (e : GoString) : Prop :=
  e = str "gzip" ∨ e = str "brotli" ∨ e = str "br" ∨ e = str "deflate" ∨ e = str "zstd" ∨
    e = str "plain"

/-- Whether the chunk of the Accept-Encoding header, trimmed, names an encoding whose
output for data is strictly shorter than data: the test that ends the loop of
EncodeWithSomething with a result. -/
def shrinks (lib : ServerLib) (data chunk : GoString) : Bool :=
  match Encode lib data (lib.TrimSpace chunk) with
  | some encoded => decide (encoded.length < data.length)
  | none => false

/-- Run-length coding: each run of equal bytes, up to 255 long, as its length and its
byte. -/
def runLength : GoString → GoString
  | [] => []
  | c :: t =>
    match runLength t with
    | n :: d :: rest => if d = c ∧ n < 255 then (n + 1) :: d :: rest else 1 :: c :: n :: d :: rest
    | _ => [1, c]

/-- A library whose gzip encoder is run-length coding. It stands for a codec that makes a
long run of equal bytes shorter, as gzip does; only that property is used. -/
def runLengthLib : ServerLib :=
  { plainLib with gzipEncode := fun data => some (runLength data) }

/-- The clients returned by n consecutive calls of getHttpClient on a pool of the given
size, the shared counter being at index before the first call. -/
def callsFrom (pool : Nat) : Nat → Nat → List (Option Nat)
  | 0, _ => []
  | n + 1, index =>
    (getHttpClient pool index).1 :: callsFrom pool n (getHttpClient pool index).2

/-- The shared counter after n consecutive calls of getHttpClient. -/
def counterAfter (pool : Nat) : Nat → Nat → Nat
  | 0, index => index
  | n + 1, index => counterAfter pool n (getHttpClient pool index).2

/-- The residues modulo m of the n consecutive numbers from a on. -/
def residues (m : Nat) : Nat → Nat → List Nat
  | _, 0 => []
  | a, n + 1 => a % m :: residues m (a + 1) n

/-- The route of the small site with a response-header override of Content-Type. -/
def overrideRoute : WebsiteConfig :=
  { siteRoute with RespHeadersOverride := [(str "Content-Type", str "text/plain")] }

/-- The loaded small site with that override on its route. -/
def overrideWorld : World := { loadedWorld with routes := [overrideRoute] }

/-- The response 200 with Content-Type text/html and the body "secret". -/
def htmlResponse : UpstreamResponse :=
  { StatusCode := 200, Header := [(str "Content-Type", [str "text/html"])],
    Body := some (str "secret") }

/-- An upstream that answers every attempt with htmlResponse. -/
def htmlUpstream : Nat → Nat → OutRequest → FetchResult := fun _ _ _ => .response htmlResponse

/-- The loaded small site with the path /a cached: a body of forty equal bytes, fetched at
clock reading 2000. -/
def runWorld : World :=
  let warm := loadedWorld.routes.map
    (fun site => site.MbSaveToCache 2000 (str "/a") (List.replicate 40 97) [] 200)
  { loadedWorld with routes := warm }

/-- The environment of a request to the small site at clock reading 2000, with the
library whose gzip encoder shrinks runs. -/
def runServeEnv : ServeEnv :=
  { lib := runLengthLib, load := siteEnv, dir := { readDir := none, stat := fun _ => none },
    probeNow := 2000, storeNow := 2000, date := str "now",
    newRequestOk := fun _ _ => true, upstream := okUpstream }

/-- GET of a path on the host front.test with the given Accept-Encoding header. -/
def acceptRequest (path accept : GoString) : Request :=
  { getRequest path with Header := [(str "Accept-Encoding", [accept])] }

/-- The descriptor writes entries into the bundle's route set: its key BaseConfig holds an
object with a non-empty website_configs. -/
def RouteJson.injects (j : RouteJson) : Bool :=
  match j.BaseConfig with
  | .object patch => decide (patch.WebsiteConfigs ≠ [])
  | _ => false

/-- The descriptor writes the deactivation flag of the bundle through its key BaseConfig. -/
def RouteJson.setsDeactivated (j : RouteJson) : Bool :=
  match j.BaseConfig with
  | .object patch => patch.Deactivated.isSome
  | _ => false

/-- The directory of the small site after another edit: config.json sets name = other, and
the descriptor origin.test.json is the JSON object with the one key BaseConfig, holding
an object with the one key website_configs, holding an object that binds front.test to
an empty object. -/
def injectDisk (path : GoString) : Option ConfigFile :=
  if path = str "configs_v2/site/config.json" then
    some { asBase := some { Vars := [(str "name", str "other")],
                            Websites := [(str "origin.test", tokenText (str "name") ++ str ".test")],
                            Deactivated := false },
           asRoute := none }
  else if path = str "configs_v2/site/origin.test.json" then
    some { asBase := none,
           asRoute := some { NoCache := false, ReqHeadersOverride := [],
                             RespHeadersOverride := [], Replacements := [],
                             BypassCacheFor := [], Block := [],
                             BaseConfig := .object
                               { WebsiteConfigs := [(str "front.test", some {})] } } }
  else none

/-- The environment of a reload of the small site over injectDisk. -/
def injectEnv : LoadEnv := { lib := asciiLib, disk := injectDisk, now := 3000, rangeOrder := id }

/-! # Theorems -/

/-! ## Formatter pipeline -/

theorem padFuel_step (cnt : Int) (v w : GoString) (fuel : Nat)
    (hw : w.length = v.length + 1) (h : padFuel cnt v = fuel + 1) : padFuel cnt w = fuel := by
  unfold padFuel at *
  omega

theorem padFuel_succ_lt (cnt : Int) (v : GoString) (fuel : Nat)
    (h : padFuel cnt v = fuel + 1) : (v.length : Int) < cnt := by
  unfold padFuel at h
  omega

/-- The left-padding loop, given the rounds it needs, puts exactly the missing spaces in
front. -/
theorem padLoop_left (cnt : Int) :
    ∀ (fuel : Nat) (v : GoString), padFuel cnt v = fuel →
      padLoop (fun v => 32 :: v) cnt fuel v = List.replicate fuel 32 ++ v := by
  intro fuel
  induction fuel with
  | zero => intro v _; simp [padLoop]
  | succ k ih =>
    intro v h
    have hlt := padFuel_succ_lt cnt v k h
    have hk : padFuel cnt (32 :: v) = k := padFuel_step cnt v (32 :: v) k (by simp) h
    rw [padLoop, if_pos hlt, ih (32 :: v) hk, List.replicate_succ']
    simp

/-- The right-padding loop, given the rounds it needs, puts exactly the missing spaces
behind. -/
theorem padLoop_right (cnt : Int) :
    ∀ (fuel : Nat) (v : GoString), padFuel cnt v = fuel →
      padLoop (fun v => v ++ [32]) cnt fuel v = v ++ List.replicate fuel 32 := by
  intro fuel
  induction fuel with
  | zero => intro v _; simp [padLoop]
  | succ k ih =>
    intro v h
    have hlt := padFuel_succ_lt cnt v k h
    have hk : padFuel cnt (v ++ [32]) = k := padFuel_step cnt v (v ++ [32]) k (by simp) h
    rw [padLoop, if_pos hlt, ih (v ++ [32]) hk]
    simp [List.replicate_succ]

/-- More fuel than the missing width never changes what the padding loop returns: the
loop has stopped by its own test. -/
theorem padLoop_fuel_enough (step : GoString → GoString) (cnt : Int)
    (hstep : ∀ v, (step v).length = v.length + 1) :
    ∀ (fuel : Nat) (v : GoString) (extra : Nat), padFuel cnt v = fuel →
      padLoop step cnt (fuel + extra) v = padLoop step cnt fuel v := by
  intro fuel
  induction fuel with
  | zero =>
    intro v extra h
    cases extra with
    | zero => rfl
    | succ e =>
      have : ¬ ((v.length : Int) < cnt) := by unfold padFuel at h; omega
      simp [padLoop, this]
  | succ k ih =>
    intro v extra h
    have hlt := padFuel_succ_lt cnt v k h
    have hk : padFuel cnt (step v) = k := padFuel_step cnt v (step v) k (hstep v) h
    have e1 : k + 1 + extra = (k + extra) + 1 := by omega
    rw [e1, padLoop, padLoop, if_pos hlt, if_pos hlt, ih (step v) extra hk]

/-! ## strconv.Atoi reads back what strconv.Itoa writes -/

theorem foldl_digits_ge (ds : List Nat) (acc : Nat) :
    acc ≤ ds.foldl (fun a d => a * 10 + d) acc := by
  induction ds generalizing acc with
  | nil => exact le_refl _
  | cons d t ih =>
    simp only [List.foldl_cons]
    have := ih (acc * 10 + d)
    omega

/-- The digit loop on decimal digits whose value stays within 2^63 returns that value. -/
theorem parseUintLoop_digits :
    ∀ (ds : List Nat) (acc : Nat), (∀ d ∈ ds, d < 10) →
      ds.foldl (fun a d => a * 10 + d) acc ≤ 2 ^ 63 →
      parseUintLoop (ds.map (fun d => d + 48)) acc
        = .ok (ds.foldl (fun a d => a * 10 + d) acc) := by
  intro ds
  induction ds with
  | nil => intro acc _ _; rfl
  | cons d t ih =>
    intro acc hd hv
    have hd10 : d < 10 := hd d (List.mem_cons_self _ _)
    have ht : ∀ x ∈ t, x < 10 := fun x hx => hd x (List.mem_cons_of_mem _ hx)
    simp only [List.foldl_cons] at hv ⊢
    have hge := foldl_digits_ge t (acc * 10 + d)
    have h1 : 48 ≤ d + 48 ∧ d + 48 ≤ 57 := by omega
    have h2 : ¬ (acc ≥ 2 ^ 64 / 10 + 1) := by norm_num; omega
    have h3 : ¬ (acc * 10 + (d + 48 - 48) > 2 ^ 64 - 1) := by norm_num; omega
    have h4 : d + 48 - 48 = d := by omega
    rw [List.map_cons, parseUintLoop]
    simp only [h1, and_self, if_true, h2, if_false, h3]
    rw [h4]
    exact ih (acc * 10 + d) ht hv

theorem foldl_reverse_digits (n : Nat) :
    (Nat.digits 10 n).reverse.foldl (fun a d => a * 10 + d) 0 = n := by
  rw [List.foldl_reverse]
  have h := Nat.ofDigits_digits 10 n
  rw [Nat.ofDigits_eq_foldr] at h
  have e : (fun (x y : Nat) => y * 10 + x) = (fun (x y : Nat) => (x : Nat) + 10 * y) := by
    funext x y; omega
  rw [e]
  simpa using h

/-- The digit loop reads the decimal digits of n back as n, for n up to 2^63. -/
theorem parseUintLoop_decimal (n : Nat) (h : n ≤ 2 ^ 63) :
    parseUintLoop (decimal n) 0 = .ok n ∧ decimal n ≠ [] ∧
      ∀ c t, decimal n = c :: t → c ≠ 45 ∧ c ≠ 43 := by
  unfold decimal
  by_cases h0 : n = 0
  · subst h0
    simp [parseUintLoop]
  · rw [if_neg h0]
    have hd : ∀ d ∈ (Nat.digits 10 n).reverse, d < 10 := by
      intro d hd
      exact Nat.digits_lt_base (by norm_num) (List.mem_reverse.mp hd)
    have hne : (Nat.digits 10 n).reverse ≠ [] := by
      simpa using Nat.digits_ne_nil_iff_ne_zero.mpr h0
    have hv := foldl_reverse_digits n
    refine ⟨?_, ?_, ?_⟩
    · have := parseUintLoop_digits (Nat.digits 10 n).reverse 0 hd (by rw [hv]; exact h)
      rw [this, hv]
    · simpa using hne
    · intro c t hct
      cases hr : (Nat.digits 10 n).reverse with
      | nil => exact absurd hr hne
      | cons d ds =>
        rw [hr, List.map_cons] at hct
        have hd10 : d < 10 := hd d (by rw [hr]; exact List.mem_cons_self _ _)
        have hc : c = d + 48 := by
          have := (List.cons.inj hct).1
          omega
        omega

/-- Atoi reads back every int that Itoa writes. -/
theorem atoi_itoa (n : Int) (h1 : -(2 ^ 63) ≤ n) (h2 : n < 2 ^ 63) : atoi (itoa n) = .ok n := by
  unfold itoa
  by_cases hneg : n < 0
  · rw [if_pos hneg]
    have hm : n.natAbs ≤ 2 ^ 63 := by omega
    obtain ⟨hp, hne, _⟩ := parseUintLoop_decimal n.natAbs hm
    have hgt : ¬ (9223372036854775808 < n.natAbs) := by omega
    simp [atoi, hne, hp, hgt, abs_of_neg hneg]
  · rw [if_neg hneg]
    have hm : n.toNat ≤ 2 ^ 63 := by omega
    obtain ⟨hp, hne, hsign⟩ := parseUintLoop_decimal n.toNat hm
    have hlt : n.toNat < 9223372036854775808 := by omega
    have hval : (n.toNat : Int) = n := by omega
    cases hdec : decimal n.toNat with
    | nil => exact absurd hdec hne
    | cons c t =>
      obtain ⟨hc1, hc2⟩ := hsign c t hdec
      rw [hdec] at hp
      simp [atoi, hc1, hc2, hp, hlt, hval]

/-- The two padding formatters on an argument that parses as n: the missing width in
spaces goes in front (leftpad) or behind (rightpad). -/
theorem Format_pad_of_atoi (lib : StringsLib) (v a : GoString) (rest : List GoString) (n : Int)
    (hp : atoi a = .ok n) :
    Formatter.FormatterLeftPad.Format lib v (a :: rest)
      = .ok (List.replicate (n - (v.length : Int)).toNat 32 ++ v) ∧
    Formatter.FormatterRightPad.Format lib v (a :: rest)
      = .ok (v ++ List.replicate (n - (v.length : Int)).toNat 32) := by
  have hl := padLoop_left n (padFuel n v) v rfl
  have hr := padLoop_right n (padFuel n v) v rfl
  have hn : (n - (v.length : Int)).toNat = padFuel n v := rfl
  rw [hn]
  constructor
  · simp [Formatter.Format, readAnIntFromArgsOrReturnError, hp, hl]
  · simp [Formatter.Format, readAnIntFromArgsOrReturnError, hp, hr]

/-- C4. For every value v and argument list a :: rest: when a parses as the integer n,
leftpad and rightpad return v unchanged if len(v) >= n and otherwise v with n - len(v)
spaces in front (leftpad) or behind (rightpad), a string of length exactly n; when a does
not parse as an integer both return the parse error; with no argument at all both return
the error "no padding length provided". -/
theorem pad_formatters_contract (lib : StringsLib) (v a : GoString) (rest : List GoString) :
    (Formatter.FormatterLeftPad.Format lib v [] = .error .noPaddingLength ∧
      Formatter.FormatterRightPad.Format lib v [] = .error .noPaddingLength) ∧
    match atoi a with
    | .ok n =>
      if (v.length : Int) ≥ n then
        Formatter.FormatterLeftPad.Format lib v (a :: rest) = .ok v ∧
        Formatter.FormatterRightPad.Format lib v (a :: rest) = .ok v
      else
        Formatter.FormatterLeftPad.Format lib v (a :: rest)
          = .ok (List.replicate (n - (v.length : Int)).toNat 32 ++ v) ∧
        Formatter.FormatterRightPad.Format lib v (a :: rest)
          = .ok (v ++ List.replicate (n - (v.length : Int)).toNat 32) ∧
        ((List.replicate (n - (v.length : Int)).toNat 32 ++ v).length : Int) = n ∧
        ((v ++ List.replicate (n - (v.length : Int)).toNat 32).length : Int) = n
    | .error k =>
      Formatter.FormatterLeftPad.Format lib v (a :: rest) = .error (.atoi a k) ∧
      Formatter.FormatterRightPad.Format lib v (a :: rest) = .error (.atoi a k) := by
  refine ⟨⟨rfl, rfl⟩, ?_⟩
  cases hp : atoi a with
  | error k => simp [Formatter.Format, readAnIntFromArgsOrReturnError, hp]
  | ok n =>
    obtain ⟨hl, hr⟩ := Format_pad_of_atoi lib v a rest n hp
    by_cases hge : (v.length : Int) ≥ n
    · have h0 : (n - (v.length : Int)).toNat = 0 := by omega
      rw [h0] at hl hr
      simp only [hge, if_true]
      exact ⟨by simpa using hl, by simpa using hr⟩
    · simp only [hge, if_false]
      refine ⟨hl, hr, ?_, ?_⟩
      · simp only [List.length_append, List.length_replicate]; omega
      · simp only [List.length_append, List.length_replicate]; omega

/-- The padding formatters on the decimal text of an int n (what leftpad(n) and
rightpad(n) denote): v unchanged when len(v) >= n, otherwise v padded with n - len(v)
spaces to the length n. -/
theorem pad_formatters_itoa (lib : StringsLib) (v : GoString) (n : Int) (rest : List GoString)
    (h1 : -(2 ^ 63) ≤ n) (h2 : n < 2 ^ 63) :
    Formatter.FormatterLeftPad.Format lib v (itoa n :: rest)
      = .ok (List.replicate (n - (v.length : Int)).toNat 32 ++ v) ∧
    Formatter.FormatterRightPad.Format lib v (itoa n :: rest)
      = .ok (v ++ List.replicate (n - (v.length : Int)).toNat 32) ∧
    ((v.length : Int) ≥ n → List.replicate (n - (v.length : Int)).toNat 32 = []) ∧
    ((v.length : Int) < n →
      ((List.replicate (n - (v.length : Int)).toNat 32 ++ v).length : Int) = n) := by
  obtain ⟨hl, hr⟩ := Format_pad_of_atoi lib v (itoa n) rest n (atoi_itoa n h1 h2)
  refine ⟨hl, hr, ?_, ?_⟩
  · intro hge
    have h0 : (n - (v.length : Int)).toNat = 0 := by omega
    rw [h0]; rfl
  · intro hlt
    simp only [List.length_append, List.length_replicate]; omega

/-- Cases of TestFormatting run through formatString: two plain variables, and the chain
title:rightpad(10). -/
theorem test_formatting_string :
    formatString asciiLib
      (str "two vars: " ++ tokenText (str "var1") ++ str " and " ++ tokenText (str "var2"))
      testDictionary = .ok (str "two vars: value1 and value2") ∧
    formatString asciiLib (str "x: " ++ tokenText (str "var1:title:rightpad(10)") ++ str "|")
      testDictionary = .ok (str "x: Value1    |") ∧
    formatString asciiLib (str "plain text") testDictionary = .ok (str "plain text") := by
  decide

/-- The padding cases of TestFormatting. -/
theorem test_formatting_pads :
    formatWithFormatters asciiLib (str "value1") [str "leftpad(10)"] = .ok (str "    value1") ∧
    formatWithFormatters asciiLib (str "value1") [str "rightpad(10)"] = .ok (str "value1    ") ∧
    formatWithFormatters asciiLib (str "value1") [str "title", str "rightpad(10)"]
      = .ok (str "Value1    ") := by decide

/-- C1, at the failing input. The chain leftpad(5):rightpad on the value "ab": rightpad has
no parentheses, so by the claim it receives the empty argument list and the chain fails with
"no padding length provided"; the code hands it the argument list left over from
leftpad(5) and returns "   ab" with no error. -/
theorem formatWithFormatters_stale_args :
    formatWithFormatters asciiLib (str "ab") [str "leftpad(5)", str "rightpad"]
      = .ok (str "   ab") ∧
    formatChainSpec asciiLib [str "leftpad(5)", str "rightpad"] (str "ab")
      = .error .noPaddingLength ∧
    extractArgs (str "rightpad") [str "5"] = some (str "rightpad", [str "5"]) := by decide

/-- When every stage of the chain carries its own parentheses, the code agrees with the
left-to-right fold of the single stages under their own arguments. -/
theorem formatLoop_eq_spec_of_parens (lib : StringsLib) :
    ∀ (formatters : List GoString) (val : GoString) (args : List GoString),
      (∀ f ∈ formatters, containsByte 40 f = true) →
      formatLoop lib formatters val args = formatChainSpec lib formatters val := by
  intro formatters
  induction formatters with
  | nil => intro val args _; rfl
  | cons f rest ih =>
    intro val args h
    have hf : containsByte 40 f = true := h f (List.mem_cons_self _ _)
    have hrest : ∀ g ∈ rest, containsByte 40 g = true :=
      fun g hg => h g (List.mem_cons_of_mem _ hg)
    have he : extractArgs f args = extractArgs f [] := by simp [extractArgs, hf]
    rw [formatLoop, formatChainSpec, he]
    cases extractArgs f [] with
    | none => rfl
    | some p =>
      obtain ⟨name, a1⟩ := p
      simp only
      cases selectFormatter name with
      | none => rfl
      | some fm =>
        simp only
        cases fm.Format lib val a1 with
        | error e => rfl
        | ok v1 => exact ih v1 a1 hrest

/-- The pieces loop passes over every piece whose identifier is not in the dictionary. -/
theorem formatPiecesLoop_absent (lib : StringsLib) (dictionary : GoMap GoString GoString) :
    ∀ (pieces : List (GoString × GoString)) (s : GoString),
      (∀ p ∈ pieces, mapGet dictionary ((splitByte 58 p.2).headD []) = none) →
      formatPiecesLoop lib dictionary pieces s = .ok s := by
  intro pieces
  induction pieces with
  | nil => intro s _; rfl
  | cons p rest ih =>
    intro s h
    have hp := h p (List.mem_cons_self _ _)
    rw [formatPiecesLoop]
    simp only [hp]
    exact ih s (fun q hq => h q (List.mem_cons_of_mem _ hq))

/-- C3. For every dictionary and every template in which no token's identifier (the text
of the token up to its first colon) is a key of the dictionary, formatString returns the
template unchanged and no error, whatever the formatter names of the tokens are. -/
theorem formatString_absent_identity (lib : StringsLib) (s : GoString)
    (dictionary : GoMap GoString GoString)
    (h : ∀ p ∈ findAll s, mapGet dictionary ((splitByte 58 p.2).headD []) = none) :
    formatString lib s dictionary = .ok s :=
  formatPiecesLoop_absent lib dictionary (findAll s) s h

/-- Witness of C3: a template with an absent identifier under an unknown formatter. -/
theorem formatString_absent_identity_witness :
    findAll (str "a " ++ tokenText (str "var3:nope(") ++ str " b")
      = [(tokenText (str "var3:nope("), str "var3:nope(")] ∧
    formatString asciiLib (str "a " ++ tokenText (str "var3:nope(") ++ str " b") testDictionary
      = .ok (str "a " ++ tokenText (str "var3:nope(") ++ str " b") :=
  ⟨by decide,
   formatString_absent_identity asciiLib _ testDictionary (by decide)⟩

/-! ## The token scan -/

theorem tokenText_length (g : GoString) : (tokenText g).length = g.length + 3 := by
  simp [tokenText]

theorem tokenText_append (g r : GoString) : tokenText g ++ r = 36 :: 123 :: (g ++ 125 :: r) := by
  simp [tokenText]

/-- A match at the head of s is the text of a token followed by the rest. -/
theorem matchAt_sound {s g rest : GoString} (h : matchAt s = some (g, rest)) :
    s = tokenText g ++ rest ∧ g ≠ [] ∧ ∀ c ∈ g, fmtClass c = true := by
  match s, h with
  | a :: b :: t, h =>
    rw [matchAt] at h
    by_cases hab : a = 36 ∧ b = 123
    · rw [if_pos hab] at h
      have htd := List.takeWhile_append_dropWhile fmtClass t
      cases htw : t.takeWhile fmtClass with
      | nil => simp [htw] at h
      | cons x xs =>
        cases hdw : t.dropWhile fmtClass with
        | nil => simp [htw, hdw] at h
        | cons c r =>
          simp only [htw, hdw] at h
          by_cases hc : c = 125
          · rw [if_pos hc] at h
            simp only [Option.some.injEq, Prod.mk.injEq] at h
            obtain ⟨hg, hr⟩ := h
            subst hg hr
            refine ⟨?_, by simp, ?_⟩
            · rw [tokenText_append, hab.1, hab.2, ← hc, ← hdw, ← htw, htd]
            · intro y hy
              rw [← htw] at hy
              exact List.mem_takeWhile_imp hy
          · rw [if_neg hc] at h
            exact absurd h (by simp)
    · rw [if_neg hab] at h
      exact absurd h (by simp)
  | [], h => simp [matchAt] at h
  | [_], h => simp [matchAt] at h

/-- The text of a token, whatever follows it, is matched with the token's group. -/
theorem matchAt_token (g r : GoString) (hne : g ≠ []) (hcl : ∀ c ∈ g, fmtClass c = true) :
    matchAt (tokenText g ++ r) = some (g, r) := by
  have h125 : fmtClass 125 = false := by decide
  have htw : (g ++ 125 :: r).takeWhile fmtClass = g := by
    rw [List.takeWhile_append_of_pos hcl]
    simp [List.takeWhile_cons, h125]
  have hdw : (g ++ 125 :: r).dropWhile fmtClass = 125 :: r := by
    rw [List.dropWhile_append_of_pos hcl]
    simp [List.dropWhile_cons, h125]
  rw [tokenText_append]
  unfold matchAt
  simp only [true_and, if_true, htw, hdw]
  cases g with
  | nil => exact absurd rfl hne
  | cons x xs => simp

theorem matchAt_ne_dollar (c : Nat) (t : GoString) (hc : c ≠ 36) : matchAt (c :: t) = none := by
  cases t with
  | nil => simp [matchAt]
  | cons b t => simp [matchAt, hc]

theorem matchAt_rest_length {s g rest : GoString} (h : matchAt s = some (g, rest)) :
    rest.length + 4 ≤ s.length := by
  obtain ⟨hs, hne, _⟩ := matchAt_sound h
  have : 1 ≤ g.length := List.length_pos.mpr hne
  rw [hs, List.length_append, tokenText_length]
  omega

/-- The scan of FindAll does not depend on the fuel once it covers the string. -/
theorem findAllFuel_enough :
    ∀ (f1 f2 : Nat) (s : GoString), s.length ≤ f1 → s.length ≤ f2 →
      findAllFuel f1 s = findAllFuel f2 s := by
  intro f1
  induction f1 with
  | zero =>
    intro f2 s h1 _
    have : s = [] := List.length_eq_zero.mp (Nat.le_zero.mp h1)
    subst this
    cases f2 <;> rfl
  | succ k ih =>
    intro f2 s h1 h2
    cases s with
    | nil => cases f2 <;> rfl
    | cons c t =>
      cases f2 with
      | zero => simp at h2
      | succ m =>
        simp only [List.length_cons] at h1 h2
        rw [findAllFuel, findAllFuel]
        cases hm : matchAt (c :: t) with
        | none => exact ih m t (by omega) (by omega)
        | some p =>
          obtain ⟨g, rest⟩ := p
          have hl := matchAt_rest_length hm
          simp only [List.length_cons] at hl
          simp only
          rw [ih m rest (by omega) (by omega)]

theorem findAll_nil : findAll [] = [] := rfl

/-- FindAll, one scan step at a time. -/
theorem findAll_cons (c : Nat) (t : GoString) :
    findAll (c :: t) =
      match matchAt (c :: t) with
      | some (g, rest) => (tokenText g, g) :: findAll rest
      | none => findAll t := by
  unfold findAll
  rw [List.length_cons, findAllFuel]
  cases hm : matchAt (c :: t) with
  | none => rfl
  | some p =>
    obtain ⟨g, rest⟩ := p
    have hl := matchAt_rest_length hm
    simp only [List.length_cons] at hl
    simp only
    rw [findAllFuel_enough t.length rest.length rest (by omega) (le_refl _)]

/-- The one-pass substitution does not depend on the fuel once it covers the string. -/
theorem substituteOnceFuel_enough (value : GoString → Option GoString) :
    ∀ (f1 f2 : Nat) (s : GoString), s.length ≤ f1 → s.length ≤ f2 →
      substituteOnceFuel value f1 s = substituteOnceFuel value f2 s := by
  intro f1
  induction f1 with
  | zero =>
    intro f2 s h1 _
    have : s = [] := List.length_eq_zero.mp (Nat.le_zero.mp h1)
    subst this
    cases f2 <;> rfl
  | succ k ih =>
    intro f2 s h1 h2
    cases s with
    | nil => cases f2 <;> rfl
    | cons c t =>
      cases f2 with
      | zero => simp at h2
      | succ m =>
        simp only [List.length_cons] at h1 h2
        rw [substituteOnceFuel, substituteOnceFuel]
        cases hm : matchAt (c :: t) with
        | none => simp only; rw [ih m t (by omega) (by omega)]
        | some p =>
          obtain ⟨g, rest⟩ := p
          have hl := matchAt_rest_length hm
          simp only [List.length_cons] at hl
          simp only
          rw [ih m rest (by omega) (by omega)]

/-- The one-pass substitution, one scan step at a time. -/
theorem substituteOnce_cons (value : GoString → Option GoString) (c : Nat) (t : GoString) :
    substituteOnce value (c :: t) =
      match matchAt (c :: t) with
      | some (g, rest) =>
        (match value g with
          | some v => v
          | none => tokenText g) ++ substituteOnce value rest
      | none => c :: substituteOnce value t := by
  unfold substituteOnce
  rw [List.length_cons, substituteOnceFuel]
  cases hm : matchAt (c :: t) with
  | none => rfl
  | some p =>
    obtain ⟨g, rest⟩ := p
    have hl := matchAt_rest_length hm
    simp only [List.length_cons] at hl
    simp only
    rw [substituteOnceFuel_enough value t.length rest.length rest (by omega) (le_refl _)]

/-! ## ReplaceAll on a string of pieces -/

theorem startsWith_iff (s old : GoString) : startsWith s old = true ↔ ∃ r, s = old ++ r := by
  induction old generalizing s with
  | nil => cases s <;> simp [startsWith]
  | cons d old ih =>
    cases s with
    | nil => simp [startsWith]
    | cons c s =>
      simp only [startsWith, Bool.and_eq_true, decide_eq_true_eq, ih, List.cons_append,
        List.cons.injEq]
      constructor
      · rintro ⟨hc, r, hr⟩
        exact ⟨r, hc, hr⟩
      · rintro ⟨r, hc, hr⟩
        exact ⟨hc, r, hr⟩

theorem startsWith_ne_head (c d : Nat) (t old : GoString) (h : c ≠ d) :
    startsWith (c :: t) (d :: old) = false := by
  simp [startsWith, h]

/-- Two runs that avoid the byte b and are each followed by b are equal as soon as one
of the two strings starts with the other run and its b. -/
theorem run_eq_of_append (b : Nat) :
    ∀ (g g0 r r0 : GoString), b ∉ g → b ∉ g0 → g ++ b :: r = g0 ++ b :: r0 → g = g0 := by
  intro g
  induction g with
  | nil =>
    intro g0 r r0 _ h0 h
    cases g0 with
    | nil => rfl
    | cons x xs =>
      simp only [List.nil_append, List.cons_append, List.cons.injEq] at h
      exact absurd (h.1 ▸ List.mem_cons_self _ _) h0
  | cons y ys ih =>
    intro g0 r r0 hg h0 h
    cases g0 with
    | nil =>
      simp only [List.nil_append, List.cons_append, List.cons.injEq] at h
      exact absurd (h.1 ▸ List.mem_cons_self _ _) hg
    | cons x xs =>
      simp only [List.cons_append, List.cons.injEq] at h
      have hys : b ∉ ys := fun hm => hg (List.mem_cons_of_mem _ hm)
      have hxs : b ∉ xs := fun hm => h0 (List.mem_cons_of_mem _ hm)
      rw [h.1, ih xs r r0 hys hxs h.2]

theorem not_mem_of_class (g : GoString) (b : Nat) (hb : fmtClass b = false)
    (hcl : ∀ c ∈ g, fmtClass c = true) : b ∉ g := by
  intro hm
  have := hcl b hm
  rw [hb] at this
  exact absurd this (by simp)

/-- The text of one token does not start the text of a different token. -/
theorem startsWith_token_ne (g g0 r : GoString) (hg : ∀ c ∈ g, fmtClass c = true)
    (hg0 : ∀ c ∈ g0, fmtClass c = true) (hne : g ≠ g0) :
    startsWith (tokenText g ++ r) (tokenText g0) = false := by
  cases hs : startsWith (tokenText g ++ r) (tokenText g0) with
  | false => rfl
  | true =>
    obtain ⟨r0, hr0⟩ := (startsWith_iff _ _).mp hs
    rw [tokenText_append, tokenText_append] at hr0
    simp only [List.cons.injEq, true_and] at hr0
    have h125 : fmtClass 125 = false := by decide
    exact absurd (run_eq_of_append 125 g g0 r r0 (not_mem_of_class g 125 h125 hg)
      (not_mem_of_class g0 125 h125 hg0) hr0) hne

/-- The scan of ReplaceAll does not depend on the fuel once it covers the string. -/
theorem replaceAllFuel_enough (old new : GoString) (hold : old ≠ []) :
    ∀ (f1 f2 : Nat) (s : GoString), s.length ≤ f1 → s.length ≤ f2 →
      replaceAllFuel old new f1 s = replaceAllFuel old new f2 s := by
  have hpos : 1 ≤ old.length := List.length_pos.mpr hold
  intro f1
  induction f1 with
  | zero =>
    intro f2 s h1 _
    have : s = [] := List.length_eq_zero.mp (Nat.le_zero.mp h1)
    subst this
    cases f2 <;> rfl
  | succ k ih =>
    intro f2 s h1 h2
    cases s with
    | nil => cases f2 <;> rfl
    | cons c t =>
      cases f2 with
      | zero => simp at h2
      | succ m =>
        simp only [List.length_cons] at h1 h2
        have hd : ((c :: t).drop old.length).length ≤ t.length := by
          rw [List.length_drop, List.length_cons]; omega
        rw [replaceAllFuel, replaceAllFuel]
        by_cases hs : startsWith (c :: t) old = true
        · rw [if_pos hs, if_pos hs, ih m _ (by omega) (by omega)]
        · rw [if_neg hs, if_neg hs, ih m t (by omega) (by omega)]

/-- The scan of strings.Replace does not depend on the fuel once it covers the string. -/
theorem replaceNFuel_enough (old new : GoString) (hold : old ≠ []) :
    ∀ (f1 f2 : Nat) (n : Int) (s : GoString), s.length ≤ f1 → s.length ≤ f2 →
      replaceNFuel old new f1 n s = replaceNFuel old new f2 n s := by
  have hpos : 1 ≤ old.length := List.length_pos.mpr hold
  intro f1
  induction f1 with
  | zero =>
    intro f2 n s h1 _
    have : s = [] := List.length_eq_zero.mp (Nat.le_zero.mp h1)
    subst this
    cases f2 <;> rfl
  | succ k ih =>
    intro f2 n s h1 h2
    cases s with
    | nil => cases f2 <;> rfl
    | cons c t =>
      cases f2 with
      | zero => simp at h2
      | succ m =>
        simp only [List.length_cons] at h1 h2
        have hd : ((c :: t).drop old.length).length ≤ t.length := by
          rw [List.length_drop, List.length_cons]; omega
        rw [replaceNFuel, replaceNFuel]
        by_cases hn : n = 0
        · rw [if_pos hn, if_pos hn]
        · rw [if_neg hn, if_neg hn]
          by_cases hs : startsWith (c :: t) old = true
          · rw [if_pos hs, if_pos hs, ih m _ _ (by omega) (by omega)]
          · rw [if_neg hs, if_neg hs, ih m _ t (by omega) (by omega)]

theorem replaceAll_nil (old new : GoString) : replaceAll [] old new = [] := rfl

/-- ReplaceAll, one scan step at a time. -/
theorem replaceAll_cons (c : Nat) (t old new : GoString) (hold : old ≠ []) :
    replaceAll (c :: t) old new =
      if startsWith (c :: t) old then new ++ replaceAll ((c :: t).drop old.length) old new
      else c :: replaceAll t old new := by
  have hpos : 1 ≤ old.length := List.length_pos.mpr hold
  have hd : ((c :: t).drop old.length).length ≤ t.length := by
    rw [List.length_drop, List.length_cons]; omega
  unfold replaceAll
  rw [List.length_cons, replaceAllFuel]
  by_cases hs : startsWith (c :: t) old = true
  · rw [if_pos hs, if_pos hs,
      replaceAllFuel_enough old new hold t.length _ _ hd (le_refl _)]
  · rw [if_neg hs, if_neg hs]

theorem inertLit_tail (c : Nat) (w : GoString) (h : inertLit (c :: w) = true) :
    inertLit w = true := by
  rw [inertLit, Bool.and_eq_true] at h
  exact h.2

theorem inertLit_head (c : Nat) (w : GoString) (h : inertLit (c :: w) = true) :
    c ≠ 36 ∨ nextNotBrace w = true := by
  rw [inertLit, Bool.and_eq_true, Bool.or_eq_true, decide_eq_true_eq] at h
  exact h.1

theorem nextNotBrace_append (w r : GoString) (h : nextNotBrace w = true) :
    nextNotBrace (w ++ r) = true := by
  cases w with
  | nil => simp [nextNotBrace] at h
  | cons d t => exact h

/-- A byte that is no dollar sign, or a dollar sign before a byte other than an opening
brace, does not start the text of a token. -/
theorem startsWith_inert (c : Nat) (t o : GoString) (h : c ≠ 36 ∨ nextNotBrace t = true) :
    startsWith (c :: t) (36 :: 123 :: o) = false := by
  rcases h with h | h
  · exact startsWith_ne_head c 36 _ _ h
  · cases t with
    | nil => simp [nextNotBrace] at h
    | cons d t =>
      have hd : d ≠ 123 := by simpa [nextNotBrace] using h
      simp [startsWith, hd]

/-- Such a byte begins no match of fmtRegex. -/
theorem matchAt_inert (c : Nat) (t : GoString) (h : c ≠ 36 ∨ nextNotBrace t = true) :
    matchAt (c :: t) = none := by
  rcases h with h | h
  · exact matchAt_ne_dollar c t h
  · cases t with
    | nil => simp [nextNotBrace] at h
    | cons d t =>
      have hd : d ≠ 123 := by simpa [nextNotBrace] using h
      simp [matchAt, hd]

/-- ReplaceAll of the text of a token copies a literal whose dollar signs are inert. -/
theorem replaceAll_lit (o new : GoString) :
    ∀ (w r : GoString), inertLit w = true →
      replaceAll (w ++ r) (36 :: 123 :: o) new = w ++ replaceAll r (36 :: 123 :: o) new := by
  intro w
  induction w with
  | nil => intro r _; rfl
  | cons c w ih =>
    intro r hw
    have hh : c ≠ 36 ∨ nextNotBrace (w ++ r) = true :=
      (inertLit_head c w hw).imp id (nextNotBrace_append w r)
    rw [List.cons_append, replaceAll_cons c (w ++ r) (36 :: 123 :: o) new (by simp),
      startsWith_inert c _ o hh]
    simp only [Bool.false_eq_true, if_false]
    rw [ih r (inertLit_tail c w hw)]
    rfl

theorem tokenText_tail_inert (g : GoString) (hcl : ∀ c ∈ g, fmtClass c = true) :
    inertLit (123 :: (g ++ [125])) = true := by
  have h36 : fmtClass 36 = false := by decide
  have hg := not_mem_of_class g 36 h36 hcl
  have hall : ∀ (w : GoString), 36 ∉ w → inertLit w = true := by
    intro w
    induction w with
    | nil => intro _; rfl
    | cons c w ih =>
      intro hw
      have hc : c ≠ 36 := fun h => hw (h ▸ List.mem_cons_self _ _)
      rw [inertLit, ih (fun hm => hw (List.mem_cons_of_mem _ hm))]
      simp [hc]
  apply hall
  simp [hg]

/-- ReplaceAll of the token g0 on a string of well-formed pieces, whatever follows them,
replaces exactly the pieces that are the token g0. -/
theorem replaceAll_segs (g0 v r : GoString) (hcl0 : ∀ c ∈ g0, fmtClass c = true) :
    ∀ (segs : List Seg), (∀ x ∈ segs, x.WF) →
      replaceAll (renderSegs segs ++ r) (tokenText g0) v
        = renderSegs (segs.map (Seg.swap g0 v)) ++ replaceAll r (tokenText g0) v := by
  intro segs
  induction segs with
  | nil => intro _; rfl
  | cons x rest ih =>
    intro hwf
    have hx := hwf x (List.mem_cons_self _ _)
    have ihr := ih (fun y hy => hwf y (List.mem_cons_of_mem _ hy))
    cases x with
    | lit w =>
      simp only [renderSegs, List.map_cons, Seg.render, Seg.swap, List.append_assoc]
      have hw : inertLit w = true := hx
      have := replaceAll_lit (g0 ++ [125]) v w (renderSegs rest ++ r) hw
      rw [show tokenText g0 = 36 :: 123 :: (g0 ++ [125]) from rfl, this]
      rw [show (36 :: 123 :: (g0 ++ [125])) = tokenText g0 from rfl, ihr]
    | tok g =>
      obtain ⟨_, hcl⟩ : g ≠ [] ∧ ∀ c ∈ g, fmtClass c = true := hx
      simp only [renderSegs, List.map_cons, Seg.render, Seg.swap, List.append_assoc]
      by_cases hg : g = g0
      · subst hg
        simp only [if_true, Seg.render]
        have hs : startsWith (tokenText g ++ (renderSegs rest ++ r)) (tokenText g) = true :=
          (startsWith_iff _ _).mpr ⟨_, rfl⟩
        have hcons : tokenText g ++ (renderSegs rest ++ r)
            = 36 :: (123 :: (g ++ 125 :: (renderSegs rest ++ r))) := tokenText_append _ _
        have hdrop : (tokenText g ++ (renderSegs rest ++ r)).drop (tokenText g).length
            = renderSegs rest ++ r := List.drop_left _ _
        rw [hcons] at hs hdrop
        rw [hcons, replaceAll_cons _ _ _ _ (by simp [tokenText]), if_pos hs, hdrop, ihr]
      · simp only [hg, if_false, Seg.render]
        have hs := startsWith_token_ne g g0 (renderSegs rest ++ r) hcl hcl0 hg
        have hcons : tokenText g ++ (renderSegs rest ++ r)
            = 36 :: ((123 :: (g ++ [125])) ++ (renderSegs rest ++ r)) := by simp [tokenText]
        rw [hcons] at hs
        rw [hcons, replaceAll_cons _ _ _ _ (by simp [tokenText]), hs]
        simp only [Bool.false_eq_true, if_false]
        have := replaceAll_lit (g0 ++ [125]) v (123 :: (g ++ [125])) (renderSegs rest ++ r)
          (tokenText_tail_inert g hcl)
        rw [show tokenText g0 = 36 :: 123 :: (g0 ++ [125]) from rfl, this]
        rw [show (36 :: 123 :: (g0 ++ [125])) = tokenText g0 from rfl, ihr]
        simp [tokenText]

/-! ## The token scan and the one-pass substitution on a string of pieces -/

theorem findAll_lit : ∀ (w r : GoString), inertLit w = true → findAll (w ++ r) = findAll r := by
  intro w
  induction w with
  | nil => intro r _; rfl
  | cons c w ih =>
    intro r hw
    have hh : c ≠ 36 ∨ nextNotBrace (w ++ r) = true :=
      (inertLit_head c w hw).imp id (nextNotBrace_append w r)
    rw [List.cons_append, findAll_cons, matchAt_inert c _ hh]
    exact ih r (inertLit_tail c w hw)

/-- FindAll on a string of well-formed pieces returns its tokens, in order, and then
those of what follows the pieces. -/
theorem findAll_segs (r : GoString) : ∀ (segs : List Seg), (∀ x ∈ segs, x.WF) →
    findAll (renderSegs segs ++ r)
      = (segTokens segs).map (fun g => (tokenText g, g)) ++ findAll r := by
  intro segs
  induction segs with
  | nil => intro _; rfl
  | cons x rest ih =>
    intro hwf
    have hx := hwf x (List.mem_cons_self _ _)
    have ihr := ih (fun y hy => hwf y (List.mem_cons_of_mem _ hy))
    cases x with
    | lit w =>
      have hw : inertLit w = true := hx
      simp only [renderSegs, Seg.render, segTokens, List.append_assoc]
      rw [findAll_lit w _ hw, ihr]
    | tok g =>
      obtain ⟨hne, hcl⟩ : g ≠ [] ∧ ∀ c ∈ g, fmtClass c = true := hx
      simp only [renderSegs, Seg.render, segTokens, List.map_cons, List.append_assoc,
        List.cons_append]
      have hm := matchAt_token g (renderSegs rest ++ r) hne hcl
      rw [tokenText_append] at hm
      rw [tokenText_append, findAll_cons, hm]
      simp only
      rw [ihr]

theorem substituteOnce_lit (value : GoString → Option GoString) :
    ∀ (w r : GoString), inertLit w = true →
      substituteOnce value (w ++ r) = w ++ substituteOnce value r := by
  intro w
  induction w with
  | nil => intro r _; rfl
  | cons c w ih =>
    intro r hw
    have hh : c ≠ 36 ∨ nextNotBrace (w ++ r) = true :=
      (inertLit_head c w hw).imp id (nextNotBrace_append w r)
    rw [List.cons_append, substituteOnce_cons, matchAt_inert c _ hh]
    simp only
    rw [ih r (inertLit_tail c w hw)]
    rfl

/-- The one-pass substitution on a string of well-formed pieces replaces each token that
has a value, and goes on with what follows the pieces. -/
theorem substituteOnce_segs (value : GoString → Option GoString) (gs : List GoString)
    (r : GoString) :
    ∀ (segs : List Seg), (∀ x ∈ segs, x.WF) → (∀ g ∈ segTokens segs, g ∈ gs) →
      substituteOnce value (renderSegs segs ++ r)
        = renderSegs (segs.map (Seg.subst value gs)) ++ substituteOnce value r := by
  intro segs
  induction segs with
  | nil => intro _ _; rfl
  | cons x rest ih =>
    intro hwf hin
    have hx := hwf x (List.mem_cons_self _ _)
    cases x with
    | lit w =>
      have hw : inertLit w = true := hx
      have ihr := ih (fun y hy => hwf y (List.mem_cons_of_mem _ hy)) hin
      simp only [renderSegs, Seg.render, List.map_cons, Seg.subst, List.append_assoc]
      rw [substituteOnce_lit value w _ hw, ihr]
    | tok g =>
      obtain ⟨hne, hcl⟩ : g ≠ [] ∧ ∀ c ∈ g, fmtClass c = true := hx
      have hg : g ∈ gs := hin g (List.mem_cons_self _ _)
      have ihr := ih (fun y hy => hwf y (List.mem_cons_of_mem _ hy))
        (fun h hh => hin h (List.mem_cons_of_mem _ hh))
      simp only [renderSegs, Seg.render, List.map_cons, Seg.subst, hg, if_true,
        List.append_assoc]
      have hm := matchAt_token g (renderSegs rest ++ r) hne hcl
      rw [tokenText_append] at hm
      rw [tokenText_append, substituteOnce_cons, hm]
      simp only
      rw [ihr]
      cases value g <;> simp [Seg.render, tokenText]

/-! ## A run of dollar signs at the end of the template -/

theorem matchAt_dollars (k : Nat) : matchAt (36 :: List.replicate k 36) = none := by
  cases k with
  | zero => simp [matchAt]
  | succ k => simp [List.replicate_succ, matchAt]

theorem findAll_dollars : ∀ (k : Nat), findAll (List.replicate k 36) = [] := by
  intro k
  induction k with
  | zero => rfl
  | succ k ih =>
    rw [List.replicate_succ, findAll_cons, matchAt_dollars]
    exact ih

theorem substituteOnce_dollars (value : GoString → Option GoString) :
    ∀ (k : Nat), substituteOnce value (List.replicate k 36) = List.replicate k 36 := by
  intro k
  induction k with
  | zero => rfl
  | succ k ih =>
    rw [List.replicate_succ, substituteOnce_cons, matchAt_dollars]
    simp only
    rw [ih]

theorem replaceAll_dollars (o new : GoString) :
    ∀ (k : Nat), replaceAll (List.replicate k 36) (36 :: 123 :: o) new
      = List.replicate k 36 := by
  intro k
  induction k with
  | zero => rfl
  | succ k ih =>
    have hs : startsWith (36 :: List.replicate k 36) (36 :: 123 :: o) = false := by
      cases k with
      | zero => simp [startsWith]
      | succ k => simp [List.replicate_succ, startsWith]
    rw [List.replicate_succ, replaceAll_cons _ _ _ _ (by simp), hs]
    simp only [Bool.false_eq_true, if_false]
    rw [ih]

/-! ## A template with inert dollar signs is a string of pieces -/

theorem dollarsInert_append :
    ∀ (a b : GoString), dollarsInert (a ++ b) = true → dollarsInert b = true := by
  intro a
  induction a with
  | nil => intro b h; exact h
  | cons c a ih =>
    intro b h
    rw [List.cons_append, dollarsInert, Bool.and_eq_true] at h
    exact ih b h.2

/-- A template in which every dollar sign begins a token or is inert is a string of
well-formed pieces followed by a run of dollar signs. -/
theorem exists_segs_of_dollars :
    ∀ (n : Nat) (s : GoString), s.length ≤ n → dollarsInert s = true →
      ∃ (segs : List Seg) (k : Nat), (∀ x ∈ segs, x.WF ∧ x.render ≠ []) ∧
        renderSegs segs ++ List.replicate k 36 = s := by
  intro n
  induction n with
  | zero =>
    intro s h _
    have : s = [] := List.length_eq_zero.mp (Nat.le_zero.mp h)
    exact ⟨[], 0, by simp, by rw [this]; rfl⟩
  | succ m ih =>
    intro s hlen hd
    cases s with
    | nil => exact ⟨[], 0, by simp, rfl⟩
    | cons c t =>
      simp only [List.length_cons] at hlen
      cases hm : matchAt (c :: t) with
      | some p =>
        obtain ⟨g, rest⟩ := p
        obtain ⟨hs, hne, hcl⟩ := matchAt_sound hm
        have hl := matchAt_rest_length hm
        simp only [List.length_cons] at hl
        have hdr : dollarsInert rest = true := by
          rw [hs] at hd
          exact dollarsInert_append _ _ hd
        obtain ⟨segs, k, hwf, hr⟩ := ih rest (by omega) hdr
        refine ⟨Seg.tok g :: segs, k, ?_, ?_⟩
        · intro x hx
          rcases List.mem_cons.mp hx with rfl | hx
          · exact ⟨⟨hne, hcl⟩, by simp [Seg.render, tokenText]⟩
          · exact hwf x hx
        · rw [renderSegs, List.append_assoc, hr, hs]; rfl
      | none =>
        rw [dollarsInert, hm, Bool.and_eq_true] at hd
        obtain ⟨segs, k, hwf, hr⟩ := ih t (by omega) hd.2
        by_cases hc : c = 36
        · have hnext : inertNext t = true := by simpa [hc] using hd.1
          cases segs with
          | nil =>
            refine ⟨[], k + 1, by simp, ?_⟩
            rw [List.replicate_succ, hc]
            simp only [renderSegs, List.nil_append] at hr ⊢
            rw [hr]
          | cons x rest =>
            have hx := hwf x (List.mem_cons_self _ _)
            have hrest : ∀ y ∈ rest, y.WF ∧ y.render ≠ [] :=
              fun y hy => hwf y (List.mem_cons_of_mem _ hy)
            cases x with
            | tok g =>
              obtain ⟨⟨hne, hcl⟩, _⟩ := hx
              have hmt := matchAt_token g (renderSegs rest ++ List.replicate k 36) hne hcl
              rw [renderSegs, List.append_assoc] at hr
              simp only [Seg.render] at hr
              rw [hr] at hmt
              cases t with
              | nil => simp [matchAt] at hmt
              | cons d t1 =>
                rw [inertNext, Bool.and_eq_true, hmt] at hnext
                exact absurd hnext.2 (by simp)
            | lit w =>
              obtain ⟨hw, hwne⟩ := hx
              have hw1 : inertLit w = true := hw
              simp only [Seg.render] at hwne
              cases w with
              | nil => exact absurd rfl hwne
              | cons d w1 =>
                rw [renderSegs, List.append_assoc] at hr
                simp only [Seg.render, List.cons_append] at hr
                have hd123 : d ≠ 123 := by
                  rw [← hr, inertNext, Bool.and_eq_true, decide_eq_true_eq] at hnext
                  exact hnext.1
                refine ⟨Seg.lit (36 :: d :: w1) :: rest, k, ?_, ?_⟩
                · intro y hy
                  rcases List.mem_cons.mp hy with rfl | hy
                  · refine ⟨?_, by simp [Seg.render]⟩
                    show inertLit (36 :: d :: w1) = true
                    rw [inertLit, hw1]
                    simp [nextNotBrace, hd123]
                  · exact hrest y hy
                · rw [renderSegs, List.append_assoc]
                  simp only [Seg.render, List.cons_append]
                  rw [hr, hc]
        · refine ⟨Seg.lit [c] :: segs, k, ?_, ?_⟩
          · intro x hx
            rcases List.mem_cons.mp hx with rfl | hx
            · refine ⟨?_, by simp [Seg.render]⟩
              show inertLit [c] = true
              simp [inertLit, hc]
            · exact hwf x hx
          · rw [renderSegs, List.append_assoc, hr]; rfl

/-! ## formatString as a one-pass substitution -/

theorem swap_WF (g0 v : GoString) (hv : inertLit v = true) (x : Seg) (hx : x.WF) :
    (Seg.swap g0 v x).WF := by
  cases x with
  | lit w => exact hx
  | tok g =>
    simp only [Seg.swap]
    by_cases hg : g = g0
    · rw [if_pos hg]; exact hv
    · rw [if_neg hg]; exact hx

theorem subst_swap (value : GoString → Option GoString) (gs : List GoString) (g0 v : GoString)
    (hval : value g0 = some v) (x : Seg) :
    Seg.subst value gs (Seg.swap g0 v x) = Seg.subst value (g0 :: gs) x := by
  cases x with
  | lit w => rfl
  | tok g =>
    by_cases hg : g = g0
    · subst hg
      simp [Seg.swap, Seg.subst, hval]
    · simp [Seg.swap, Seg.subst, hg]

theorem subst_skip (value : GoString → Option GoString) (gs : List GoString) (g0 : GoString)
    (hval : value g0 = none) (x : Seg) :
    Seg.subst value gs x = Seg.subst value (g0 :: gs) x := by
  cases x with
  | lit w => rfl
  | tok g =>
    by_cases hg : g = g0
    · subst hg
      by_cases hm : g ∈ gs <;> simp [Seg.subst, hval, hm]
    · simp [Seg.subst, hg]

/-- One round of the pieces loop, in terms of tokenValue. -/
theorem formatPiecesLoop_cons (lib : StringsLib) (dictionary : GoMap GoString GoString)
    (g : GoString) (rest : List (GoString × GoString)) (s : GoString) :
    formatPiecesLoop lib dictionary ((tokenText g, g) :: rest) s =
      match tokenValue lib dictionary g with
      | none => formatPiecesLoop lib dictionary rest s
      | some (.ok v) => formatPiecesLoop lib dictionary rest (replaceAll s (tokenText g) v)
      | some (.error e) => .error e
      | some .panic => .panic := by
  rw [formatPiecesLoop]
  unfold tokenValue
  simp only
  cases mapGet dictionary ((splitByte 58 g).headD []) with
  | none => rfl
  | some value =>
    simp only
    by_cases hl : (splitByte 58 g).tail.length = 0
    · rw [if_pos hl, if_pos hl]
    · rw [if_neg hl, if_neg hl]
      cases formatWithFormatters lib value (splitByte 58 g).tail <;> rfl

/-- The pieces loop over the tokens gs, run on a string of well-formed pieces followed by
a run of dollar signs, replaces each piece that is a listed token with a value, as long
as the dollar signs of the values are inert. -/
theorem formatPiecesLoop_segs (lib : StringsLib) (dictionary : GoMap GoString GoString)
    (k : Nat) :
    ∀ (gs : List GoString) (segs : List Seg) (out : GoString),
      (∀ x ∈ segs, x.WF) →
      (∀ g ∈ gs, ∀ c ∈ g, fmtClass c = true) →
      (∀ g ∈ gs, inertLit ((formattedValue lib dictionary g).getD []) = true) →
      formatPiecesLoop lib dictionary (gs.map (fun g => (tokenText g, g)))
          (renderSegs segs ++ List.replicate k 36) = .ok out →
      out = renderSegs (segs.map (Seg.subst (formattedValue lib dictionary) gs))
        ++ List.replicate k 36 := by
  intro gs
  induction gs with
  | nil =>
    intro segs out _ _ _ h
    simp only [List.map_nil, formatPiecesLoop, Outcome.ok.injEq] at h
    have hid : segs.map (Seg.subst (formattedValue lib dictionary) []) = segs := by
      have : ∀ x : Seg, Seg.subst (formattedValue lib dictionary) [] x = x := by
        intro x; cases x <;> simp [Seg.subst]
      rw [show Seg.subst (formattedValue lib dictionary) [] = id from funext this, List.map_id]
    rw [hid, h]
  | cons g gs ih =>
    intro segs out hwf hcl hv h
    have hclg := hcl g (List.mem_cons_self _ _)
    have hcl1 : ∀ g1 ∈ gs, ∀ c ∈ g1, fmtClass c = true :=
      fun g1 h1 => hcl g1 (List.mem_cons_of_mem _ h1)
    have hv1 : ∀ g1 ∈ gs, inertLit ((formattedValue lib dictionary g1).getD []) = true :=
      fun g1 h1 => hv g1 (List.mem_cons_of_mem _ h1)
    have hvg := hv g (List.mem_cons_self _ _)
    rw [List.map_cons, formatPiecesLoop_cons] at h
    cases htv : tokenValue lib dictionary g with
    | none =>
      rw [htv] at h
      have hval : formattedValue lib dictionary g = none := by simp [formattedValue, htv]
      have := ih segs out hwf hcl1 hv1 h
      rw [this]
      congr 2
      exact List.map_congr_left (fun x _ => subst_skip _ gs g hval x)
    | some o =>
      rw [htv] at h
      cases o with
      | error e => exact absurd h (by simp)
      | panic => exact absurd h (by simp)
      | ok v =>
        simp only at h
        have hval : formattedValue lib dictionary g = some v := by simp [formattedValue, htv]
        have hvi : inertLit v = true := by simpa [hval] using hvg
        have hrd : replaceAll (List.replicate k 36) (tokenText g) v = List.replicate k 36 :=
          replaceAll_dollars (g ++ [125]) v k
        rw [replaceAll_segs g v _ hclg segs hwf, hrd] at h
        have hwf1 : ∀ x ∈ segs.map (Seg.swap g v), x.WF := by
          intro x hx
          obtain ⟨y, hy, rfl⟩ := List.mem_map.mp hx
          exact swap_WF g v hvi y (hwf y hy)
        have := ih (segs.map (Seg.swap g v)) out hwf1 hcl1 hv1 h
        rw [this, List.map_map]
        congr 2
        exact List.map_congr_left (fun x _ => subst_swap _ gs g v hval x)

theorem segTokens_class : ∀ (segs : List Seg), (∀ x ∈ segs, x.WF) →
    ∀ g ∈ segTokens segs, ∀ c ∈ g, fmtClass c = true := by
  intro segs
  induction segs with
  | nil => intro _ g hg; simp [segTokens] at hg
  | cons x rest ih =>
    intro hwf g hg
    have ihr := ih (fun y hy => hwf y (List.mem_cons_of_mem _ hy))
    cases x with
    | lit w => exact ihr g hg
    | tok g1 =>
      simp only [segTokens, List.mem_cons] at hg
      rcases hg with rfl | hg
      · exact (hwf (Seg.tok g) (List.mem_cons_self _ _)).2
      · exact ihr g hg

/-- C2, as amended. For every template in which each dollar sign that begins no token is
the last byte or is followed by a byte that is not an opening brace and begins no token,
and every dictionary on which formatString succeeds with formatted values in which each
dollar sign is followed by a byte other than an opening brace, the output is the template
with every token whose identifier is in the dictionary replaced by its formatted value
and every other byte (tokens with absent identifiers included) left as it was, the
inserted values not being substituted again. -/
theorem formatString_substitutes_once (lib : StringsLib) (s : GoString)
    (dictionary : GoMap GoString GoString) (out : GoString)
    (hd : dollarsInert s = true)
    (hv : ∀ p ∈ findAll s, inertLit ((formattedValue lib dictionary p.2).getD []) = true)
    (hok : formatString lib s dictionary = .ok out) :
    out = substituteOnce (formattedValue lib dictionary) s := by
  obtain ⟨segs, k, hwf0, hr⟩ := exists_segs_of_dollars s.length s (le_refl _) hd
  have hwf : ∀ x ∈ segs, x.WF := fun x hx => (hwf0 x hx).1
  have hfa := findAll_segs (List.replicate k 36) segs hwf
  rw [hr, findAll_dollars, List.append_nil] at hfa
  unfold formatString at hok
  rw [hfa, ← hr] at hok
  have hv1 : ∀ g ∈ segTokens segs,
      inertLit ((formattedValue lib dictionary g).getD []) = true := by
    intro g hg
    have : (tokenText g, g) ∈ findAll s := by
      rw [hfa]; exact List.mem_map.mpr ⟨g, hg, rfl⟩
    exact hv _ this
  have h1 := formatPiecesLoop_segs lib dictionary k (segTokens segs) segs out hwf
    (segTokens_class segs hwf) hv1 hok
  rw [h1, ← hr, substituteOnce_segs _ (segTokens segs) _ segs hwf (fun g hg => hg),
    substituteOnce_dollars]

/-- Witness of C2 as amended: the two-variable case of TestFormatting with an absent
token, a formatter chain, a back-reference, a price and an end-of-line anchor added. -/
theorem formatString_substitutes_once_witness :
    str "$1-value1 costs $5, " ++ tokenText (str "var3") ++ str ", VALUE2$"
      = substituteOnce (formattedValue asciiLib testDictionary)
          (str "$1-" ++ tokenText (str "var1") ++ str " costs $5, " ++ tokenText (str "var3")
            ++ str ", " ++ tokenText (str "var2:upper") ++ str "$") :=
  formatString_substitutes_once asciiLib _ testDictionary _ (by decide) (by decide) (by decide)

/-- The conditions of C2 as amended cannot be dropped. A dollar sign that begins no token
and stands before a token, or before an opening brace, can be completed to a token by an
inserted value: "$${x}${b}" with x = "{b}", b = "X" comes out as "XX", and
"${a${x}} ${ab}" with x = "b", ab = "Z" comes out as "Z Z". A value that ends in a dollar
sign does the same: "${x}{b} ${b}" with x = "$", b = "X" comes out as "X X". -/
theorem formatString_completes_tokens :
    formatString asciiLib (36 :: (tokenText (str "x") ++ tokenText (str "b")))
        [(str "x", 123 :: (str "b" ++ [125])), (str "b", str "X")] = .ok (str "XX") ∧
    substituteOnce (formattedValue asciiLib
        [(str "x", 123 :: (str "b" ++ [125])), (str "b", str "X")])
        (36 :: (tokenText (str "x") ++ tokenText (str "b"))) = tokenText (str "b") ++ str "X" ∧
    formatString asciiLib
        (36 :: 123 :: 97 :: (tokenText (str "x") ++ 125 :: 32 :: tokenText (str "ab")))
        [(str "x", str "b"), (str "ab", str "Z")] = .ok (str "Z Z") ∧
    substituteOnce (formattedValue asciiLib [(str "x", str "b"), (str "ab", str "Z")])
        (36 :: 123 :: 97 :: (tokenText (str "x") ++ 125 :: 32 :: tokenText (str "ab")))
      = tokenText (str "ab") ++ str " Z" ∧
    formatString asciiLib
        (tokenText (str "x") ++ 123 :: 98 :: 125 :: 32 :: tokenText (str "b"))
        [(str "x", [36]), (str "b", str "X")] = .ok (str "X X") ∧
    substituteOnce (formattedValue asciiLib [(str "x", [36]), (str "b", str "X")])
        (tokenText (str "x") ++ 123 :: 98 :: 125 :: 32 :: tokenText (str "b"))
      = tokenText (str "b") ++ str " X" := by decide

/-- C2 as stated fails: with a = "${b}" and b = "X" the template "${a}${b}" comes out as
"XX", because the text inserted for the first token is replaced again when the second
token is processed; the template with both tokens replaced once is "${b}X". -/
theorem formatString_resubstitutes :
    ¬ ∀ (s : GoString) (dictionary : GoMap GoString GoString) (out : GoString),
        formatString asciiLib s dictionary = .ok out →
        out = substituteOnce (formattedValue asciiLib dictionary) s := by
  intro h
  have h1 := h (tokenText (str "a") ++ tokenText (str "b"))
    [(str "a", tokenText (str "b")), (str "b", str "X")] (str "XX") (by decide)
  revert h1
  decide

/-! ## Go maps -/

theorem mapGet_mapSet_eq {κ ν : Type} [DecidableEq κ] (m : GoMap κ ν) (k : κ) (v : ν) :
    mapGet (mapSet m k v) k = some v := by
  induction m with
  | nil => simp [mapSet, mapGet]
  | cons p t ih =>
    obtain ⟨k1, v1⟩ := p
    by_cases h : k1 = k
    · simp [mapSet, mapGet, h]
    · simp [mapSet, mapGet, h, ih]

theorem mapGet_mapSet_ne {κ ν : Type} [DecidableEq κ] (m : GoMap κ ν) (k k2 : κ) (v : ν)
    (hne : k ≠ k2) : mapGet (mapSet m k v) k2 = mapGet m k2 := by
  induction m with
  | nil => simp [mapSet, mapGet, hne]
  | cons p t ih =>
    obtain ⟨k1, v1⟩ := p
    by_cases h : k1 = k
    · subst h
      simp [mapSet, mapGet, hne]
    · by_cases h2 : k1 = k2
      · subst h2
        simp [mapSet, mapGet, h]
      · simp [mapSet, mapGet, h, h2, ih]

theorem mapGet_mapDelete_eq {κ ν : Type} [DecidableEq κ] (m : GoMap κ ν) (k : κ) :
    mapGet (mapDelete m k) k = none := by
  induction m with
  | nil => rfl
  | cons p t ih =>
    obtain ⟨k1, v1⟩ := p
    by_cases h : k1 = k
    · simpa [mapDelete, List.filter_cons, h] using ih
    · simpa [mapDelete, List.filter_cons, h, mapGet] using ih

theorem mapGet_mapDelete_ne {κ ν : Type} [DecidableEq κ] (m : GoMap κ ν) (k k2 : κ)
    (hne : k ≠ k2) : mapGet (mapDelete m k) k2 = mapGet m k2 := by
  induction m with
  | nil => rfl
  | cons p t ih =>
    obtain ⟨k1, v1⟩ := p
    by_cases h : k1 = k
    · subst h
      simpa [mapDelete, List.filter_cons, mapGet, hne] using ih
    · by_cases h2 : k1 = k2
      · subst h2
        simp [mapDelete, List.filter_cons, h, mapGet]
      · simpa [mapDelete, List.filter_cons, h, mapGet, h2] using ih

/-! ## Response cache -/

theorem timeSince_gt_ttl_iff (now t : Int) : timeSince now t > cacheTtl ↔ now - t > cacheTtl := by
  unfold timeSince cacheTtl
  split_ifs <;> omega

/-- A store on another path leaves the binding of this path as it was. -/
theorem MbSaveToCache_other (w : WebsiteConfig) (c : StoreCall) (path : GoString)
    (hne : c.path ≠ path) :
    mapGet (w.MbSaveToCache c.now c.path c.content c.headers c.status).cache path
        = mapGet w.cache path ∧
    (w.MbSaveToCache c.now c.path c.content c.headers c.status).NoCache = w.NoCache := by
  unfold WebsiteConfig.MbSaveToCache
  split_ifs
  · exact ⟨rfl, rfl⟩
  · exact ⟨rfl, rfl⟩
  · exact ⟨mapGet_mapSet_ne _ _ _ _ hne, rfl⟩

theorem applyStores_other (path : GoString) :
    ∀ (calls : List StoreCall) (w : WebsiteConfig), (∀ c ∈ calls, c.path ≠ path) →
      mapGet (applyStores w calls).cache path = mapGet w.cache path ∧
      (applyStores w calls).NoCache = w.NoCache := by
  intro calls
  induction calls with
  | nil => intro w _; exact ⟨rfl, rfl⟩
  | cons c rest ih =>
    intro w h
    have hc := MbSaveToCache_other w c path (h c (List.mem_cons_self _ _))
    have hr := ih (w.MbSaveToCache c.now c.path c.content c.headers c.status)
      (fun d hd => h d (List.mem_cons_of_mem _ hd))
    simp only [applyStores, List.foldl_cons] at hr ⊢
    exact ⟨hr.1.trans hc.1, hr.2.trans hc.2⟩

/-- A probe of a path that is bound in the cache of a route that is not no-cache returns
the bound entry; it is a hit exactly when the entry is not older than the TTL. -/
theorem probe_of_get (w : WebsiteConfig) (now : Int) (path : GoString) (entry : PageCacheEntry)
    (hno : w.NoCache = false) (hget : mapGet w.cache path = some entry) :
    w.ProbeCache now path = (some entry, decide (¬ timeSince now entry.FetchedAt > cacheTtl)) := by
  unfold WebsiteConfig.ProbeCache
  rw [hno, hget]
  by_cases hgt : timeSince now entry.FetchedAt > cacheTtl <;> simp [hgt]

/-- C5. For every route that is not no-cache and every path not in its bypass list: after
MbSaveToCache(path, body, headers, status) at time t0 and any further stores on other
paths, ProbeCache(path) at time t1 reports a hit exactly when t1 - t0 does not exceed the
120-minute TTL, and on a hit it returns an entry with the stored body and status. -/
theorem store_then_probe (w : WebsiteConfig) (path content : GoString)
    (headers : GoMap GoString GoString) (status t0 t1 : Int) (others : List StoreCall)
    (hnc : w.NoCache = false) (hbp : path ∉ w.BypassCacheFor)
    (hothers : ∀ c ∈ others, c.path ≠ path) :
    (((applyStores (w.MbSaveToCache t0 path content headers status) others).ProbeCache
        t1 path).2 = true ↔ t1 - t0 ≤ cacheTtl) ∧
    (((applyStores (w.MbSaveToCache t0 path content headers status) others).ProbeCache
        t1 path).2 = true →
      ∃ entry, ((applyStores (w.MbSaveToCache t0 path content headers status) others).ProbeCache
        t1 path).1 = some entry ∧ entry.Content = content ∧ entry.Status = status ∧
        entry.Path = path ∧ entry.FetchedAt = t0) := by
  obtain ⟨hget, hno⟩ := applyStores_other path others
    (w.MbSaveToCache t0 path content headers status) hothers
  have hsave : (w.MbSaveToCache t0 path content headers status) =
      { w with cache := mapSet w.cache path ⟨path, t0, content, status,
          headersToCache headers cacheHeaders []⟩ } := by
    unfold WebsiteConfig.MbSaveToCache
    simp [hnc, hbp]
  have hget1 : mapGet (w.MbSaveToCache t0 path content headers status).cache path
      = some ⟨path, t0, content, status, headersToCache headers cacheHeaders []⟩ := by
    rw [hsave]; exact mapGet_mapSet_eq _ _ _
  have hno1 : (w.MbSaveToCache t0 path content headers status).NoCache = false := by
    rw [hsave]; exact hnc
  rw [hget1] at hget
  rw [hno1] at hno
  rw [probe_of_get _ t1 path _ hno hget]
  have hiff := timeSince_gt_ttl_iff t1 t0
  by_cases hgt : timeSince t1 t0 > cacheTtl
  · have : ¬ (t1 - t0 ≤ cacheTtl) := by have := hiff.mp hgt; omega
    simp [hgt, this]
  · have : t1 - t0 ≤ cacheTtl := by
      have h2 : ¬ (t1 - t0 > cacheTtl) := fun h => hgt (hiff.mpr h)
      omega
    simp [hgt, this]

/-- Witness of C5: a store at time 0, a store on another path, a probe one hour later. -/
theorem store_then_probe_witness :
    ((applyStores
        ((⟨str "origin", 0, 0, [], false, [], [], [], [str "/skip"], []⟩ :
          WebsiteConfig).MbSaveToCache 0 (str "/a") (str "body") [] 200)
        [⟨5, str "/b", str "other", [], 200⟩]).ProbeCache (60 * 60 * 1000000000) (str "/a")).2
      = true :=
  ((store_then_probe ⟨str "origin", 0, 0, [], false, [], [], [], [str "/skip"], []⟩
    (str "/a") (str "body") [] 200 0 (60 * 60 * 1000000000) [⟨5, str "/b", str "other", [], 200⟩]
    rfl (by decide) (by decide)).1).mpr (by decide)

/-! ## Load -/

/-- The load of the small site succeeds and publishes the route of front.test. -/
theorem load_site_ok :
    (Load siteEnv freshWorld 0).2 = .ok () ∧
    loadedWorld.websites = [(str "front.test", 0)] ∧
    (loadedWorld.routes[0]?).map (fun r => (r.TargetHost, r.Block, r.LoadedAt))
      = some (str "origin.test", [str "/admin"], 1000) := by decide

/-! ## HandleRequest at the small site -/

/-- C8, at the failing input. A GET of the blocked path /admin on the loaded small site,
cache empty, upstream answering 200 "secret": the handler writes the 403 and then goes on,
makes one upstream fetch, stores the response in the cache of the route and writes the
upstream body to the client after the body of the 403. -/
theorem blocked_path_is_served :
    (loadedWorld.routes[0]?).map (fun site => site.ShouldBlock (str "/admin")) = some true ∧
    (HandleRequest (siteServeEnv okUpstream) loadedWorld (getRequest (str "/admin"))).w.status
      = some 403 ∧
    (HandleRequest (siteServeEnv okUpstream) loadedWorld (getRequest (str "/admin"))).fetches = 1 ∧
    (HandleRequest (siteServeEnv okUpstream) loadedWorld (getRequest (str "/admin"))).w.body
      = [10] ++ str "secret" ∧
    ((HandleRequest (siteServeEnv okUpstream) loadedWorld
        (getRequest (str "/admin"))).world.routes[0]?).map
      (fun site => (mapGet site.cache (str "/admin")).map (fun e => (e.Content, e.Status)))
      = some (some (str "secret", 200)) := by decide

/-- C7, at the failing input. The config.json of the small site sets the deactivation
flag; after the successful load the Deactivated field of the bundle is false, and a GET on
its host front.test is proxied (one upstream fetch, status 200) instead of being answered
with the 302 redirect. -/
theorem deactivated_flag_is_dropped :
    (siteDisk (str "configs_v2/site/config.json")).map
      (fun f => f.asBase.map (fun j => j.Deactivated)) = some (some true) ∧
    (Load siteEnv freshWorld 0).2 = .ok () ∧
    (loadedWorld.bundles[0]?).map (fun s => s.Deactivated) = some false ∧
    GetSiteConfig loadedWorld (str "front.test") = some 0 ∧
    (HandleRequest (siteServeEnv okUpstream) loadedWorld (getRequest (str "/"))).w.status
      = some 200 ∧
    (HandleRequest (siteServeEnv okUpstream) loadedWorld (getRequest (str "/"))).fetches = 1 := by
  decide

theorem mapGet_mapsCopy {κ ν : Type} [DecidableEq κ] (dst src : GoMap κ ν) (k : κ) :
    mapGet (mapsCopy dst src) k = (mapGet src k).orElse (fun _ => mapGet dst k) := by
  induction src with
  | nil => simp [mapsCopy, mapGet]
  | cons p t ih =>
    obtain ⟨k1, v1⟩ := p
    have hstep : mapsCopy dst ((k1, v1) :: t) = mapSet (mapsCopy dst t) k1 v1 := rfl
    rw [hstep]
    by_cases h : k1 = k
    · subst h
      simp [mapGet_mapSet_eq, mapGet]
    · rw [mapGet_mapSet_ne _ _ _ _ h, ih]
      simp [mapGet, h]

theorem mapGet_mapsCopy_nil {κ ν : Type} [DecidableEq κ] (src : GoMap κ ν) (k : κ) :
    mapGet (mapsCopy [] src) k = mapGet src k := by
  rw [mapGet_mapsCopy]
  cases mapGet src k <;> simp [mapGet]

/-- Decoding the entries of website_configs only adds objects to the heap of routes. -/
theorem injectRoutes_append :
    ∀ (entries : List (GoString × Option InnerRoute)) (routes : List WebsiteConfig)
      (configs : GoMap GoString Nat),
      ∃ extra, (injectRoutes entries routes configs).1 = routes ++ extra := by
  intro entries
  induction entries with
  | nil => intro routes configs; exact ⟨[], by simp [injectRoutes]⟩
  | cons e rest ih =>
    intro routes configs
    obtain ⟨key, o⟩ := e
    cases o with
    | none =>
      rw [injectRoutes]
      exact ih routes _
    | some inner =>
      rw [injectRoutes]
      exact (ih _ _).elim (fun extra he => ⟨_, he.trans (List.append_assoc _ _ _)⟩)

/-- Decoding the key BaseConfig only adds objects to the heap of routes. -/
theorem applyPatch_append (key : BaseKey) (s : SiteBaseConfig) (routes : List WebsiteConfig) :
    ∃ extra, (applyPatch key s routes).2 = routes ++ extra := by
  cases key with
  | absent => exact ⟨[], by simp [applyPatch]⟩
  | null => exact ⟨[], by simp [applyPatch]⟩
  | object patch =>
    obtain ⟨extra, he⟩ := injectRoutes_append patch.WebsiteConfigs routes s.WebsiteConfigs
    exact ⟨extra, he⟩

/-- The second loop of Load only adds objects to the heap of routes. -/
theorem buildRoutes_append (env : LoadEnv) (b : Nat) (prev : GoMap GoString Nat)
    (heap0 : List WebsiteConfig) :
    ∀ (keys : List GoString) (s : SiteBaseConfig) (routes : List WebsiteConfig),
      ∃ extra, (buildRoutes env b prev heap0 keys s routes).1 = routes ++ extra := by
  intro keys
  induction keys with
  | nil => intro s routes; exact ⟨[], by simp [buildRoutes]⟩
  | cons k rest ih =>
    intro s routes
    rw [buildRoutes]
    cases env.disk (routeFile s.Name k) with
    | none => exact ⟨[], by simp⟩
    | some file =>
      dsimp only
      cases file.asRoute with
      | none => exact ⟨[], by simp⟩
      | some j =>
        dsimp only
        obtain ⟨x, hx⟩ := applyPatch_append j.BaseConfig s routes
        generalize applyPatch j.BaseConfig s routes = d at hx ⊢
        by_cases hte : j.typeError = true
        · rw [if_pos hte]
          exact ⟨x, hx⟩
        · rw [if_neg hte]
          cases formatReplacements env.lib d.1.Vars j.Replacements with
          | error e => exact ⟨x, hx⟩
          | panic => exact ⟨x, hx⟩
          | ok replacements =>
            dsimp only
            generalize newRoute env b k j replacements = r
            generalize (mapGet s.Websites k).getD [] = v
            cases mapGet prev v with
            | none =>
              dsimp only
              obtain ⟨extra, he⟩ :=
                ih { d.1 with WebsiteConfigs := mapSet d.1.WebsiteConfigs v d.2.length } (d.2 ++ [r])
              refine ⟨x ++ [r] ++ extra, ?_⟩
              rw [he, hx]
              simp
            | some pid =>
              dsimp only
              cases heap0[pid]? with
              | none => exact ⟨x, hx⟩
              | some previous =>
                dsimp only
                generalize ({ r with cache := mapsCopy r.cache previous.cache } : WebsiteConfig) = r1
                obtain ⟨extra, he⟩ :=
                  ih { d.1 with WebsiteConfigs := mapSet d.1.WebsiteConfigs v d.2.length }
                    (d.2 ++ [r1])
                refine ⟨x ++ [r1] ++ extra, ?_⟩
                rw [he, hx]
                simp

/-- C9, as amended. For every call of Load that returns an error: the global
host-to-route table and the bundle table are unchanged, every route object that existed
before (with its cache) is unchanged, and every other bundle is unchanged; when the error
is a missing or malformed config.json, the bundle itself is unchanged too, so the whole
state is as before. -/
theorem Load_error_keeps_published (env : LoadEnv) (w : World) (b : Nat) (e : LoadError)
    (h : (Load env w b).2 = .error e) :
    (Load env w b).1.websites = w.websites ∧
    (Load env w b).1.baseConfigs = w.baseConfigs ∧
    (∀ (rid : Nat) (route : WebsiteConfig),
      w.routes[rid]? = some route → (Load env w b).1.routes[rid]? = some route) ∧
    (∀ b2 : Nat, b2 ≠ b → (Load env w b).1.bundles[b2]? = w.bundles[b2]?) ∧
    (∀ s : SiteBaseConfig, w.bundles[b]? = some s →
      (match env.disk (baseFile s.Name) with
        | none => True
        | some file => file.asBase = none) →
      (Load env w b).1 = w) := by
  unfold Load at h ⊢
  cases hs : w.bundles[b]? with
  | none => rw [hs] at h; exact absurd h (by simp)
  | some s =>
    rw [hs] at h
    dsimp only at h ⊢
    cases hd : env.disk (baseFile s.Name) with
    | none =>
      exact ⟨rfl, rfl, fun rid route hr => hr, fun b2 _ => rfl, fun s0 _ _ => rfl⟩
    | some file =>
      rw [hd] at h
      dsimp only at h ⊢
      cases hb : file.asBase with
      | none =>
        exact ⟨rfl, rfl, fun rid route hr => hr, fun b2 _ => rfl, fun s0 _ _ => rfl⟩
      | some temp =>
        rw [hb] at h
        dsimp only at h ⊢
        have hlast : ∀ (w1 : World) (s0 : SiteBaseConfig), some s = some s0 →
            (match env.disk (baseFile s0.Name) with
              | none => True
              | some file => file.asBase = none) → w1 = w := by
          intro w1 s0 hs0 hm
          have : s = s0 := by simpa using hs0
          subst this
          rw [hd] at hm
          dsimp only at hm
          rw [hb] at hm
          exact absurd hm (by simp)
        cases hfd : formatDomains env.lib temp.Vars (env.rangeOrder (mapKeys temp.Websites))
          temp.Websites with
        | mk websites1 o1 =>
          rw [hfd] at h
          cases o1 with
          | panic => exact absurd h (by simp)
          | error e1 =>
            refine ⟨rfl, rfl, fun rid route hr => hr, fun b2 hb2 => ?_,
              fun s0 hs0 hm => hlast _ s0 hs0 hm⟩
            exact List.getElem?_set_ne (Ne.symm hb2)
          | ok u =>
            dsimp only at h ⊢
            have happ := buildRoutes_append env b (mapsCopy [] s.WebsiteConfigs) w.routes
              (env.rangeOrder (mapKeys websites1))
              { Name := s.Name, Vars := temp.Vars, Websites := websites1, WebsiteConfigs := [],
                Deactivated := s.Deactivated } w.routes
            cases hbr : buildRoutes env b (mapsCopy [] s.WebsiteConfigs) w.routes
              (env.rangeOrder (mapKeys websites1))
              { Name := s.Name, Vars := temp.Vars, Websites := websites1, WebsiteConfigs := [],
                Deactivated := s.Deactivated } w.routes with
            | mk routes1 rest =>
              rw [hbr] at h happ
              obtain ⟨extra, hextra⟩ := happ
              dsimp only at hextra
              cases rest with
              | mk s2 o2 =>
                cases o2 with
                | panic => exact absurd h (by simp)
                | ok u2 => exact absurd h (by simp)
                | error e2 =>
                  refine ⟨rfl, rfl, fun rid route hr => ?_, fun b2 hb2 => ?_,
                    fun s0 hs0 hm => hlast _ s0 hs0 hm⟩
                  · have hlt : rid < w.routes.length := (List.getElem?_eq_some.mp hr).1
                    show routes1[rid]? = some route
                    rw [hextra, List.getElem?_append_left hlt]
                    exact hr
                  · exact List.getElem?_set_ne (Ne.symm hb2)

/-- Witness of C9 as amended: the reload of the small site after its descriptor was
removed fails and leaves the published table as it was. -/
theorem Load_error_keeps_published_witness :
    (Load brokenEnv loadedWorld 0).2 = .error (.openRoute (str "origin.test")) ∧
    (Load brokenEnv loadedWorld 0).1.websites = loadedWorld.websites :=
  ⟨by decide, (Load_error_keeps_published brokenEnv loadedWorld 0 _
    (by decide : (Load brokenEnv loadedWorld 0).2 = .error (.openRoute (str "origin.test")))).1⟩

/-- C9 as stated fails: the reload of the small site after its config.json was edited
and its descriptor removed returns an error, yet the bundle's variable dictionary, domain
map and route set are no longer what they were. -/
theorem Load_error_overwrites_bundle :
    ¬ ∀ (env : LoadEnv) (w : World) (b : Nat) (e : LoadError),
        (Load env w b).2 = .error e →
        (Load env w b).1.websites = w.websites ∧ (Load env w b).1.bundles[b]? = w.bundles[b]? := by
  intro h
  have h1 := h brokenEnv loadedWorld 0 (.openRoute (str "origin.test")) (by decide)
  revert h1
  decide

/-- A descriptor that injects no route leaves the heap and the route set as they are. -/
theorem applyPatch_no_inject (j : RouteJson) (hj : j.injects = false) (s : SiteBaseConfig)
    (routes : List WebsiteConfig) :
    (applyPatch j.BaseConfig s routes).2 = routes ∧
    (applyPatch j.BaseConfig s routes).1.WebsiteConfigs = s.WebsiteConfigs := by
  unfold RouteJson.injects at hj
  cases hk : j.BaseConfig with
  | absent => exact ⟨rfl, rfl⟩
  | null => exact ⟨rfl, rfl⟩
  | object patch =>
    rw [hk] at hj
    have he : patch.WebsiteConfigs = [] := by simpa using hj
    simp [applyPatch, he, injectRoutes]

/-- The second loop of Load, over descriptors that inject no route, keeps this invariant:
every domain bound in s.WebsiteConfigs is bound to a route on the heap whose cache is
carried over from the previous route. -/
theorem buildRoutes_carries (env : LoadEnv) (b : Nat) (prev : GoMap GoString Nat)
    (heap0 : List WebsiteConfig)
    (hno : ∀ path file j, env.disk path = some file → file.asRoute = some j →
      j.injects = false) :
    ∀ (keys : List GoString) (s : SiteBaseConfig) (routes : List WebsiteConfig),
      (∀ v rid, mapGet s.WebsiteConfigs v = some rid →
        ∃ route, routes[rid]? = some route ∧ CacheCarried prev heap0 v route) →
      ∀ v rid,
        mapGet (buildRoutes env b prev heap0 keys s routes).2.1.WebsiteConfigs v = some rid →
        ∃ route, (buildRoutes env b prev heap0 keys s routes).1[rid]? = some route ∧
          CacheCarried prev heap0 v route := by
  intro keys
  induction keys with
  | nil => intro s routes hinv v rid h; exact hinv v rid (by simpa [buildRoutes] using h)
  | cons k rest ih =>
    intro s routes hinv
    have hstep : ∀ (v0 : GoString) (route : WebsiteConfig),
        CacheCarried prev heap0 v0 route →
        ∀ v rid, mapGet (mapSet s.WebsiteConfigs v0 routes.length) v = some rid →
          ∃ r, (routes ++ [route])[rid]? = some r ∧ CacheCarried prev heap0 v r := by
      intro v0 route hroute v rid hget
      by_cases hv : v0 = v
      · subst hv
        rw [mapGet_mapSet_eq] at hget
        have : rid = routes.length := by simpa using hget.symm
        subst this
        exact ⟨route, List.getElem?_concat_length _ _, hroute⟩
      · rw [mapGet_mapSet_ne _ _ _ _ hv] at hget
        obtain ⟨r, hr, hc⟩ := hinv v rid hget
        have hlt : rid < routes.length := (List.getElem?_eq_some.mp hr).1
        exact ⟨r, by rw [List.getElem?_append_left hlt]; exact hr, hc⟩
    rw [buildRoutes]
    cases hd : env.disk (routeFile s.Name k) with
    | none => exact hinv
    | some file =>
      dsimp only
      cases hf : file.asRoute with
      | none => exact hinv
      | some j =>
        dsimp only
        obtain ⟨h2, h1⟩ := applyPatch_no_inject j (hno _ file j hd hf) s routes
        generalize applyPatch j.BaseConfig s routes = d at h1 h2 ⊢
        by_cases hte : j.typeError = true
        · rw [if_pos hte]
          dsimp only
          rw [h1, h2]
          exact hinv
        · rw [if_neg hte]
          cases formatReplacements env.lib d.1.Vars j.Replacements with
          | error e => dsimp only; rw [h1, h2]; exact hinv
          | panic => dsimp only; rw [h1, h2]; exact hinv
          | ok replacements =>
            dsimp only
            have hrc : (newRoute env b k j replacements).cache = [] := rfl
            generalize newRoute env b k j replacements = r at hrc ⊢
            generalize (mapGet s.Websites k).getD [] = v0
            cases hp : mapGet prev v0 with
            | none =>
              dsimp only
              refine ih _ _ ?_
              dsimp only
              rw [h1, h2]
              refine hstep v0 _ ?_
              unfold CacheCarried
              rw [hp]
              exact hrc
            | some pid =>
              dsimp only
              cases hh : heap0[pid]? with
              | none => dsimp only; rw [h1, h2]; exact hinv
              | some previous =>
                dsimp only
                refine ih _ _ ?_
                dsimp only
                rw [h1, h2]
                refine hstep v0 _ ?_
                unfold CacheCarried
                rw [hp]
                dsimp only
                rw [hrc]
                exact ⟨previous, hh, fun path => mapGet_mapsCopy_nil _ _⟩

/-- C10, as amended. For every successful Load of a bundle over route descriptors none of
which writes entries into the bundle's route set (through the key website_configs under
the key BaseConfig): each domain bound in the bundle's new route set is bound to a route
whose cache has exactly the bindings of the route that the bundle's previous route set
bound to the same domain, and an empty cache when the previous route set did not bind
that domain. -/
theorem Load_carries_cache (env : LoadEnv) (w : World) (b : Nat) (s : SiteBaseConfig)
    (hno : ∀ path file j, env.disk path = some file → file.asRoute = some j →
      j.injects = false)
    (hs : w.bundles[b]? = some s) (hok : (Load env w b).2 = .ok ()) :
    ∃ s1, (Load env w b).1.bundles[b]? = some s1 ∧
      ∀ v rid, mapGet s1.WebsiteConfigs v = some rid →
        ∃ route, (Load env w b).1.routes[rid]? = some route ∧
          match mapGet s.WebsiteConfigs v with
          | some pid => ∃ previous, w.routes[pid]? = some previous ∧
              ∀ path, mapGet route.cache path = mapGet previous.cache path
          | none => route.cache = [] := by
  have hlt : b < w.bundles.length := (List.getElem?_eq_some.mp hs).1
  unfold Load at hok ⊢
  rw [hs] at hok ⊢
  dsimp only at hok ⊢
  cases hd : env.disk (baseFile s.Name) with
  | none => rw [hd] at hok; exact absurd hok (by simp)
  | some file =>
    rw [hd] at hok
    dsimp only at hok ⊢
    cases hb : file.asBase with
    | none => rw [hb] at hok; exact absurd hok (by simp)
    | some temp =>
      rw [hb] at hok
      dsimp only at hok ⊢
      cases hfd : formatDomains env.lib temp.Vars (env.rangeOrder (mapKeys temp.Websites))
        temp.Websites with
      | mk websites1 o1 =>
        rw [hfd] at hok
        cases o1 with
        | panic => exact absurd hok (by simp)
        | error e1 => exact absurd hok (by simp)
        | ok u =>
          dsimp only at hok ⊢
          have hinv := buildRoutes_carries env b (mapsCopy [] s.WebsiteConfigs) w.routes hno
            (env.rangeOrder (mapKeys websites1))
            { Name := s.Name, Vars := temp.Vars, Websites := websites1, WebsiteConfigs := [],
              Deactivated := s.Deactivated } w.routes
            (fun v rid hget => absurd hget (by simp [mapGet]))
          cases hbr : buildRoutes env b (mapsCopy [] s.WebsiteConfigs) w.routes
            (env.rangeOrder (mapKeys websites1))
            { Name := s.Name, Vars := temp.Vars, Websites := websites1, WebsiteConfigs := [],
              Deactivated := s.Deactivated } w.routes with
          | mk routes1 rest =>
            rw [hbr] at hok hinv
            cases rest with
            | mk s2 o2 =>
              cases o2 with
              | panic => exact absurd hok (by simp)
              | error e2 => exact absurd hok (by simp)
              | ok u2 =>
                refine ⟨_, List.getElem?_set_self hlt, ?_⟩
                intro v rid hget
                obtain ⟨route, hr, hc⟩ := hinv v rid hget
                refine ⟨route, hr, ?_⟩
                unfold CacheCarried at hc
                rw [mapGet_mapsCopy_nil] at hc
                exact hc

/-- Witness of C10 as amended: the reload of the small site with a warm cache. -/
theorem Load_carries_cache_witness :
    ∃ s1, (Load siteEnv warmWorld 0).1.bundles[0]? = some s1 ∧
      ∀ v rid, mapGet s1.WebsiteConfigs v = some rid →
        ∃ route, (Load siteEnv warmWorld 0).1.routes[rid]? = some route ∧
          match mapGet ([(str "front.test", 0)] : GoMap GoString Nat) v with
          | some pid => ∃ previous, warmWorld.routes[pid]? = some previous ∧
              ∀ path, mapGet route.cache path = mapGet previous.cache path
          | none => route.cache = [] :=
  Load_carries_cache siteEnv warmWorld 0
    { Name := str "site", Vars := [(str "name", str "front")],
      Websites := [(str "origin.test", str "front.test")],
      WebsiteConfigs := [(str "front.test", 0)], Deactivated := false }
    (by
      intro path file j hf hj
      simp only [siteEnv, siteDisk] at hf
      split_ifs at hf
      · cases hf
        simp at hj
      · cases hf
        simp only [Option.some.injEq] at hj
        subst hj
        rfl)
    (by decide) (by decide)

/-- C10 as stated fails: the warm small site is reloaded after config.json renamed its
domain to other.test and its descriptor got the key BaseConfig with front.test under
website_configs. Load succeeds; the new route set binds front.test, a key of the previous
route set whose route holds the path /a, to the route that json decoding allocated, and
that route has no cache entry. -/
theorem Load_injected_route_has_no_cache :
    ¬ ∀ (env : LoadEnv) (w : World) (b : Nat) (s : SiteBaseConfig),
        w.bundles[b]? = some s → (Load env w b).2 = .ok () →
        ∃ s1, (Load env w b).1.bundles[b]? = some s1 ∧
          ∀ v rid, mapGet s1.WebsiteConfigs v = some rid →
            ∃ route, (Load env w b).1.routes[rid]? = some route ∧
              match mapGet s.WebsiteConfigs v with
              | some pid => ∃ previous, w.routes[pid]? = some previous ∧
                  ∀ path, mapGet route.cache path = mapGet previous.cache path
              | none => route.cache = [] := by
  intro h
  obtain ⟨s1, hs1, hall⟩ := h injectEnv warmWorld 0 siteBundle (by decide) (by decide)
  have hb : ((Load injectEnv warmWorld 0).1.bundles[0]?).map
      (fun s => mapGet s.WebsiteConfigs (str "front.test")) = some (some 1) := by decide
  rw [hs1] at hb
  simp only [Option.map_some', Option.some.injEq] at hb
  obtain ⟨route, hr, hc⟩ := hall (str "front.test") 1 hb
  have hrc : ((Load injectEnv warmWorld 0).1.routes[1]?).map (fun r => r.cache)
      = some [] := by decide
  rw [hr] at hrc
  simp only [Option.map_some', Option.some.injEq] at hrc
  have hm : mapGet siteBundle.WebsiteConfigs (str "front.test") = some 0 := by decide
  rw [hm] at hc
  obtain ⟨previous, hp, hpath⟩ := hc
  have hw : (warmWorld.routes[0]?).map (fun r => (mapGet r.cache (str "/a")).isSome)
      = some true := by decide
  rw [hp] at hw
  simp only [Option.map_some', Option.some.injEq] at hw
  have h1 := hpath (str "/a")
  rw [hrc] at h1
  rw [← h1] at hw
  exact absurd hw (by simp [mapGet])

/-- The reload over injectDisk, evaluated: Load succeeds, the bundle's route set binds
front.test to the injected route at address 1 (no cache entry, nil BaseConfig) and
other.test to the built route at address 2, and only other.test is published. -/
theorem reload_with_injected_route :
    (Load injectEnv warmWorld 0).2 = .ok () ∧
    ((Load injectEnv warmWorld 0).1.bundles[0]?).map (fun s => s.WebsiteConfigs)
      = some [(str "front.test", 1), (str "other.test", 2)] ∧
    ((Load injectEnv warmWorld 0).1.routes[1]?).map (fun r => (r.cache, r.BaseConfig))
      = some ([], nilPtr) ∧
    (warmWorld.routes[0]?).map (fun r => (mapGet r.cache (str "/a")).map (fun e => e.Content))
      = some (some (str "body")) ∧
    (Load injectEnv warmWorld 0).1.websites = [(str "other.test", 2)] := by decide

/-- Load writes the Deactivated field of the bundle only when a descriptor does so through
its key BaseConfig: the flag decoded from config.json into temp is not copied. -/
theorem buildRoutes_keeps_Deactivated (env : LoadEnv) (b : Nat) (prev : GoMap GoString Nat)
    (heap0 : List WebsiteConfig)
    (hnd : ∀ path file j, env.disk path = some file → file.asRoute = some j →
      j.setsDeactivated = false) :
    ∀ (keys : List GoString) (s : SiteBaseConfig) (routes : List WebsiteConfig),
      (buildRoutes env b prev heap0 keys s routes).2.1.Deactivated = s.Deactivated := by
  intro keys
  induction keys with
  | nil => intro s routes; rfl
  | cons k rest ih =>
    intro s routes
    rw [buildRoutes]
    cases hd : env.disk (routeFile s.Name k) with
    | none => rfl
    | some file =>
      dsimp only
      cases hf : file.asRoute with
      | none => rfl
      | some j =>
        dsimp only
        have h1 : (applyPatch j.BaseConfig s routes).1.Deactivated = s.Deactivated := by
          have hj := hnd _ file j hd hf
          unfold RouteJson.setsDeactivated at hj
          cases hk : j.BaseConfig with
          | absent => rfl
          | null => rfl
          | object patch =>
            rw [hk] at hj
            have : patch.Deactivated = none := by
              cases hpd : patch.Deactivated with
              | none => rfl
              | some x => simp [hpd] at hj
            simp [applyPatch, this]
        generalize applyPatch j.BaseConfig s routes = d at h1 ⊢
        by_cases hte : j.typeError = true
        · rw [if_pos hte]
          exact h1
        · rw [if_neg hte]
          cases formatReplacements env.lib d.1.Vars j.Replacements with
          | error e => exact h1
          | panic => exact h1
          | ok replacements =>
            dsimp only
            cases mapGet prev ((mapGet s.Websites k).getD []) with
            | none =>
              dsimp only
              rw [ih]
              exact h1
            | some pid =>
              dsimp only
              cases heap0[pid]? with
              | none => exact h1
              | some previous =>
                dsimp only
                rw [ih]
                exact h1

/-- Load never copies the deactivation flag decoded from config.json: over descriptors
that do not write the flag through the key BaseConfig, the Deactivated field of the bundle
after Load is what it was before. -/
theorem Load_keeps_Deactivated (env : LoadEnv) (w : World) (b : Nat) (s : SiteBaseConfig)
    (hnd : ∀ path file j, env.disk path = some file → file.asRoute = some j →
      j.setsDeactivated = false)
    (hs : w.bundles[b]? = some s) :
    ∃ s1, (Load env w b).1.bundles[b]? = some s1 ∧ s1.Deactivated = s.Deactivated := by
  have hlt : b < w.bundles.length := (List.getElem?_eq_some.mp hs).1
  unfold Load
  rw [hs]
  dsimp only
  cases env.disk (baseFile s.Name) with
  | none => exact ⟨s, hs, rfl⟩
  | some file =>
    dsimp only
    cases file.asBase with
    | none => exact ⟨s, hs, rfl⟩
    | some temp =>
      dsimp only
      cases formatDomains env.lib temp.Vars (env.rangeOrder (mapKeys temp.Websites))
        temp.Websites with
      | mk websites1 o1 =>
        cases o1 with
        | error e => exact ⟨_, List.getElem?_set_self hlt, rfl⟩
        | panic => exact ⟨_, List.getElem?_set_self hlt, rfl⟩
        | ok u =>
          dsimp only
          have hk := buildRoutes_keeps_Deactivated env b (mapsCopy [] s.WebsiteConfigs)
            w.routes hnd (env.rangeOrder (mapKeys websites1))
            { Name := s.Name, Vars := temp.Vars, Websites := websites1, WebsiteConfigs := [],
              Deactivated := s.Deactivated } w.routes
          cases hbr : buildRoutes env b (mapsCopy [] s.WebsiteConfigs) w.routes
            (env.rangeOrder (mapKeys websites1))
            { Name := s.Name, Vars := temp.Vars, Websites := websites1, WebsiteConfigs := [],
              Deactivated := s.Deactivated } w.routes with
          | mk routes1 rest =>
            rw [hbr] at hk
            cases rest with
            | mk s2 o2 =>
              cases o2 with
              | error e => exact ⟨_, List.getElem?_set_self hlt, hk⟩
              | panic => exact ⟨_, List.getElem?_set_self hlt, hk⟩
              | ok u2 => exact ⟨_, List.getElem?_set_self hlt, hk⟩


/-- The reload of the warm small site, evaluated: the new route of front.test sits at
address 1 and has the cached path, the old route at address 0 is untouched. -/
theorem reload_warm_site :
    (Load siteEnv warmWorld 0).1.websites = [(str "front.test", 1)] ∧
    ((Load siteEnv warmWorld 0).1.routes[1]?).map
        (fun site => (mapGet site.cache (str "/a")).map (fun e => e.Content))
      = some (some (str "body")) ∧
    (Load siteEnv warmWorld 0).1.routes[0]? = warmWorld.routes[0]? := by decide

/-! ## The response writer -/

theorem setStatus_of_none (w : ResponseWriter) (code : Int) (h : w.status = none) :
    (w.setStatus code).status = some code := by
  simp [ResponseWriter.setStatus, h]

theorem setStatus_of_some (w : ResponseWriter) (code c : Int) (h : w.status = some c) :
    w.setStatus code = w := by
  simp [ResponseWriter.setStatus, h]

theorem Write_status (w : ResponseWriter) (b : GoString) (c : Int) (h : w.status = some c) :
    (w.Write b).status = some c := by
  unfold ResponseWriter.Write
  rw [setStatus_of_some w 200 c h]
  dsimp only
  split <;> exact h

theorem httpError_status (w : ResponseWriter) (msg : GoString) (code : Int)
    (h : w.status = none) : (httpError w msg code).status = some code := by
  unfold httpError
  exact Write_status _ _ code (setStatus_of_none _ code h)

theorem WriteHeader_final (w : ResponseWriter) (code : Int) (h : w.status = none)
    (hf : finalStatus code) :
    ∃ w1, w.WriteHeader code = some w1 ∧ w1.status = some code := by
  refine ⟨w.setStatus code, ?_, setStatus_of_none w code h⟩
  unfold ResponseWriter.WriteHeader
  have h1 : ¬ (code < 100 ∨ code > 999) := by unfold finalStatus at hf; omega
  have h2 : ¬ (code ≤ 199 ∧ code ≠ 101) := by unfold finalStatus at hf; omega
  simp [h, h1, h2]

/-! ## The retry loop -/

theorem getHttpClient_some (pool index : Nat) (h : pool ≠ 0) :
    ∃ c index1, getHttpClient pool index = (some c, index1) := by
  unfold getHttpClient
  by_cases h1 : pool = 1
  · exact ⟨0, index, by simp [h1]⟩
  · exact ⟨(index + 1) % 2 ^ 64 % pool, (index + 1) % 2 ^ 64, by simp [h1, h]⟩

/-- The choice of the client at the head of a round always yields a client on a non-empty
pool. -/
theorem picked_some (pool retryNum client index : Nat) (h : pool ≠ 0) :
    ∃ c index1,
      (if retryNum > 0 then getHttpClient pool index else (some client, index)) = (some c, index1) := by
  by_cases hr : retryNum > 0
  · rw [if_pos hr]; exact getHttpClient_some pool index h
  · rw [if_neg hr]; exact ⟨client, index, rfl⟩

/-- The retry loop never runs out of the fuel it is started with: five rounds from
retryNum 0 (in general, fuel + retryNum >= 5 with some fuel left). -/
theorem fetchLoop_total (env : ServeEnv) (pool : Nat) (r : Request) (site : WebsiteConfig)
    (path reqBody : GoString) :
    ∀ (fuel retryNum client index fetches : Nat), 5 ≤ (fuel + 1) + retryNum →
      (fetchLoop env pool r site path reqBody (fuel + 1) retryNum client index fetches).1
        ≠ .outOfFuel := by
  intro fuel
  induction fuel with
  | zero =>
    intro retryNum client index fetches h
    have h3 : retryNum > 3 := by omega
    rw [fetchLoop]
    split
    · simp
    · simp [h3]
  | succ n ih =>
    intro retryNum client index fetches h
    rw [fetchLoop]
    split
    · simp
    · split
      · simp
      · split
        · simp
        · split
          · simp
          · split
            · exact ih _ _ _ _ (by omega)
            · simp

/-- One round of the retry loop that is answered with a 503 goes to the next round with
one more fetch counted. -/
theorem fetchLoop_503_step (env : ServeEnv) (pool : Nat) (r : Request) (site : WebsiteConfig)
    (path reqBody : GoString) (fuel retryNum client index fetches : Nat)
    (hpool : pool ≠ 0) (hreq : env.newRequestOk r.Method (site.URL path) = true)
    (h3 : retryNum ≤ 3)
    (h503 : ∀ c q, ∃ resp, env.upstream retryNum c q = .response resp ∧ resp.StatusCode = 503) :
    ∃ client1 index1,
      fetchLoop env pool r site path reqBody (fuel + 1) retryNum client index fetches
        = fetchLoop env pool r site path reqBody fuel (retryNum + 1) client1 index1
            (fetches + 1) := by
  obtain ⟨c, i1, hp⟩ := picked_some pool retryNum client index hpool
  obtain ⟨resp, hresp, hst⟩ := h503 c (buildRequest env.lib r site path reqBody)
  refine ⟨c, i1, ?_⟩
  rw [fetchLoop]
  simp only [hp]
  have h3n : ¬ retryNum > 3 := by omega
  simp only [h3n, if_false, hreq, not_true_eq_false, hresp, hst, if_true]

/-- k rounds that are all answered with a 503. -/
theorem fetchLoop_503_run (env : ServeEnv) (pool : Nat) (r : Request) (site : WebsiteConfig)
    (path reqBody : GoString) (hpool : pool ≠ 0)
    (hreq : env.newRequestOk r.Method (site.URL path) = true) :
    ∀ (k fuel retryNum client index fetches : Nat), retryNum + k ≤ 4 →
      (∀ i, retryNum ≤ i → i < retryNum + k →
        ∀ c q, ∃ resp, env.upstream i c q = .response resp ∧ resp.StatusCode = 503) →
      ∃ client1 index1,
        fetchLoop env pool r site path reqBody (fuel + k) retryNum client index fetches
          = fetchLoop env pool r site path reqBody fuel (retryNum + k) client1 index1
              (fetches + k) := by
  intro k
  induction k with
  | zero => intro fuel retryNum client index fetches _ _; exact ⟨client, index, rfl⟩
  | succ k ih =>
    intro fuel retryNum client index fetches hle h503
    obtain ⟨c1, i1, h1⟩ := fetchLoop_503_step env pool r site path reqBody (fuel + k) retryNum
      client index fetches hpool hreq (by omega) (h503 retryNum (le_refl _) (by omega))
    obtain ⟨c2, i2, h2⟩ := ih fuel (retryNum + 1) c1 i1 (fetches + 1) (by omega)
      (fun i hi1 hi2 => h503 i (by omega) (by omega))
    refine ⟨c2, i2, ?_⟩
    have e1 : fuel + (k + 1) = fuel + k + 1 := by omega
    have e2 : retryNum + (k + 1) = retryNum + 1 + k := by omega
    have e3 : fetches + (k + 1) = fetches + 1 + k := by omega
    rw [e1, h1, h2, e2, e3]

/-- After k <= 4 rounds answered with a 503 the loop is at round k with k fetches made. -/
theorem fetchLoop_after (env : ServeEnv) (pool : Nat) (r : Request) (site : WebsiteConfig)
    (path reqBody : GoString) (client index k : Nat)
    (hpool : pool ≠ 0) (hreq : env.newRequestOk r.Method (site.URL path) = true)
    (hk : k ≤ 4) (h503 : first503 env k) :
    ∃ client1 index1, fetchLoop env pool r site path reqBody 5 0 client index 0
      = fetchLoop env pool r site path reqBody (4 - k + 1) k client1 index1 k := by
  obtain ⟨c1, i1, h1⟩ := fetchLoop_503_run env pool r site path reqBody hpool hreq k (4 - k + 1) 0
    client index 0 (by omega) (fun i _ hi => h503 i (by omega))
  have e : 4 - k + 1 + k = 5 := by omega
  rw [e, Nat.zero_add] at h1
  exact ⟨c1, i1, h1⟩

/-- After k <= 3 rounds answered with a 503, a response with another status ends the loop
after k + 1 fetches. -/
theorem fetchLoop_response (env : ServeEnv) (pool : Nat) (r : Request) (site : WebsiteConfig)
    (path reqBody : GoString) (client index k : Nat) (resp : UpstreamResponse)
    (hpool : pool ≠ 0) (hreq : env.newRequestOk r.Method (site.URL path) = true)
    (hk : k ≤ 3) (h503 : first503 env k)
    (hresp : ∀ c q, env.upstream k c q = .response resp) (hst : resp.StatusCode ≠ 503) :
    ∃ index1, fetchLoop env pool r site path reqBody 5 0 client index 0
      = (.response resp, index1, k + 1) := by
  obtain ⟨c1, i1, h1⟩ := fetchLoop_after env pool r site path reqBody client index k hpool hreq
    (by omega) h503
  obtain ⟨c, i2, hp⟩ := picked_some pool k c1 i1 hpool
  refine ⟨i2, ?_⟩
  rw [h1, fetchLoop]
  simp only [hp]
  have h3n : ¬ k > 3 := by omega
  simp only [h3n, if_false, hreq, not_true_eq_false, hresp, hst]

/-- After k <= 3 rounds answered with a 503, a transport failure ends the loop after
k + 1 fetches. -/
theorem fetchLoop_transport (env : ServeEnv) (pool : Nat) (r : Request) (site : WebsiteConfig)
    (path reqBody : GoString) (client index k : Nat)
    (hpool : pool ≠ 0) (hreq : env.newRequestOk r.Method (site.URL path) = true)
    (hk : k ≤ 3) (h503 : first503 env k)
    (hresp : ∀ c q, env.upstream k c q = .transportError) :
    ∃ index1, fetchLoop env pool r site path reqBody 5 0 client index 0
      = (.transportError, index1, k + 1) := by
  obtain ⟨c1, i1, h1⟩ := fetchLoop_after env pool r site path reqBody client index k hpool hreq
    (by omega) h503
  obtain ⟨c, i2, hp⟩ := picked_some pool k c1 i1 hpool
  refine ⟨i2, ?_⟩
  rw [h1, fetchLoop]
  simp only [hp]
  have h3n : ¬ k > 3 := by omega
  simp only [h3n, if_false, hreq, not_true_eq_false, hresp]

/-- Four rounds answered with a 503 end the loop with "Too many retries" after four
fetches. -/
theorem fetchLoop_too_many (env : ServeEnv) (pool : Nat) (r : Request) (site : WebsiteConfig)
    (path reqBody : GoString) (client index : Nat)
    (hpool : pool ≠ 0) (hreq : env.newRequestOk r.Method (site.URL path) = true)
    (h503 : first503 env 4) :
    ∃ index1, fetchLoop env pool r site path reqBody 5 0 client index 0
      = (.tooManyRetries, index1, 4) := by
  obtain ⟨c1, i1, h1⟩ := fetchLoop_after env pool r site path reqBody client index 4 hpool hreq
    (le_refl _) h503
  obtain ⟨c, i2, hp⟩ := picked_some pool 4 c1 i1 hpool
  refine ⟨i2, ?_⟩
  rw [h1, fetchLoop]
  simp only [hp]
  simp

/-! ## HandleRequest on a cache miss -/

theorem dropIdentity_Method (r : Request) : (dropIdentity r).Method = r.Method := by
  unfold dropIdentity; split <;> rfl

theorem dropIdentity_Body (r : Request) : (dropIdentity r).Body = r.Body := by
  unfold dropIdentity; split <;> rfl

/-- A request for an active route, on a path that is neither an administrative path nor
blocked and that misses the cache, is handled by the miss path with nothing written yet. -/
theorem HandleRequest_miss (env : ServeEnv) (world : World) (r : Request) (sid : Nat)
    (site : WebsiteConfig) (bundle : SiteBaseConfig)
    (hhost : r.Host ≠ []) (hp1 : r.Path ≠ str "/reload_all_configs")
    (hp2 : startsWith r.Path (str "/reload_specific_config") = false)
    (hsite : GetSiteConfig world r.Host = some sid) (hroute : world.routes[sid]? = some site)
    (hbundle : world.bundles[site.BaseConfig]? = some bundle)
    (hactive : bundle.Deactivated = false)
    (hblock : site.ShouldBlock (fullPath r) = false) (hp3 : fullPath r ≠ str "/reload_config")
    (hmiss : (site.ProbeCache env.probeNow (fullPath r)).2 = false) :
    HandleRequest env world r
      = serveMiss env world (dropIdentity r) sid site (fullPath r) ResponseWriter.fresh := by
  unfold HandleRequest
  simp only [hhost, if_false, hp1, hp2, Bool.false_eq_true, hsite, hroute, hbundle, hactive]
  unfold serveSite
  simp only [hblock, Bool.false_eq_true, if_false, hp3]
  cases hpc : site.ProbeCache env.probeNow (fullPath r) with
  | mk entry ok =>
    rw [hpc] at hmiss
    simp only at hmiss
    subst hmiss
    cases entry <;> rfl

/-- The miss path, once the retry loop has ended. -/
theorem serveMiss_of_loop (env : ServeEnv) (world : World) (r : Request) (sid : Nat)
    (site : WebsiteConfig) (path reqBody : GoString) (w : ResponseWriter)
    (hpool : world.httpClients ≠ 0) (hbody : r.Body = some reqBody) :
    ∃ client index1,
      serveMiss env world r sid site path w =
        match fetchLoop env world.httpClients r site path reqBody 5 0 client index1 0 with
        | (.tooManyRetries, index2, n) =>
          ⟨httpError w (str "Failed to load") 500, { world with httpClientIndex := index2 }, n,
            false⟩
        | (.requestError, index2, n) =>
          ⟨httpError w (str "Error creating request") 500,
            { world with httpClientIndex := index2 }, n, false⟩
        | (.transportError, index2, n) =>
          ⟨httpError w (str "Error getting page") 500,
            { world with httpClientIndex := index2 }, n, false⟩
        | (.clientPanic, index2, n) => ⟨w, { world with httpClientIndex := index2 }, n, true⟩
        | (.outOfFuel, index2, n) => ⟨w, { world with httpClientIndex := index2 }, n, true⟩
        | (.response resp, index2, n) =>
          serveResponse env { world with httpClientIndex := index2 } sid site path w resp n := by
  obtain ⟨c, i1, hc⟩ := getHttpClient_some world.httpClients world.httpClientIndex hpool
  refine ⟨c, i1, ?_⟩
  unfold serveMiss
  rw [hc]
  simp only [hbody]

/-- A response that is read, decoded, rewritten and re-encoded without error, with a
final status, is answered with its status when nothing has been written before. -/
theorem serveResponse_status (env : ServeEnv) (world : World) (sid : Nat) (site : WebsiteConfig)
    (path : GoString) (w : ResponseWriter) (resp : UpstreamResponse) (n : Nat)
    (read originalBody replaced newBody : GoString)
    (hw : w.status = none) (hfinal : finalStatus resp.StatusCode)
    (hread : resp.Body = some read)
    (hdec : Decode env.lib read (Header.Get resp.Header (str "Content-Encoding"))
      = some originalBody)
    (hrep : site.Replace env.lib originalBody = some replaced)
    (henc : Encode env.lib replaced (Header.Get resp.Header (str "Content-Encoding"))
      = some newBody) :
    (serveResponse env world sid site path w resp n).fetches = n ∧
    (serveResponse env world sid site path w resp n).w.status = some resp.StatusCode := by
  unfold serveResponse
  simp only [hread, hdec, hrep, henc]
  generalize hh : (if (decide (replaced.length ≠ originalBody.length ∨ replaced ≠ originalBody)
        = true ∨ resp.StatusCode > 499) then _ else _ : Header) = h3
  obtain ⟨w1, hw1, hs1⟩ := WriteHeader_final ({ w with header := h3 } : ResponseWriter)
    resp.StatusCode hw hfinal
  rw [hw1]
  exact ⟨rfl, Write_status w1 newBody _ hs1⟩

/-- C6, as amended. On a cache miss of a request for an active route, on a path that is
not blocked, with a non-empty client pool, a readable request body and an outbound
request that can be built: (1) if the first k <= 3 attempts are answered with 503 and the
next with a response of another, final status whose body is read, decoded, rewritten and
re-encoded without error, the handler makes exactly k + 1 fetch attempts and answers with
that status; (2) if the first 4 attempts are answered with 503, it makes exactly 4 fetch
attempts and answers 500; (3) if after k <= 3 attempts answered with 503 the next attempt
is a transport failure, it makes exactly k + 1 fetch attempts and answers 500. -/
theorem retry_contract (env : ServeEnv) (world : World) (r : Request) (sid : Nat)
    (site : WebsiteConfig) (bundle : SiteBaseConfig) (reqBody : GoString)
    (hhost : r.Host ≠ []) (hp1 : r.Path ≠ str "/reload_all_configs")
    (hp2 : startsWith r.Path (str "/reload_specific_config") = false)
    (hsite : GetSiteConfig world r.Host = some sid) (hroute : world.routes[sid]? = some site)
    (hbundle : world.bundles[site.BaseConfig]? = some bundle)
    (hactive : bundle.Deactivated = false)
    (hblock : site.ShouldBlock (fullPath r) = false) (hp3 : fullPath r ≠ str "/reload_config")
    (hmiss : (site.ProbeCache env.probeNow (fullPath r)).2 = false)
    (hpool : world.httpClients ≠ 0) (hbody : r.Body = some reqBody)
    (hreq : env.newRequestOk r.Method (site.URL (fullPath r)) = true) :
    (∀ (k : Nat) (resp : UpstreamResponse) (read originalBody replaced newBody : GoString),
      k ≤ 3 → first503 env k → (∀ c q, env.upstream k c q = .response resp) →
      resp.StatusCode ≠ 503 → finalStatus resp.StatusCode → resp.Body = some read →
      Decode env.lib read (Header.Get resp.Header (str "Content-Encoding")) = some originalBody →
      site.Replace env.lib originalBody = some replaced →
      Encode env.lib replaced (Header.Get resp.Header (str "Content-Encoding")) = some newBody →
      (HandleRequest env world r).fetches = k + 1 ∧
      (HandleRequest env world r).w.status = some resp.StatusCode) ∧
    (first503 env 4 →
      (HandleRequest env world r).fetches = 4 ∧
      (HandleRequest env world r).w.status = some 500) ∧
    (∀ k : Nat, k ≤ 3 → first503 env k → (∀ c q, env.upstream k c q = .transportError) →
      (HandleRequest env world r).fetches = k + 1 ∧
      (HandleRequest env world r).w.status = some 500) := by
  have hm := HandleRequest_miss env world r sid site bundle hhost hp1 hp2 hsite hroute hbundle
    hactive hblock hp3 hmiss
  have hbody1 : (dropIdentity r).Body = some reqBody := by rw [dropIdentity_Body]; exact hbody
  have hreq1 : env.newRequestOk (dropIdentity r).Method (site.URL (fullPath r)) = true := by
    rw [dropIdentity_Method]; exact hreq
  obtain ⟨client, index1, hloop⟩ := serveMiss_of_loop env world (dropIdentity r) sid site
    (fullPath r) reqBody ResponseWriter.fresh hpool hbody1
  rw [hm, hloop]
  refine ⟨?_, ?_, ?_⟩
  · intro k resp read originalBody replaced newBody hk h503 hresp hst hfinal hread hdec hrep henc
    obtain ⟨i2, hf⟩ := fetchLoop_response env world.httpClients (dropIdentity r) site (fullPath r)
      reqBody client index1 k resp hpool hreq1 hk h503 hresp hst
    rw [hf]
    exact serveResponse_status env _ sid site (fullPath r) ResponseWriter.fresh resp (k + 1)
      read originalBody replaced newBody rfl hfinal hread hdec hrep henc
  · intro h503
    obtain ⟨i2, hf⟩ := fetchLoop_too_many env world.httpClients (dropIdentity r) site (fullPath r)
      reqBody client index1 hpool hreq1 h503
    rw [hf]
    exact ⟨rfl, httpError_status _ _ 500 rfl⟩
  · intro k hk h503 hresp
    obtain ⟨i2, hf⟩ := fetchLoop_transport env world.httpClients (dropIdentity r) site (fullPath r)
      reqBody client index1 k hpool hreq1 hk h503 hresp
    rw [hf]
    exact ⟨rfl, httpError_status _ _ 500 rfl⟩

/-- Witness of C6 as amended: three 503 and then a 200 on the small site make four fetch
attempts and the answer 200. -/
theorem retry_contract_witness :
    (HandleRequest (siteServeEnv flakyUpstream) loadedWorld (getRequest (str "/"))).fetches = 4 ∧
    (HandleRequest (siteServeEnv flakyUpstream) loadedWorld (getRequest (str "/"))).w.status
      = some 200 :=
  (retry_contract (siteServeEnv flakyUpstream) loadedWorld (getRequest (str "/")) 0 siteRoute
    siteBundle [] (by decide) (by decide) (by decide) (by decide) (by decide) (by decide)
    (by decide) (by decide) (by decide) (by decide) (by decide) (by decide) (by decide)).1
    3 okResponse (str "secret") (str "secret") (str "secret") (str "secret") (by decide)
    (fun i hi _ _ => ⟨busyResponse, by simp [siteServeEnv, flakyUpstream, hi], rfl⟩)
    (fun _ _ => by simp [siteServeEnv, flakyUpstream]) (by decide)
    (Or.inr ⟨by decide, by decide⟩) (by decide) (by decide) (by decide) (by decide)

/-- C6 as stated fails: the first upstream response has status 200 and the
content-encoding "compress"; the handler makes one fetch attempt and answers 500, not
200, because Decode returns an error. -/
theorem undecodable_response_is_500 :
    compressUpstream 0 0 (buildRequest plainLib (getRequest (str "/")) siteRoute (str "/") [])
      = .response { StatusCode := 200, Header := [(str "Content-Encoding", [str "compress"])],
                    Body := some (str "secret") } ∧
    (HandleRequest (siteServeEnv compressUpstream) loadedWorld (getRequest (str "/"))).fetches
      = 1 ∧
    (HandleRequest (siteServeEnv compressUpstream) loadedWorld (getRequest (str "/"))).w.status
      = some 500 := by decide

/-! ## HandleRequest: what is stored in the cache -/

/-- A request for an active route, on a path that is not blocked and misses the cache,
whose first k <= 3 attempts are answered with 503 and the next with a response of another
status, is finished by the response path after k + 1 fetches. -/
theorem HandleRequest_response (env : ServeEnv) (world : World) (r : Request) (sid : Nat)
    (site : WebsiteConfig) (bundle : SiteBaseConfig) (reqBody : GoString)
    (k : Nat) (resp : UpstreamResponse)
    (hhost : r.Host ≠ []) (hp1 : r.Path ≠ str "/reload_all_configs")
    (hp2 : startsWith r.Path (str "/reload_specific_config") = false)
    (hsite : GetSiteConfig world r.Host = some sid) (hroute : world.routes[sid]? = some site)
    (hbundle : world.bundles[site.BaseConfig]? = some bundle)
    (hactive : bundle.Deactivated = false)
    (hblock : site.ShouldBlock (fullPath r) = false) (hp3 : fullPath r ≠ str "/reload_config")
    (hmiss : (site.ProbeCache env.probeNow (fullPath r)).2 = false)
    (hpool : world.httpClients ≠ 0) (hbody : r.Body = some reqBody)
    (hreq : env.newRequestOk r.Method (site.URL (fullPath r)) = true)
    (hk : k ≤ 3) (h503 : first503 env k)
    (hresp : ∀ c q, env.upstream k c q = .response resp) (hst : resp.StatusCode ≠ 503) :
    ∃ index2, HandleRequest env world r
      = serveResponse env { world with httpClientIndex := index2 } sid site (fullPath r)
          ResponseWriter.fresh resp (k + 1) := by
  have hm := HandleRequest_miss env world r sid site bundle hhost hp1 hp2 hsite hroute hbundle
    hactive hblock hp3 hmiss
  have hbody1 : (dropIdentity r).Body = some reqBody := by rw [dropIdentity_Body]; exact hbody
  have hreq1 : env.newRequestOk (dropIdentity r).Method (site.URL (fullPath r)) = true := by
    rw [dropIdentity_Method]; exact hreq
  obtain ⟨client, index1, hloop⟩ := serveMiss_of_loop env world (dropIdentity r) sid site
    (fullPath r) reqBody ResponseWriter.fresh hpool hbody1
  obtain ⟨i2, hf⟩ := fetchLoop_response env world.httpClients (dropIdentity r) site (fullPath r)
    reqBody client index1 k resp hpool hreq1 hk h503 hresp hst
  exact ⟨i2, by rw [hm, hloop, hf]⟩

/-- The package state after the response path, for a response that is read, decoded,
rewritten and re-encoded without error: the route is replaced by the result of
MbSaveToCache exactly when the status is below 299. -/
theorem serveResponse_world (env : ServeEnv) (world : World) (sid : Nat) (site : WebsiteConfig)
    (path : GoString) (w : ResponseWriter) (resp : UpstreamResponse) (n : Nat)
    (read originalBody replaced newBody : GoString)
    (hread : resp.Body = some read)
    (hdec : Decode env.lib read (Header.Get resp.Header (str "Content-Encoding"))
      = some originalBody)
    (hrep : site.Replace env.lib originalBody = some replaced)
    (henc : Encode env.lib replaced (Header.Get resp.Header (str "Content-Encoding"))
      = some newBody) :
    (serveResponse env world sid site path w resp n).world =
      if resp.StatusCode < 299 then
        { world with routes := world.routes.set sid (site.MbSaveToCache env.storeNow path
            originalBody (outboundHeaders site path resp) resp.StatusCode) }
      else world := by
  unfold serveResponse outboundHeaders
  simp only [hread, hdec, hrep, henc]
  split <;> rfl

/-- The route after a request that ends in a response which is read, decoded, rewritten
and re-encoded without error: the result of MbSaveToCache when the status is below 299,
the route as it was for every status from 299 on. -/
theorem HandleRequest_route_after (env : ServeEnv) (world : World) (r : Request) (sid : Nat)
    (site : WebsiteConfig) (bundle : SiteBaseConfig) (reqBody : GoString)
    (k : Nat) (resp : UpstreamResponse) (read originalBody replaced newBody : GoString)
    (hhost : r.Host ≠ []) (hp1 : r.Path ≠ str "/reload_all_configs")
    (hp2 : startsWith r.Path (str "/reload_specific_config") = false)
    (hsite : GetSiteConfig world r.Host = some sid) (hroute : world.routes[sid]? = some site)
    (hbundle : world.bundles[site.BaseConfig]? = some bundle)
    (hactive : bundle.Deactivated = false)
    (hblock : site.ShouldBlock (fullPath r) = false) (hp3 : fullPath r ≠ str "/reload_config")
    (hmiss : (site.ProbeCache env.probeNow (fullPath r)).2 = false)
    (hpool : world.httpClients ≠ 0) (hbody : r.Body = some reqBody)
    (hreq : env.newRequestOk r.Method (site.URL (fullPath r)) = true)
    (hk : k ≤ 3) (h503 : first503 env k)
    (hresp : ∀ c q, env.upstream k c q = .response resp) (hst : resp.StatusCode ≠ 503)
    (hread : resp.Body = some read)
    (hdec : Decode env.lib read (Header.Get resp.Header (str "Content-Encoding"))
      = some originalBody)
    (hrep : site.Replace env.lib originalBody = some replaced)
    (henc : Encode env.lib replaced (Header.Get resp.Header (str "Content-Encoding"))
      = some newBody) :
    (HandleRequest env world r).world.routes[sid]? =
      some (if resp.StatusCode < 299 then
              site.MbSaveToCache env.storeNow (fullPath r) originalBody
                (outboundHeaders site (fullPath r) resp) resp.StatusCode
            else site) := by
  obtain ⟨i2, h⟩ := HandleRequest_response env world r sid site bundle reqBody k resp hhost hp1
    hp2 hsite hroute hbundle hactive hblock hp3 hmiss hpool hbody hreq hk h503 hresp hst
  have hlt : sid < world.routes.length := (List.getElem?_eq_some.mp hroute).1
  rw [h, serveResponse_world env _ sid site (fullPath r) ResponseWriter.fresh resp (k + 1)
    read originalBody replaced newBody hread hdec hrep henc]
  by_cases h299 : resp.StatusCode < 299
  · rw [if_pos h299, if_pos h299]
    exact List.getElem?_set_self hlt
  · rw [if_neg h299, if_neg h299]
    exact hroute

/-- C11, at the failing input. A GET on the loaded small site (route not no-cache, empty
bypass list, empty cache) whose upstream answers 299 with the body "secret": the handler
answers 299 and stores nothing for the path, because it stores only for a status below
299; the same request answered with 298 is stored. -/
theorem status_299_is_not_stored :
    (loadedWorld.routes[0]?).map (fun site => (site.NoCache, site.BypassCacheFor))
      = some (false, []) ∧
    (HandleRequest (siteServeEnv (statusUpstream 299)) loadedWorld (getRequest (str "/"))).w.status
      = some 299 ∧
    ((HandleRequest (siteServeEnv (statusUpstream 299)) loadedWorld
        (getRequest (str "/"))).world.routes[0]?).map
      (fun site => (mapGet site.cache (str "/")).map (fun e => (e.Content, e.Status)))
      = some none ∧
    ((HandleRequest (siteServeEnv (statusUpstream 298)) loadedWorld
        (getRequest (str "/"))).world.routes[0]?).map
      (fun site => (mapGet site.cache (str "/")).map (fun e => (e.Content, e.Status)))
      = some (some (str "secret", 298)) := by decide

/-! ## EncodeWithSomething -/

/-- Encode returns an error for every non-empty token it does not know by name. -/
theorem Encode_unknown (lib : ServerLib) (data e : GoString) (hne : e ≠ [])
    (hunk : ¬ knownEncoding e) : Encode lib data e = none := by
  unfold knownEncoding at hunk
  simp only [not_or] at hunk
  obtain ⟨h1, h2, h3, h4, h5, h6⟩ := hunk
  unfold Encode
  simp [h1, h2, h3, h4, h5, h6, hne]

/-- The loop of EncodeWithSomething reaches an unknown token, and returns the error, when
no chunk before it names an encoding that shrinks the data. -/
theorem encodeLoop_unknown (lib : ServerLib) (data tok : GoString) (post : List GoString)
    (hne : lib.TrimSpace tok ≠ []) (hunk : ¬ knownEncoding (lib.TrimSpace tok)) :
    ∀ (pre : List GoString), (∀ c ∈ pre, shrinks lib data c = false) →
      encodeLoop lib data (pre ++ tok :: post) = none := by
  intro pre
  induction pre with
  | nil =>
    intro _
    rw [List.nil_append, encodeLoop]
    simp only [hne, if_false, Encode_unknown lib data _ hne hunk]
  | cons c rest ih =>
    intro hpre
    have hc := hpre c (List.mem_cons_self _ _)
    have hrest := ih (fun d hd => hpre d (List.mem_cons_of_mem _ hd))
    rw [List.cons_append, encodeLoop]
    by_cases he : lib.TrimSpace c = []
    · simp only [he, if_true]
      exact hrest
    · simp only [he, if_false]
      unfold shrinks at hc
      cases henc : Encode lib data (lib.TrimSpace c) with
      | none => rfl
      | some encoded =>
        rw [henc] at hc
        have hlen : ¬ encoded.length < data.length := by simpa using hc
        simp only [hlen, if_false]
        exact hrest

/-- C12, as amended. For every byte string and every Accept-Encoding header: if a
comma-separated chunk of the header, trimmed, is non-empty and is not one of gzip, br,
brotli, deflate, zstd, plain, and no chunk before it names an encoding whose output is
strictly shorter than the input, then EncodeWithSomething returns an error. -/
theorem EncodeWithSomething_unknown (lib : ServerLib) (data acceptEncoding tok : GoString)
    (pre post : List GoString)
    (hsplit : splitByte 44 acceptEncoding = pre ++ tok :: post)
    (hne : lib.TrimSpace tok ≠ []) (hunk : ¬ knownEncoding (lib.TrimSpace tok))
    (hpre : ∀ c ∈ pre, shrinks lib data c = false) :
    EncodeWithSomething lib data acceptEncoding = none := by
  unfold EncodeWithSomething
  rw [hsplit]
  exact encodeLoop_unknown lib data tok post hne hunk pre hpre

theorem bogus_unknown : ¬ knownEncoding (str "bogus") := by
  unfold knownEncoding
  decide

/-- Witness of C12 as amended: the header "plain, bogus" on the body "abc". -/
theorem EncodeWithSomething_unknown_witness :
    EncodeWithSomething plainLib (str "abc") (str "plain, bogus") = none :=
  EncodeWithSomething_unknown plainLib (str "abc") (str "plain, bogus") (str " bogus")
    [str "plain"] [] (by decide) (by decide) bogus_unknown (by decide)

/-- C12 as stated fails: on a body of forty equal bytes and the header "gzip, bogus", with
a gzip encoder that shrinks the body, EncodeWithSomething returns the gzip result and no
error, although the second token of the header is not a known encoding: the loop returns at
the first token that shrinks the body. -/
theorem unknown_token_after_shrinking_one :
    splitByte 44 (str "gzip, bogus") = [str "gzip", str " bogus"] ∧
    runLengthLib.TrimSpace (str " bogus") = str "bogus" ∧
    Encode runLengthLib (List.replicate 40 97) (str "bogus") = none ∧
    EncodeWithSomething runLengthLib (List.replicate 40 97) (str "gzip, bogus")
      = some ([40, 97], str "gzip") := by decide

/-! ## getHttpClient: round robin -/

theorem residues_eq_map (m : Nat) :
    ∀ (n a : Nat), residues m a n = (List.range n).map (fun i => (a + i) % m) := by
  intro n
  induction n with
  | zero => intro a; rfl
  | succ n ih =>
    intro a
    rw [residues, ih (a + 1), List.range_succ_eq_map, List.map_cons, List.map_map]
    congr 1
    apply List.map_congr_left
    intro i _
    simp only [Function.comp]
    congr 1
    omega

theorem residues_length (m : Nat) (a n : Nat) : (residues m a n).length = n := by
  rw [residues_eq_map]; simp

theorem residues_lt (m : Nat) (hm : 0 < m) (a n : Nat) : ∀ x ∈ residues m a n, x < m := by
  intro x hx
  rw [residues_eq_map] at hx
  obtain ⟨i, _, rfl⟩ := List.mem_map.mp hx
  exact Nat.mod_lt _ hm

/-- Up to m consecutive numbers have pairwise different residues modulo m. -/
theorem residues_nodup (m a n : Nat) (hn : n ≤ m) : (residues m a n).Nodup := by
  rw [residues_eq_map]
  refine List.Nodup.map_on ?_ (List.nodup_range n)
  intro x hx y hy hxy
  have hx1 : x < m := lt_of_lt_of_le (List.mem_range.mp hx) hn
  have hy1 : y < m := lt_of_lt_of_le (List.mem_range.mp hy) hn
  have h1 : x ≡ y [MOD m] := Nat.ModEq.add_left_cancel' a hxy
  have h2 : x % m = y % m := h1
  rwa [Nat.mod_eq_of_lt hx1, Nat.mod_eq_of_lt hy1] at h2

theorem residues_add (m : Nat) :
    ∀ (k a n : Nat), residues m a (k + n) = residues m a k ++ residues m (a + k) n := by
  intro k
  induction k with
  | zero => intro a n; simp [residues]
  | succ k ih =>
    intro a n
    have e : k + 1 + n = (k + n) + 1 := by omega
    have e2 : a + 1 + k = a + (k + 1) := by omega
    rw [e, residues, residues, ih (a + 1) n, e2]
    rfl

theorem residues_shift (m a n : Nat) : residues m (a + m) n = residues m a n := by
  rw [residues_eq_map, residues_eq_map]
  apply List.map_congr_left
  intro i _
  have e : a + m + i = a + i + m := by omega
  rw [e, Nat.add_mod_right]

/-- Every residue occurs exactly once among m consecutive numbers. -/
theorem residues_count_full (m a j : Nat) (hj : j < m) :
    List.count j (residues m a m) = 1 := by
  have hm : 0 < m := by omega
  have hnd := residues_nodup m a m (le_refl _)
  have hsub : (residues m a m).toFinset ⊆ Finset.range m := by
    intro x hx
    exact Finset.mem_range.mpr (residues_lt m hm a m x (List.mem_toFinset.mp hx))
  have hcard : (Finset.range m).card ≤ (residues m a m).toFinset.card := by
    rw [List.toFinset_card_of_nodup hnd, residues_length, Finset.card_range]
  have heq := Finset.eq_of_subset_of_card_le hsub hcard
  have hmem : j ∈ residues m a m := by
    apply List.mem_toFinset.mp
    rw [heq]
    exact Finset.mem_range.mpr hj
  exact List.count_eq_one_of_mem hnd hmem

/-- Among q * m + r consecutive numbers, r < m, a residue occurs q times and as often
again as among the first r of them. -/
theorem residues_count (m j : Nat) (hj : j < m) :
    ∀ (q a r : Nat), List.count j (residues m a (q * m + r))
      = q + List.count j (residues m a r) := by
  intro q
  induction q with
  | zero => intro a r; simp
  | succ q ih =>
    intro a r
    have e : (q + 1) * m + r = m + (q * m + r) := by rw [Nat.add_mul]; omega
    rw [e, residues_add, List.count_append, residues_shift, residues_count_full m a j hj, ih a r]
    omega

/-- Among n consecutive numbers a residue modulo m occurs floor(n/m) times, or once more
when m does not divide n. -/
theorem residues_count_floor_ceil (m a n j : Nat) (hj : j < m) :
    List.count j (residues m a n) = n / m ∨
      (n % m ≠ 0 ∧ List.count j (residues m a n) = n / m + 1) := by
  have hm : 0 < m := by omega
  have hsplit : n = n / m * m + n % m := by
    have := Nat.div_add_mod n m
    rw [Nat.mul_comm] at this
    exact this.symm
  have hc := residues_count m j hj (n / m) a (n % m)
  rw [← hsplit] at hc
  have hle : List.count j (residues m a (n % m)) ≤ 1 :=
    List.nodup_iff_count_le_one.mp
      (residues_nodup m a (n % m) (le_of_lt (Nat.mod_lt n hm))) j
  by_cases h0 : n % m = 0
  · left
    rw [hc, h0]
    simp [residues]
  · by_cases h1 : List.count j (residues m a (n % m)) = 0
    · left; omega
    · right; exact ⟨h0, by omega⟩

/-- On a pool of two or more clients, while the counter does not wrap, consecutive calls
return the residues of the consecutive counter values. -/
theorem callsFrom_eq_residues (pool : Nat) (hp : 2 ≤ pool) :
    ∀ (n index : Nat), index + n < 2 ^ 64 →
      callsFrom pool n index = (residues pool (index + 1) n).map some ∧
      counterAfter pool n index = index + n := by
  intro n
  induction n with
  | zero => intro index _; exact ⟨rfl, rfl⟩
  | succ n ih =>
    intro index h
    have h1 : pool ≠ 1 := by omega
    have h0 : pool ≠ 0 := by omega
    have hmod : (index + 1) % 2 ^ 64 = index + 1 := Nat.mod_eq_of_lt (by omega)
    have hg : getHttpClient pool index = (some ((index + 1) % pool), index + 1) := by
      unfold getHttpClient
      simp only [h1, if_false, h0, hmod]
    obtain ⟨ih1, ih2⟩ := ih (index + 1) (by omega)
    constructor
    · rw [callsFrom, hg, residues, List.map_cons, ih1]
    · rw [counterAfter, hg, ih2]
      omega

/-- On a pool of one client every call returns that client and leaves the counter as it
was. -/
theorem callsFrom_one :
    ∀ (n index : Nat), callsFrom 1 n index = List.replicate n (some 0) ∧
      counterAfter 1 n index = index := by
  intro n
  induction n with
  | zero => intro index; exact ⟨rfl, rfl⟩
  | succ n ih =>
    intro index
    have hg : getHttpClient 1 index = (some 0, index) := by simp [getHttpClient]
    obtain ⟨ih1, ih2⟩ := ih index
    constructor
    · rw [callsFrom, hg, ih1]; rfl
    · rw [counterAfter, hg, ih2]

theorem count_some_map (j : Nat) (l : List Nat) :
    List.count (some j) (l.map some) = List.count j l := by
  induction l with
  | nil => rfl
  | cons x t ih =>
    rw [List.map_cons, List.count_cons, List.count_cons, ih]
    by_cases h : x = j <;> simp [h]

/-- C13, as amended. For every pool of M >= 1 clients and N consecutive calls of
getHttpClient from a counter value c, with M = 1 or with the counter not wrapping during
the calls (c + N < 2^64): each client is returned floor(N/M) times, or once more when M
does not divide N (that is ceil(N/M) times); M consecutive calls that do not wrap return M
distinct clients; with M = 1 the counter is not changed. -/
theorem round_robin (M N c : Nat) (hM : 1 ≤ M) (hwrap : M = 1 ∨ c + N < 2 ^ 64) :
    (∀ j : Nat, j < M →
      List.count (some j) (callsFrom M N c) = N / M ∨
        (N % M ≠ 0 ∧ List.count (some j) (callsFrom M N c) = N / M + 1)) ∧
    ((M = 1 ∨ c + M < 2 ^ 64) → (callsFrom M M c).Nodup ∧ (callsFrom M M c).length = M) ∧
    (M = 1 → counterAfter M N c = c) := by
  by_cases h1 : M = 1
  · subst h1
    refine ⟨?_, ?_, ?_⟩
    · intro j hj
      have hj0 : j = 0 := by omega
      subst hj0
      left
      rw [(callsFrom_one N c).1, List.count_replicate_self, Nat.div_one]
    · intro _
      rw [(callsFrom_one 1 c).1]
      exact ⟨by simp, by simp⟩
    · intro _
      exact (callsFrom_one N c).2
  · have hp : 2 ≤ M := by omega
    have hN : c + N < 2 ^ 64 := by
      rcases hwrap with h | h
      · exact absurd h h1
      · exact h
    refine ⟨?_, ?_, ?_⟩
    · intro j hj
      rw [(callsFrom_eq_residues M hp N c hN).1, count_some_map]
      exact residues_count_floor_ceil M (c + 1) N j hj
    · intro h
      have hMw : c + M < 2 ^ 64 := by
        rcases h with h | h
        · exact absurd h h1
        · exact h
      rw [(callsFrom_eq_residues M hp M c hMw).1]
      exact ⟨(residues_nodup M (c + 1) M (le_refl _)).map (Option.some_injective Nat),
        by rw [List.length_map, residues_length]⟩
    · intro h
      exact absurd h h1

/-- Witness of C13 as amended: seven calls on a pool of three clients from the counter
value 10. -/
theorem round_robin_witness :
    List.count (some 2) (callsFrom 3 7 10) = 7 / 3 ∨
      (7 % 3 ≠ 0 ∧ List.count (some 2) (callsFrom 3 7 10) = 7 / 3 + 1) :=
  (round_robin 3 7 10 (by decide) (Or.inr (by decide))).1 2 (by decide)

/-- C13 as stated fails: on a pool of three clients with the counter at 2^64 - 2, three
consecutive calls return the clients 0, 0, 1, because the counter wraps from 2^64 - 1 to 0
and 2^64 is no multiple of 3: client 0 is returned twice and client 2 not at all, where
floor(3/3) = ceil(3/3) = 1. -/
theorem round_robin_wraps :
    callsFrom 3 3 (2 ^ 64 - 2) = [some 0, some 0, some 1] ∧
    List.count (some 0) (callsFrom 3 3 (2 ^ 64 - 2)) = 2 ∧
    List.count (some 2) (callsFrom 3 3 (2 ^ 64 - 2)) = 0 ∧
    ¬ (callsFrom 3 3 (2 ^ 64 - 2)).Nodup := by decide

/-! ## The headers of a stored entry -/

/-- The allowlist filter of MbSaveToCache keeps Content-Type and Content-Language of the
header map it is given and nothing else, Content-Encoding included. -/
theorem headersToCache_get (headers : GoMap GoString GoString) (key : GoString) :
    mapGet (headersToCache headers cacheHeaders []) key =
      if key = str "Content-Type" ∨ key = str "Content-Language" then mapGet headers key
      else none := by
  have hne : str "Content-Type" ≠ str "Content-Language" := by decide
  have h1 : ¬ (str "Content-Type" = str "Content-Encoding" ∨
      str "Content-Type" = str "content-encoding") := by decide
  have h2 : str "Content-Encoding" = str "Content-Encoding" ∨
      str "Content-Encoding" = str "content-encoding" := Or.inl rfl
  have h3 : ¬ (str "Content-Language" = str "Content-Encoding" ∨
      str "Content-Language" = str "content-encoding") := by decide
  unfold cacheHeaders
  rw [headersToCache, if_neg h1]
  cases hct : mapGet headers (str "Content-Type") with
  | none =>
    simp only
    rw [headersToCache, if_pos h2, headersToCache, if_neg h3]
    cases hcl : mapGet headers (str "Content-Language") with
    | none =>
      simp only [headersToCache]
      by_cases hk : key = str "Content-Type" ∨ key = str "Content-Language"
      · rw [if_pos hk]
        rcases hk with hk | hk <;> subst hk <;> simp [mapGet, hct, hcl]
      · rw [if_neg hk]; rfl
    | some v2 =>
      simp only [headersToCache]
      by_cases hk1 : key = str "Content-Language"
      · subst hk1
        simp [mapSet, mapGet, hcl]
      · by_cases hk2 : key = str "Content-Type"
        · subst hk2
          simp [mapSet, mapGet, hct, hne.symm]
        · simp [mapSet, mapGet, hk1, hk2, Ne.symm hk1]
  | some v1 =>
    simp only
    rw [headersToCache, if_pos h2, headersToCache, if_neg h3]
    cases hcl : mapGet headers (str "Content-Language") with
    | none =>
      simp only [headersToCache]
      by_cases hk2 : key = str "Content-Type"
      · subst hk2
        simp [mapSet, mapGet, hct]
      · by_cases hk1 : key = str "Content-Language"
        · subst hk1
          simp [mapSet, mapGet, hcl, hne]
        · simp [mapSet, mapGet, hk1, hk2, Ne.symm hk2]
    | some v2 =>
      simp only [headersToCache]
      by_cases hk2 : key = str "Content-Type"
      · subst hk2
        simp [mapSet, mapGet, hct, hne]
      · by_cases hk1 : key = str "Content-Language"
        · subst hk1
          simp [mapSet, mapGet, hcl, hne]
        · simp [mapSet, mapGet, hk1, hk2, Ne.symm hk2, Ne.symm hk1, hne]

/-- After the override loop a key that the overrides bind to one value only is bound to
that value. -/
theorem overrideAll_get (key v : GoString) :
    ∀ (ovs : GoMap GoString GoString) (m : GoMap GoString GoString),
      (∀ v1, (key, v1) ∈ ovs → v1 = v) →
      (mapGet m key = some v ∨ (key, v) ∈ ovs) →
      mapGet (overrideAll ovs m) key = some v := by
  intro ovs
  induction ovs with
  | nil =>
    intro m _ h
    rcases h with h | h
    · exact h
    · exact absurd h (by simp)
  | cons p rest ih =>
    obtain ⟨k1, v1⟩ := p
    intro m huniq h
    rw [overrideAll]
    have huniq1 : ∀ v2, (key, v2) ∈ rest → v2 = v :=
      fun v2 h2 => huniq v2 (List.mem_cons_of_mem _ h2)
    by_cases hk : k1 = key
    · subst hk
      have hv : v1 = v := huniq v1 (List.mem_cons_self _ _)
      subst hv
      exact ih _ huniq1 (Or.inl (mapGet_mapSet_eq _ _ _))
    · refine ih _ huniq1 ?_
      rcases h with h | h
      · left
        rw [mapGet_mapSet_ne _ _ _ _ hk]
        exact h
      · right
        rcases List.mem_cons.mp h with h | h
        · exact absurd (Prod.mk.inj h).1.symm hk
        · exact h

/-- C14, as amended. For every upstream response that HandleRequest stores in the cache
(status below 299, route not no-cache, path not in the bypass list, body read, decoded,
rewritten and re-encoded without error): the headers of the stored entry are the allowlist
filter (Content-Type, Content-Language, never Content-Encoding) of the header map as it is
after the route's response-header overrides were applied, so an override of Content-Type
or Content-Language is what is cached. -/
theorem stored_headers_follow_overrides (env : ServeEnv) (world : World) (r : Request)
    (sid : Nat) (site : WebsiteConfig) (bundle : SiteBaseConfig) (reqBody : GoString)
    (k : Nat) (resp : UpstreamResponse) (read originalBody replaced newBody : GoString)
    (hhost : r.Host ≠ []) (hp1 : r.Path ≠ str "/reload_all_configs")
    (hp2 : startsWith r.Path (str "/reload_specific_config") = false)
    (hsite : GetSiteConfig world r.Host = some sid) (hroute : world.routes[sid]? = some site)
    (hbundle : world.bundles[site.BaseConfig]? = some bundle)
    (hactive : bundle.Deactivated = false)
    (hblock : site.ShouldBlock (fullPath r) = false) (hp3 : fullPath r ≠ str "/reload_config")
    (hmiss : (site.ProbeCache env.probeNow (fullPath r)).2 = false)
    (hpool : world.httpClients ≠ 0) (hbody : r.Body = some reqBody)
    (hreq : env.newRequestOk r.Method (site.URL (fullPath r)) = true)
    (hk : k ≤ 3) (h503 : first503 env k)
    (hresp : ∀ c q, env.upstream k c q = .response resp) (hst : resp.StatusCode ≠ 503)
    (hread : resp.Body = some read)
    (hdec : Decode env.lib read (Header.Get resp.Header (str "Content-Encoding"))
      = some originalBody)
    (hrep : site.Replace env.lib originalBody = some replaced)
    (henc : Encode env.lib replaced (Header.Get resp.Header (str "Content-Encoding"))
      = some newBody)
    (h299 : resp.StatusCode < 299) (hnc : site.NoCache = false)
    (hbp : fullPath r ∉ site.BypassCacheFor) :
    ∃ site1 entry, (HandleRequest env world r).world.routes[sid]? = some site1 ∧
      mapGet site1.cache (fullPath r) = some entry ∧
      entry.Content = originalBody ∧
      (∀ key, mapGet entry.Headers key =
        if key = str "Content-Type" ∨ key = str "Content-Language" then
          mapGet (outboundHeaders site (fullPath r) resp) key
        else none) ∧
      (∀ key v, (key = str "Content-Type" ∨ key = str "Content-Language") →
        (key, v) ∈ site.RespHeadersOverride →
        (∀ v1, (key, v1) ∈ site.RespHeadersOverride → v1 = v) →
        mapGet entry.Headers key = some v) := by
  have hafter := HandleRequest_route_after env world r sid site bundle reqBody k resp read
    originalBody replaced newBody hhost hp1 hp2 hsite hroute hbundle hactive hblock hp3 hmiss
    hpool hbody hreq hk h503 hresp hst hread hdec hrep henc
  rw [if_pos h299] at hafter
  have hsave : site.MbSaveToCache env.storeNow (fullPath r) originalBody
      (outboundHeaders site (fullPath r) resp) resp.StatusCode =
      { site with cache := mapSet site.cache (fullPath r) ⟨fullPath r, env.storeNow,
          originalBody, resp.StatusCode,
          headersToCache (outboundHeaders site (fullPath r) resp) cacheHeaders []⟩ } := by
    unfold WebsiteConfig.MbSaveToCache
    simp [hnc, hbp]
  rw [hsave] at hafter
  refine ⟨_, _, hafter, mapGet_mapSet_eq _ _ _, rfl, ?_, ?_⟩
  · intro key
    exact headersToCache_get _ key
  · intro key v hkey hmem huniq
    show mapGet (headersToCache (outboundHeaders site (fullPath r) resp) cacheHeaders []) key
      = some v
    rw [headersToCache_get, if_pos hkey]
    have hcl : key ≠ str "Content-Length" := by
      rcases hkey with h | h <;> rw [h] <;> decide
    unfold outboundHeaders
    rw [mapGet_mapDelete_ne _ _ _ (Ne.symm hcl)]
    exact overrideAll_get key v _ _ huniq (Or.inr hmem)

/-- Witness of C14 as amended: a text/html response on the route that overrides
Content-Type with text/plain is stored with Content-Type text/plain. -/
theorem stored_headers_follow_overrides_witness :
    ∃ site1 entry,
      (HandleRequest (siteServeEnv htmlUpstream) overrideWorld
        (getRequest (str "/"))).world.routes[0]? = some site1 ∧
      mapGet site1.cache (fullPath (getRequest (str "/"))) = some entry ∧
      entry.Content = str "secret" ∧
      (∀ key, mapGet entry.Headers key =
        if key = str "Content-Type" ∨ key = str "Content-Language" then
          mapGet (outboundHeaders overrideRoute (fullPath (getRequest (str "/"))) htmlResponse) key
        else none) ∧
      (∀ key v, (key = str "Content-Type" ∨ key = str "Content-Language") →
        (key, v) ∈ overrideRoute.RespHeadersOverride →
        (∀ v1, (key, v1) ∈ overrideRoute.RespHeadersOverride → v1 = v) →
        mapGet entry.Headers key = some v) :=
  stored_headers_follow_overrides (siteServeEnv htmlUpstream) overrideWorld
    (getRequest (str "/")) 0 overrideRoute siteBundle [] 0 htmlResponse (str "secret")
    (str "secret") (str "secret") (str "secret")
    (by decide) (by decide) (by decide) (by decide) (by decide) (by decide) (by decide)
    (by decide) (by decide) (by decide) (by decide) (by decide) (by decide) (by decide)
    (fun i hi => absurd hi (Nat.not_lt_zero i)) (fun _ _ => rfl) (by decide)
    (by decide) (by decide) (by decide) (by decide) (by decide) (by decide) (by decide)

/-- C14 as stated fails: on the route that overrides Content-Type with text/plain, a
response with Content-Type text/html is stored with Content-Type text/plain, whereas the
allowlist filter of the upstream headers before the overrides has text/html. -/
theorem override_changes_cached_headers :
    ((HandleRequest (siteServeEnv htmlUpstream) overrideWorld
        (getRequest (str "/"))).world.routes[0]?).map
      (fun site => (mapGet site.cache (str "/")).map (fun e => e.Headers))
      = some (some [(str "Content-Type", str "text/plain")]) ∧
    headersToCache (firstValues htmlResponse.Header []) cacheHeaders []
      = [(str "Content-Type", str "text/html")] := by decide

/-! ## HandleRequest on a cache hit -/

/-- C15, at the failing input. A cache hit on the path /a of the small site, whose route
has no replacements, so that site.Replace leaves the cached body as it is: with
Accept-Encoding gzip and a gzip encoder that shrinks the body, the handler sets X-Replaced
and the no-cache directives, because it compares the encoded body with the cached one;
the same hit with no Accept-Encoding header sets none of them. -/
theorem encoding_sets_rewritten_marker :
    (runWorld.routes[0]?).bind (fun site => site.Replace runLengthLib (List.replicate 40 97))
      = some (List.replicate 40 97) ∧
    (runWorld.routes[0]?).map (fun site => (site.ProbeCache 2000 (str "/a")).2) = some true ∧
    (HandleRequest runServeEnv runWorld (acceptRequest (str "/a") (str "gzip"))).fetches = 0 ∧
    (HandleRequest runServeEnv runWorld (acceptRequest (str "/a") (str "gzip"))).w.body
      = [40, 97] ∧
    mapGet (HandleRequest runServeEnv runWorld
        (acceptRequest (str "/a") (str "gzip"))).w.sentHeader (str "X-Replaced")
      = some [str "1"] ∧
    mapGet (HandleRequest runServeEnv runWorld
        (acceptRequest (str "/a") (str "gzip"))).w.sentHeader (str "Cache-Control")
      = some [str "no-cache"] ∧
    (HandleRequest runServeEnv runWorld (getRequest (str "/a"))).w.body
      = List.replicate 40 97 ∧
    mapGet (HandleRequest runServeEnv runWorld (getRequest (str "/a"))).w.sentHeader
      (str "X-Replaced") = none ∧
    mapGet (HandleRequest runServeEnv runWorld (getRequest (str "/a"))).w.sentHeader
      (str "Cache-Control") = none := by decide

/-! ## formatString: run-time failures -/

/-- C16, at the failing input. The token pattern admits the formatter text "leftpad(",
an opening parenthesis with no closing one; with the identifier var1 in the dictionary,
formatWithFormatters slices formatterName[8:-1] and formatString fails at run time
instead of returning a string or an error. The same happens for ")(". -/
theorem formatString_panics :
    findAll (tokenText (str "var1:leftpad("))
      = [(tokenText (str "var1:leftpad("), str "var1:leftpad(")] ∧
    indexByte 40 (str "leftpad(") = 7 ∧ indexByte 41 (str "leftpad(") = -1 ∧
    slice (str "leftpad(") 8 (-1) = none ∧
    formatWithFormatters asciiLib (str "value1") [str "leftpad("] = .panic ∧
    formatString asciiLib (tokenText (str "var1:leftpad(")) testDictionary = .panic ∧
    formatString asciiLib (tokenText (str "var1:)(")) testDictionary = .panic := by decide

/-- Go strings.Index for one byte lies between -1 and the last position. -/
theorem indexByte_bounds (c : Nat) (s : GoString) :
    -1 ≤ indexByte c s ∧ indexByte c s < (s.length : Int) := by
  induction s with
  | nil => simp [indexByte]
  | cons b t ih =>
    obtain ⟨h1, h2⟩ := ih
    simp only [indexByte, List.length_cons]
    push_cast
    by_cases hb : b = c
    · simp only [hb, if_true]
      omega
    · simp only [hb, if_false]
      split_ifs <;> omega

/-- A byte that occurs has a position. -/
theorem indexByte_nonneg (c : Nat) (s : GoString) (h : c ∈ s) : 0 ≤ indexByte c s := by
  induction s with
  | nil => simp at h
  | cons b t ih =>
    simp only [indexByte]
    by_cases hb : b = c
    · simp [hb]
    · have ht : c ∈ t := by
        rcases List.mem_cons.mp h with h1 | h1
        · exact absurd h1.symm hb
        · exact h1
      have := ih ht
      simp only [hb, if_false]
      split_ifs <;> omega

/-- The argument extraction of formatWithFormatters fails at run time exactly when the
formatter text has an opening parenthesis and no closing parenthesis after it. -/
theorem extractArgs_none_iff (formatterName : GoString) (args : List GoString) :
    extractArgs formatterName args = none ↔
      40 ∈ formatterName ∧ indexByte 41 formatterName ≤ indexByte 40 formatterName := by
  have b40 := indexByte_bounds 40 formatterName
  have b41 := indexByte_bounds 41 formatterName
  unfold extractArgs containsByte
  by_cases hmem : 40 ∈ formatterName
  · have h0 := indexByte_nonneg 40 formatterName hmem
    have hs : slice formatterName 0 (indexByte 40 formatterName)
        = some ((formatterName.drop 0).take ((indexByte 40 formatterName).toNat - 0)) := by
      unfold slice
      rw [if_pos ⟨le_refl 0, h0, le_of_lt b40.2⟩]
      rfl
    simp only [hmem, decide_True, if_true, true_and]
    by_cases hle : indexByte 41 formatterName ≤ indexByte 40 formatterName
    · have hn : slice formatterName (indexByte 40 formatterName + 1)
          (indexByte 41 formatterName) = none := by
        unfold slice
        rw [if_neg]
        intro hc
        omega
      simp [hn, hle]
    · have hn : slice formatterName (indexByte 40 formatterName + 1)
          (indexByte 41 formatterName) = some ((formatterName.drop
            (indexByte 40 formatterName + 1).toNat).take
              ((indexByte 41 formatterName).toNat
                - (indexByte 40 formatterName + 1).toNat)) := by
        unfold slice
        rw [if_pos]
        refine ⟨by omega, by omega, le_of_lt b41.2⟩
      simp [hn, hs, hle]
  · simp [hmem]

/-- The loop of formatWithFormatters fails at run time only at a formatter text with an
opening parenthesis and no closing parenthesis after it. -/
theorem formatLoop_panic (lib : StringsLib) (fs : List GoString) (val : GoString)
    (args : List GoString) (h : formatLoop lib fs val args = .panic) :
    ∃ f ∈ fs, 40 ∈ f ∧ indexByte 41 f ≤ indexByte 40 f := by
  induction fs generalizing val args with
  | nil => simp [formatLoop] at h
  | cons f rest ih =>
    rw [formatLoop] at h
    cases hx : extractArgs f args with
    | none => exact ⟨f, List.mem_cons_self _ _, (extractArgs_none_iff f args).mp hx⟩
    | some p =>
      obtain ⟨name, args1⟩ := p
      rw [hx] at h
      dsimp only at h
      cases hsel : selectFormatter name with
      | none => rw [hsel] at h; simp at h
      | some fm =>
        rw [hsel] at h
        dsimp only at h
        cases hf : fm.Format lib val args1 with
        | error e => rw [hf] at h; simp at h
        | ok v1 =>
          rw [hf] at h
          dsimp only at h
          obtain ⟨g, hg, hp⟩ := ih v1 args1 h
          exact ⟨g, List.mem_cons_of_mem _ hg, hp⟩

end Proxier
